import Mathlib

/-!
Verification of the `sbx` push/sync core against its specification.

The Go sources are shallowly embedded:
* `internal/infra/limiter/space_limiter.go` — token bucket (`TokenBucket`,
  `newBucket`, `refillLocked`, the body of `wait`, `nudge`);
* the Storyblok client `Client.do` retry loop — `doLoop` / `clientDo`;
* `internal/matcher/matcher.go` — `filterGo`;
* `internal/app/push/push.go` — schema whitelist rewriting, group/tag
  ensuring, `createComponent` / `updateComponent`, and the `Run` workflow
  modelled as a sequential state transformer over a remote-space model;
* the JSON extras round trip of the `storyblok` models file.

Time is modelled with rationals (seconds), durations in milliseconds with
naturals, machine floats with rationals, and the remote API as an explicit
state: the server stores exactly the attributes present in a marshalled
payload (a field carrying its Go zero value is omitted by `omitempty` and
therefore leaves the stored attribute unchanged; fields without `omitempty`
always replace).
-/

namespace Sbx

/-! ## Token bucket (space_limiter.go) -/

/-- State of `tokenBucket`: `last` is dropped, elapsed time is passed
explicitly to the operations that read the clock. -/
structure TokenBucket where
  rps : ℚ
  burst : ℚ
  tokens : ℚ
  deriving Repr, DecidableEq

/-- `newBucket`: a fresh bucket holds full burst capacity. -/
def newBucket (rps burst : ℚ) : TokenBucket :=
  { rps := rps, burst := burst, tokens := burst }

/-- `refillLocked`: lazy refill from elapsed wall-clock seconds, capped at
`burst`; a non-positive delta leaves the bucket untouched. -/
def refillLocked (b : TokenBucket) (elapsed : ℚ) : TokenBucket :=
  let delta := elapsed * b.rps
  if delta ≤ 0 then b
  else { b with tokens := min (b.tokens + delta) b.burst }

/-- Result of one iteration of `tokenBucket.wait`: either a token was
acquired, or the caller must sleep for the returned number of seconds. -/
inductive WaitStepResult where
  | acquired (b : TokenBucket)
  | sleep (b : TokenBucket) (seconds : ℚ)
  deriving Repr, DecidableEq

/-- One iteration of the loop body of `tokenBucket.wait` (`ctx` never
cancelled): refill, take a token if at least one is available, otherwise
compute the sleep `needed / rps` clamped below by 5ms. -/
def waitStep (b : TokenBucket) (elapsed : ℚ) : WaitStepResult :=
  let b := refillLocked b elapsed
  if 1 ≤ b.tokens then .acquired { b with tokens := b.tokens - 1 }
  else
    let needed := 1 - b.tokens
    let rps := if b.rps ≤ 0 then 1 else b.rps
    let w := needed / rps
    .sleep b (if w < 5 / 1000 then 5 / 1000 else w)

/-- `n` consecutive acquisition attempts with no wall-clock time elapsing;
`none` if any of them would have to sleep. -/
def acquireRun (b : TokenBucket) : Nat → Option TokenBucket
  | 0 => some b
  | n + 1 =>
    match waitStep b 0 with
    | .acquired b' => acquireRun b' n
    | .sleep _ _ => none

/-- `SpaceLimiter.nudge`: shift `rps` by `delta` and clamp into
`[lo, hi]`. -/
def nudge (b : TokenBucket) (delta lo hi : ℚ) : TokenBucket :=
  let r := b.rps + delta
  let r := if r < lo then lo else r
  let r := if r > hi then hi else r
  { b with rps := r }

/-! ## The client retry loop (`Client.do`) -/

/-- What one HTTP attempt observes: a transport-level failure, or a
response with the given status code. -/
inductive AttemptResult where
  | transportError
  | status (code : Nat)
  deriving Repr, DecidableEq

/-- How `Client.do` finishes: success, or the last observed error. -/
inductive DoResult where
  | ok
  | transportFailed
  | apiError (code : Nat)
  deriving Repr, DecidableEq

/-- Observable trace of one `Client.do` call: attempts made, the backoff
waits slept (milliseconds, in order), the outcome, and how often the
rate-limit / server-error retry counters were bumped. -/
structure DoTrace where
  attempts : Nat
  waits : List Nat
  result : DoResult
  rate429 : Nat
  server5xx : Nat
  deriving Repr, DecidableEq

/-- 2xx check of the response handler. -/
def isSuccessCode (c : Nat) : Bool := 200 ≤ c && c < 300

/-- The terminal-4xx check after the response handler:
`400 ≤ code < 500` and not 429. -/
def isTerminal4xxCode (c : Nat) : Bool := 400 ≤ c && c < 500 && c != 429

/-- An attempt outcome the loop retries: transport failure, 429, or 5xx. -/
def isRetriable : AttemptResult → Bool
  | .transportError => true
  | .status c => c == 429 || 500 ≤ c

/-- The body of `Client.do`'s `for` loop. `resp i` is what attempt `i`
observes; `fuel` is `maxRetries - attempt`; `backoff` is in milliseconds;
`waits`, `r429`, `r5xx` accumulate; `lastErr` mirrors the Go variable. -/
def doLoop (resp : Nat → AttemptResult) :
    Nat → Nat → Nat → List Nat → Nat → Nat → DoResult → DoTrace
  | 0, attempt, _, waits, r429, r5xx, lastErr =>
    { attempts := attempt, waits := waits, result := lastErr,
      rate429 := r429, server5xx := r5xx }
  | fuel + 1, attempt, backoff, waits, r429, r5xx, _ =>
    match resp attempt with
    | .transportError =>
      doLoop resp fuel (attempt + 1) (backoff * 2) (waits ++ [backoff])
        r429 r5xx .transportFailed
    | .status c =>
      if isSuccessCode c then
        { attempts := attempt + 1, waits := waits, result := .ok,
          rate429 := r429, server5xx := r5xx }
      else
        let r429 := if c == 429 then r429 + 1 else r429
        let r5xx := if c != 429 && 500 ≤ c then r5xx + 1 else r5xx
        if isTerminal4xxCode c then
          { attempts := attempt + 1, waits := waits, result := .apiError c,
            rate429 := r429, server5xx := r5xx }
        else if c == 429 || 500 ≤ c then
          doLoop resp fuel (attempt + 1) (backoff * 2) (waits ++ [backoff])
            r429 r5xx (.apiError c)
        else
          { attempts := attempt + 1, waits := waits, result := .apiError c,
            rate429 := r429, server5xx := r5xx }

/-- `Client.do` with the constructor defaults `maxRetries = 5`,
`backoffStart = 250ms`. -/
def clientDo (resp : Nat → AttemptResult) : DoTrace :=
  doLoop resp 5 0 250 [] 0 0 .ok

example : clientDo (fun _ => .status 429) =
    { attempts := 5, waits := [250, 500, 1000, 2000, 4000],
      result := .apiError 429, rate429 := 5, server5xx := 0 } := by decide

example : clientDo (fun _ => .status 404) =
    { attempts := 1, waits := [], result := .apiError 404,
      rate429 := 0, server5xx := 0 } := by decide

example : clientDo (fun i => if i < 3 then .status 429 else .status 200) =
    { attempts := 4, waits := [250, 500, 1000], result := .ok,
      rate429 := 3, server5xx := 0 } := by decide

/-! ## The matcher (`internal/matcher/matcher.go`) -/

instance {ε α : Type _} [DecidableEq ε] [DecidableEq α] :
    DecidableEq (Except ε α) := fun x y =>
  match x, y with
  | .ok a, .ok b =>
    if h : a = b then isTrue (congrArg Except.ok h)
    else isFalse fun hh => h (Except.ok.inj hh)
  | .error a, .error b =>
    if h : a = b then isTrue (congrArg Except.error h)
    else isFalse fun hh => h (Except.error.inj hh)
  | .ok _, .error _ => isFalse fun hh => Except.noConfusion hh
  | .error _, .ok _ => isFalse fun hh => Except.noConfusion hh

/-- Go `strings.ToLower`, on the ASCII fragment (character-wise). -/
def strToLower (s : String) : String := ⟨s.data.map Char.toLower⟩

/-- Go `strings.TrimSpace`: drop leading and trailing whitespace. -/
def strTrim (s : String) : String :=
  ⟨((s.data.dropWhile Char.isWhitespace).reverse.dropWhile
      Char.isWhitespace).reverse⟩

/-- Go `strings.HasPrefix`. -/
def strStartsWith (pre s : String) : Bool := pre.data.isPrefixOf s.data

/-- `ValidateMode` accepts exactly `exact`, `prefix`, `glob`
(lower-cased first). -/
def validMode (mode : String) : Bool :=
  mode == "exact" || mode == "prefix" || mode == "glob"

/-- `matches`: the per-mode comparison. `filepath.Match` is Go standard
library code, so glob semantics are a parameter `glob`; `matches` under
`glob` succeeds when the pattern matcher does and reports no error. -/
def matchesMode (glob : String → String → Bool)
    (value selector mode : String) : Bool :=
  if mode == "exact" then value == selector
  else if mode == "prefix" then strStartsWith selector value
  else if mode == "glob" then glob selector value
  else false

/-- The accumulator of `Filter`'s item loop: selection so far, names seen,
and the per-selector hit flags. -/
structure FilterAcc (α : Type) where
  selected : List α
  seen : List String
  hit : List Bool

/-- Body of `Filter`'s loop over `items`: an item matches when some
non-empty normalized selector matches its lower-cased name; its hit flags
are recorded, and the item is appended unless its (exact) name was already
selected. -/
def filterStep {α : Type} (glob : String → String → Bool)
    (nameFn : α → String) (norm : List String) (mode : String)
    (acc : FilterAcc α) (item : α) : FilterAcc α :=
  let name := nameFn item
  let cmp := strToLower name
  let flags := norm.map fun s => s != "" && matchesMode glob cmp s mode
  let matched := flags.any id
  let hit := (acc.hit.zip flags).map fun p => p.1 || p.2
  if matched && !(acc.seen.contains name) then
    { selected := acc.selected ++ [item], seen := acc.seen ++ [name], hit := hit }
  else
    { acc with hit := hit }

/-- `matcher.Filter`. Returns the selection and the selectors that hit
nothing, or an error message. -/
def filterGo {α : Type} (glob : String → String → Bool) (items : List α)
    (nameFn : α → String) (selectors : List String) (mode : String)
    (all : Bool) : Except String (List α × List String) :=
  let mode := strToLower mode
  if !validMode mode then .error "invalid match mode"
  else if all then .ok (items, [])
  else if selectors.isEmpty then .error "no selectors provided"
  else
    let norm := selectors.map fun s => strToLower (strTrim s)
    let init : FilterAcc α := ⟨[], [], norm.map fun _ => false⟩
    let acc := items.foldl (filterStep glob nameFn norm mode) init
    let missing := ((selectors.zip acc.hit).filter fun p => !p.2).map Prod.fst
    .ok (acc.selected, missing)

example : filterGo (fun _ _ => false) ["hero", "missing"]
    id ["hero", "missing-one"] "exact" false = .ok (["hero"], ["missing-one"]) := by
  decide

example : filterGo (fun _ _ => false) ["b", "a"] id ["zzz"] "EXACT" true =
    .ok (["b", "a"], []) := by decide

/-! ## Schema whitelist rewriting (`mapSchemaGroupWhitelist`) -/

/-- An entry of a `component_group_whitelist` array: a JSON string or some
non-string value (kept opaque). -/
inductive WLEntry where
  | str (s : String)
  | nonstr (tag : Nat)
  deriving Repr, DecidableEq

/-- A schema field value: either a map carrying a
`component_group_whitelist` array (other keys opaque as `rest`), or
anything else (opaque). Only the former is touched by the rewrite. -/
inductive FieldVal where
  | withWhitelist (wl : List WLEntry) (rest : Nat)
  | plain (tag : Nat)
  deriving Repr, DecidableEq

/-- A component schema: the top-level map, as a key/value list. -/
def Schema := List (String × FieldVal)

instance : DecidableEq Schema := by unfold Schema; infer_instance

instance : Repr Schema := by unfold Schema; infer_instance

/-- The inner loop of `mapSchemaGroupWhitelist` over one whitelist:
`mapped` starts empty; a non-string entry reads as the empty string and is
skipped, an empty string is skipped, and a name is appended as the cache
UUID when the lookup resolves, else passed through unchanged. -/
def mapWhitelist (lookup : String → Option String) (wl : List WLEntry) :
    List WLEntry :=
  wl.foldl
    (fun mapped item =>
      match item with
      | .nonstr _ => mapped
      | .str s =>
        if s = "" then mapped
        else
          match lookup s with
          | some uuid => mapped ++ [.str uuid]
          | none => mapped ++ [.str s])
    []

/-- The schema traversal of `mapSchemaGroupWhitelist`: rewrite every field
that carries a whitelist, leave the rest untouched. -/
def rewriteSchema (lookup : String → Option String) (schema : Schema) : Schema :=
  schema.map fun kv =>
    match kv with
    | (k, .withWhitelist wl rest) => (k, .withWhitelist (mapWhitelist lookup wl) rest)
    | (k, .plain t) => (k, .plain t)

/-- `mapSchemaGroupWhitelist`: the Go function mutates the component's
schema and always returns `nil`. -/
def mapSchemaGroupWhitelist (lookup : String → Option String)
    (schema : Schema) : Except String Schema :=
  .ok (rewriteSchema lookup schema)

example :
    mapSchemaGroupWhitelist
      (fun s => if s = "layout" then some "uuid-1" else none)
      [("body", .withWhitelist [.str "layout", .str "", .str "other"] 0)] =
    .ok [("body", .withWhitelist [.str "uuid-1", .str "other"] 0)] := by rfl

/-! ## The push workflow (`internal/app/push/push.go`)

Remote identifiers (component/preset/tag IDs and group UUIDs) are
naturals assigned from a fresh counter; a group UUID string is never equal
to a raw group name, which the model reflects by giving resolved UUIDs
their own constructor.  The remote API collaborator applies exactly the
attributes present in a marshalled payload: a field tagged `omitempty`
whose value is the Go zero value is absent from the payload and leaves the
stored attribute unchanged, while `name`, `schema` and `preset` (no
`omitempty`) always replace. -/

/-- Normalization used by the group and component caches:
`strings.ToLower(strings.TrimSpace(name))`. -/
def normKey (s : String) : String := strToLower (strTrim s)

/-- A Storyblok component, restricted to the fields the push workflow
reads or writes. `groupUUID = none` is Go's empty
`component_group_uuid`; `presetID = 0` and `id = 0` are unset. The
internal-tags list keeps only tag names (the only part the code reads). -/
structure MComponent where
  id : Nat
  name : String
  displayName : String
  schema : Schema
  groupUUID : Option Nat
  groupName : String
  presetID : Nat
  tagsList : List String
  tagIDs : List Nat
  deriving Repr, DecidableEq

/-- The Go zero `storyblok.Component`. -/
def emptyComponent : MComponent :=
  { id := 0, name := "", displayName := "", schema := [], groupUUID := none,
    groupName := "", presetID := 0, tagsList := [], tagIDs := [] }

/-- The `preset` payload map: the embedded `component` name plus opaque
remaining content. -/
structure PresetPayload where
  component : String
  rest : Nat
  deriving Repr, DecidableEq

/-- A component preset (desired or remote): `id = 0` is unset,
`image = none` is an absent image. -/
structure MPreset where
  id : Nat
  name : String
  componentID : Nat
  payload : PresetPayload
  image : Option Nat
  deriving Repr, DecidableEq

/-- A remote component group. -/
structure RGroup where
  uuid : Nat
  name : String
  deriving Repr, DecidableEq

/-- A remote internal tag. -/
structure RTag where
  id : Nat
  name : String
  objectType : String
  deriving Repr, DecidableEq

/-- The remote space: its four entity collections plus the counter from
which the remote assigns fresh identifiers. -/
structure Space where
  comps : List MComponent
  groups : List RGroup
  presets : List MPreset
  tags : List RTag
  fresh : Nat
  deriving Repr, DecidableEq

/-! ### Caches (push.go `groupCache` / `tagCache` / `componentCache`) -/

/-- `groupCache`: normalized name to UUID. -/
def GroupCache := String → Option Nat

/-- `tagCache`: trimmed name to tag ID. -/
def TagCache := String → Option Nat

/-- `componentCache`: normalized name to the current remote component. -/
def CompCache := String → Option MComponent

/-- `groupCache.Set`: skip empty names (a UUID, being remote-assigned, is
never empty); store under the normalized key. -/
def groupCacheSet (c : GroupCache) (name : String) (uuid : Nat) : GroupCache :=
  if name = "" then c
  else fun k => if k = normKey name then some uuid else c k

/-- `tagCache.Set`: skip empty names, non-positive IDs, and names that
trim to empty. -/
def tagCacheSet (c : TagCache) (name : String) (id : Nat) : TagCache :=
  if name = "" || id = 0 then c
  else if strTrim name = "" then c
  else fun k => if k = strTrim name then some id else c k

/-- `componentCache.Set`: skip keys that normalize to empty. -/
def compCacheSet (c : CompCache) (name : String) (comp : MComponent) : CompCache :=
  if normKey name = "" then c
  else fun k => if k = normKey name then some comp else c k

/-- `componentCache.Replace`: drop the old key, insert the new one (the
insert wins when two keys coincide). -/
def compCacheReplace (c : CompCache) (oldName newName : String)
    (comp : MComponent) : CompCache := fun k =>
  if normKey newName ≠ "" ∧ k = normKey newName then some comp
  else if normKey oldName ≠ "" ∧ k = normKey oldName then none
  else c k

/-! ### The remote collaborator -/

/-- Effect on a stored component of a `PUT` whose payload marshals
`new`: fields tagged `omitempty` that hold their zero value are absent and
keep the stored attribute; `name` and `schema` always replace; the URL
fixes the identity. -/
def applyComponentUpdate (old new : MComponent) : MComponent :=
  { id := old.id
    name := new.name
    displayName := if new.displayName = "" then old.displayName else new.displayName
    schema := new.schema
    groupUUID := match new.groupUUID with
      | none => old.groupUUID
      | some u => some u
    groupName := if new.groupName = "" then old.groupName else new.groupName
    presetID := if new.presetID = 0 then old.presetID else new.presetID
    tagsList := if new.tagsList = [] then old.tagsList else new.tagsList
    tagIDs := if new.tagIDs = [] then old.tagIDs else new.tagIDs }

/-- Same for a preset: `name` and `preset` always replace, `component_id`
and `image` only when present. -/
def applyPresetUpdate (old new : MPreset) : MPreset :=
  { id := old.id
    name := new.name
    componentID := if new.componentID = 0 then old.componentID else new.componentID
    payload := new.payload
    image := match new.image with
      | none => old.image
      | some v => some v }

/-- `POST /components`: the remote assigns a fresh ID and stores the
payload. -/
def serverCreateComponent (s : Space) (c : MComponent) : Space × MComponent :=
  let stored := { c with id := s.fresh }
  ({ s with comps := s.comps ++ [stored], fresh := s.fresh + 1 }, stored)

/-- `PUT /components/{cid}`: apply the payload to the matching component
and echo the stored result. -/
def serverUpdateComponent (s : Space) (cid : Nat) (c : MComponent) :
    Space × MComponent :=
  let comps := s.comps.map fun r => if r.id = cid then applyComponentUpdate r c else r
  let echo := match s.comps.find? fun r => r.id == cid with
    | some r => applyComponentUpdate r c
    | none => c
  ({ s with comps := comps }, echo)

/-- `POST /component_groups`: fresh UUID. -/
def serverCreateGroup (s : Space) (name : String) : Space × Nat :=
  ({ s with groups := s.groups ++ [{ uuid := s.fresh, name := name }],
            fresh := s.fresh + 1 }, s.fresh)

/-- `POST /internal_tags`: fresh ID. -/
def serverCreateTag (s : Space) (name objectType : String) : Space × Nat :=
  ({ s with tags := s.tags ++ [{ id := s.fresh, name := name, objectType := objectType }],
            fresh := s.fresh + 1 }, s.fresh)

/-- `POST /presets`: fresh ID, store the payload. -/
def serverCreatePreset (s : Space) (p : MPreset) : Space × MPreset :=
  let stored := { p with id := s.fresh }
  ({ s with presets := s.presets ++ [stored], fresh := s.fresh + 1 }, stored)

/-- `PUT /presets/{id}`: apply the payload to the preset named by its
`id` and echo it. -/
def serverUpdatePreset (s : Space) (p : MPreset) : Space × MPreset :=
  let presets := s.presets.map fun r => if r.id = p.id then applyPresetUpdate r p else r
  let echo := match s.presets.find? fun r => r.id == p.id with
    | some r => applyPresetUpdate r p
    | none => p
  ({ s with presets := presets }, echo)

/-! ### Dependency resolution and per-component sync -/

/-- One remote write issued through the client, for tracing the order of
operations. -/
inductive ApiOp where
  | createComp (c : MComponent)
  | updateComp (cid : Nat) (c : MComponent)
  | createPreset (p : MPreset)
  | updatePreset (p : MPreset)
  | createGroup (name : String)
  | createTag (name : String)
  deriving Repr, DecidableEq

/-- Run-shared mutable state: the remote space, the three caches, and the
trace of issued write operations. -/
structure SyncState where
  space : Space
  groups : GroupCache
  tags : TagCache
  comps : CompCache
  ops : List ApiOp

/-- The UUID string of a remote group, as it appears in rewritten
whitelists (remote-assigned, never equal to a raw group name in the
model). -/
def uuidStr (u : Nat) : String := Nat.repr u

/-- `ensureComponentGroup`, sequentially (the single-flight `Do` runs the
creation directly; its inner re-check of the cache is the same miss).
Returns the resolved UUID, `none` standing for Go's `""`. -/
def ensureComponentGroup (st : SyncState) (groupName : String) :
    SyncState × Option Nat :=
  if groupName = "" then (st, none)
  else
    match st.groups (normKey groupName) with
    | some uuid => (st, some uuid)
    | none =>
      if normKey groupName = "" then (st, none)
      else
        let (space, uuid) := serverCreateGroup st.space groupName
        ({ st with space := space,
                   groups := groupCacheSet st.groups groupName uuid,
                   ops := st.ops ++ [.createGroup groupName] }, some uuid)

/-- `ensureInternalTags`, sequentially: resolve each trimmed, non-blank
tag name through the cache, creating missing tags with object type
`component`; IDs come back in input order. -/
def ensureInternalTags (st : SyncState) : List String → SyncState × List Nat
  | [] => (st, [])
  | tagName :: rest =>
    let name := strTrim tagName
    if name = "" then ensureInternalTags st rest
    else
      match st.tags name with
      | some id =>
        let (st', ids) := ensureInternalTags st rest
        (st', id :: ids)
      | none =>
        let (space, id) := serverCreateTag st.space name "component"
        let st := { st with space := space,
                            tags := tagCacheSet st.tags name id,
                            ops := st.ops ++ [.createTag name] }
        let (st', ids) := ensureInternalTags st rest
        (st', id :: ids)

/-- `defaultPresetName`: the lower-cased name of the local preset whose
local ID equals the component's `preset_id`, or `""`. -/
def defaultPresetName (component : MComponent) (presets : List MPreset) : String :=
  if component.presetID = 0 then ""
  else
    match presets.find? fun p => p.id == component.presetID with
    | some p => strToLower p.name
    | none => ""

/-- `findPresetByName`: first preset matching the name case-insensitively. -/
def findPresetByName (presets : List MPreset) (name : String) : Option MPreset :=
  presets.find? fun p => strToLower p.name == strToLower name

/-- The preset-creation loop of `createComponent`: each desired preset is
created with the new component's ID and a zeroed preset ID. -/
def createPresetsFor (st : SyncState) (cid : Nat) :
    List MPreset → SyncState × List MPreset
  | [] => (st, [])
  | p :: rest =>
    let p := { p with componentID := cid, id := 0 }
    let (space, np) := serverCreatePreset st.space p
    let st := { st with space := space, ops := st.ops ++ [.createPreset p] }
    let (st', nps) := createPresetsFor st cid rest
    (st', np :: nps)

/-- `createComponent`: create with `preset_id` zeroed, create the presets,
then — when the component declared a default preset that was just
created — update the component once more with the resolved preset ID. -/
def createComponentGo (st : SyncState) (component : MComponent)
    (presets : List MPreset) : SyncState × MComponent :=
  let defaultName := defaultPresetName component presets
  let component := { component with presetID := 0 }
  let (space, created) := serverCreateComponent st.space component
  let st := { st with space := space, ops := st.ops ++ [.createComp component] }
  if presets = [] then (st, created)
  else
    let (st, createdPresets) := createPresetsFor st created.id presets
    if defaultName ≠ "" then
      match findPresetByName createdPresets defaultName with
      | some target =>
        let created := { created with presetID := target.id }
        let (space, updated) := serverUpdateComponent st.space created.id created
        ({ st with space := space,
                   ops := st.ops ++ [.updateComp created.id created] }, updated)
      | none => (st, created)
    else (st, created)

/-- The `existingPresets` map of `updateComponent`: remote presets of the
component keyed by lower-cased name, later entries winning. -/
def presetKeyMap (targetPresets : List MPreset) (cid : Nat) :
    String → Option MPreset :=
  targetPresets.foldl
    (fun m p =>
      if p.componentID = cid then
        fun k => if k = strToLower p.name then some p else m k
      else m)
    (fun _ => none)

/-- The preset loop of `updateComponent`: update a same-named remote
preset in place, otherwise create; the map tracks the result. -/
def syncPresets (st : SyncState) (cid : Nat) (m : String → Option MPreset) :
    List MPreset → SyncState × (String → Option MPreset)
  | [] => (st, m)
  | p :: rest =>
    let key := strToLower p.name
    let p := { p with componentID := cid }
    match m key with
    | some ep =>
      let p := { p with id := ep.id }
      let (space, up) := serverUpdatePreset st.space p
      let st := { st with space := space, ops := st.ops ++ [.updatePreset p] }
      syncPresets st cid (fun k => if k = key then some up else m k) rest
    | none =>
      let p := { p with id := 0 }
      let (space, cp) := serverCreatePreset st.space p
      let st := { st with space := space, ops := st.ops ++ [.createPreset p] }
      syncPresets st cid (fun k => if k = key then some cp else m k) rest

/-- `updateComponent`: update with `preset_id` zeroed, sync the presets
against the run-start snapshot, then issue the default-preset fixup
update unless the resolved ID already equals the pre-update remote
`preset_id`. -/
def updateComponentGo (st : SyncState) (existing updated : MComponent)
    (presets targetPresets : List MPreset) : SyncState × MComponent :=
  let defaultName := defaultPresetName updated presets
  let updated := { updated with id := existing.id, presetID := 0 }
  let (space, result) := serverUpdateComponent st.space existing.id updated
  let st := { st with space := space,
                      ops := st.ops ++ [.updateComp existing.id updated] }
  let m := presetKeyMap targetPresets existing.id
  let (st, m) := syncPresets st existing.id m presets
  if defaultName ≠ "" then
    match m defaultName with
    | some target =>
      if target.id ≠ existing.presetID then
        let updated := { updated with presetID := target.id }
        let (space, refreshed) := serverUpdateComponent st.space existing.id updated
        ({ st with space := space,
                   ops := st.ops ++ [.updateComp existing.id updated] }, refreshed)
      else (st, result)
    | none => (st, result)
  else (st, result)

/-! ### The run -/

/-- A sync plan (`componentPlan`): the desired component paired with its
planning-time destination counterpart and its desired presets. -/
structure Plan where
  index : Nat
  component : MComponent
  existing : MComponent
  found : Bool
  presets : List MPreset
  deriving Repr, DecidableEq

/-- A worker outcome (`componentOutcome`). -/
structure Outcome where
  index : Nat
  name : String
  componentID : Nat
  presetCount : Nat
  created : Bool
  updated : Bool
  deriving Repr, DecidableEq

/-- `componentProcessor.Process` for one plan: ensure the group, rewrite
the schema whitelists, ensure the tags, then create or update the
component and refresh the shared component cache. -/
def processPlan (targetPresets : List MPreset) (st : SyncState) (plan : Plan) :
    SyncState × Outcome :=
  let component := plan.component
  let (st, component) :=
    if component.groupName ≠ "" then
      let (st, uuid) := ensureComponentGroup st component.groupName
      (st, { component with groupUUID := uuid, groupName := "" })
    else (st, component)
  let component :=
    { component with
      schema := rewriteSchema (fun s => (st.groups (normKey s)).map uuidStr)
        component.schema }
  let (st, tagIDs) := ensureInternalTags st component.tagsList
  let component := { component with tagIDs := tagIDs }
  if plan.found then
    let (st, updatedComp) :=
      updateComponentGo st plan.existing component plan.presets targetPresets
    let comps :=
      if strToLower plan.existing.name ≠ strToLower updatedComp.name then
        compCacheReplace st.comps plan.existing.name updatedComp.name updatedComp
      else compCacheSet st.comps updatedComp.name updatedComp
    ({ st with comps := comps },
     { index := plan.index, name := updatedComp.name,
       componentID := updatedComp.id, presetCount := plan.presets.length,
       created := false, updated := true })
  else
    let (st, createdComp) := createComponentGo st component plan.presets
    ({ st with comps := compCacheSet st.comps createdComp.name createdComp },
     { index := plan.index, name := createdComp.name,
       componentID := createdComp.id, presetCount := plan.presets.length,
       created := true, updated := false })

/-- Sequential execution of the plan queue (the model's schedule for the
worker pool). -/
def runPlans (targetPresets : List MPreset) (st : SyncState) :
    List Plan → SyncState × List Outcome
  | [] => (st, [])
  | plan :: rest =>
    let (st, o) := processPlan targetPresets st plan
    let (st', os) := runPlans targetPresets st rest
    (st', o :: os)

/-- `buildPresetMap`: desired presets grouped by the lower-cased
`component` name embedded in their payload; blank names are dropped. -/
def buildPresetMap (presets : List MPreset) : String → List MPreset :=
  presets.foldl
    (fun m p =>
      if p.payload.component = "" then m
      else fun k =>
        if k = strToLower p.payload.component then m k ++ [p] else m k)
    (fun _ => [])

/-- Seeding of the group cache from the destination snapshot (groups with
a blank name or UUID are skipped; model UUIDs are always present). -/
def seedGroupCache (groups : List RGroup) : GroupCache :=
  groups.foldl (fun c g => if g.name ≠ "" then groupCacheSet c g.name g.uuid else c)
    (fun _ => none)

/-- Seeding of the component cache from the destination snapshot. -/
def seedCompCache (comps : List MComponent) : CompCache :=
  comps.foldl (fun c r => compCacheSet c r.name r) (fun _ => none)

/-- Seeding of the tag cache from the destination snapshot. -/
def seedTagCache (tags : List RTag) : TagCache :=
  tags.foldl (fun c t => if t.name ≠ "" && t.id != 0 then tagCacheSet c t.name t.id else c)
    (fun _ => none)

/-- Lexicographic order on character sequences (Go string `<=`). -/
def chListLe : List Char → List Char → Bool
  | [], _ => true
  | _ :: _, [] => false
  | a :: as, b :: bs =>
    if a.toNat < b.toNat then true
    else if b.toNat < a.toNat then false
    else chListLe as bs

/-- Go string comparison `a <= b`. -/
def strLe (a b : String) : Bool := chListLe a.data b.data

/-- `sort.Strings`, by insertion. -/
def insertSorted (s : String) : List String → List String
  | [] => [s]
  | t :: rest => if strLe s t then s :: t :: rest else t :: insertSorted s rest

/-- Sort a string list ascending. -/
def sortStrings (l : List String) : List String := l.foldr insertSorted []

/-- Caller-supplied options of `push.Run` (credentials and the on-disk
directory are external concerns). -/
structure RunOptions where
  names : List String
  matchMode : String
  all : Bool
  dryRun : Bool
  deriving Repr, DecidableEq

/-- `push.Result` (durations and retry counters are not modelled: the
remote collaborator of the model answers every call). -/
structure RunResult where
  exitCode : Nat
  componentsSynced : Nat
  presetsSynced : Nat
  missingSelectors : List String
  createdComponents : List String
  updatedComponents : List String
  deriving Repr, DecidableEq

/-- The body of `Run`'s planning loop: in dry-run mode only count, else
append a plan pairing the desired component with its planning-time
destination counterpart. -/
def planStep (compsC : CompCache) (presetMap : String → List MPreset)
    (dryRun : Bool) (acc : List Plan × Nat × Nat) (c : MComponent) :
    List Plan × Nat × Nat :=
  let existing := compsC (normKey c.name)
  let cps := presetMap (strToLower c.name)
  if dryRun then (acc.1, acc.2.1 + 1, acc.2.2 + cps.length)
  else
    (acc.1 ++ [{ index := acc.1.length, component := c,
                 existing := existing.getD emptyComponent,
                 found := existing.isSome, presets := cps }],
     acc.2.1, acc.2.2)

/-- The body of `Run`'s aggregation loop over worker outcomes: skip blank
names, count components and presets, and collect created/updated names. -/
def aggStep (acc : Nat × Nat × List String × List String) (o : Outcome) :
    Nat × Nat × List String × List String :=
  if o.name = "" then acc
  else
    (acc.1 + 1, acc.2.1 + o.presetCount,
     if o.created then acc.2.2.1 ++ [o.name] else acc.2.2.1,
     if !o.created && o.updated then acc.2.2.2 ++ [o.name] else acc.2.2.2)

/-- `push.Run` over loaded component and preset files: validate, select,
plan, execute sequentially, and aggregate — returning the report and the
final remote space. -/
def pushRun (glob : String → String → Bool) (opts : RunOptions)
    (components : List MComponent) (presetFiles : List MPreset)
    (space : Space) : Except String (RunResult × Space) :=
  if !validMode (strToLower opts.matchMode) then .error "invalid match mode"
  else if !opts.all && opts.names.isEmpty then
    .error "no component names provided; use --all to push every component"
  else if components.isEmpty then .error "no matching component files found"
  else
    match filterGo glob components (fun c => c.name) opts.names
        opts.matchMode opts.all with
    | .error e => .error e
    | .ok (selected, missing) =>
      let exitCode := if missing.isEmpty then 0 else 1
      let presetMap := buildPresetMap presetFiles
      let groupsC := seedGroupCache space.groups
      let compsC := seedCompCache space.comps
      let tagsC := seedTagCache space.tags
      let planAcc := selected.foldl (planStep compsC presetMap opts.dryRun)
        ([], 0, 0)
      let plans := planAcc.1
      let st0 : SyncState :=
        { space := space, groups := groupsC, tags := tagsC, comps := compsC,
          ops := [] }
      let (stF, outcomes) := runPlans space.presets st0 plans
      let agg := outcomes.foldl aggStep (planAcc.2.1, planAcc.2.2, [], [])
      .ok ({ exitCode := exitCode, componentsSynced := agg.1,
             presetsSynced := agg.2.1,
             missingSelectors := missing,
             createdComponents := sortStrings agg.2.2.1,
             updatedComponents := sortStrings agg.2.2.2 },
           stF.space)

/-! ### Synced-state predicates (for the idempotence analysis)

A second run whose every lookup hits issues only writes that the remote
absorbs.  The predicates below say of a destination state that it is
already synced with a desired component: they are consumed by the
second-run analysis and established about the first run's final state. -/

/-- The tag IDs `ensureInternalTags` would return when every trimmed,
non-blank tag name hits the cache (`none` when some name misses). -/
def resolveTagIDs (t : TagCache) : List String → Option (List Nat)
  | [] => some []
  | n :: rest =>
    let k := strTrim n
    if k = "" then resolveTagIDs t rest
    else
      match t k with
      | some id => (resolveTagIDs t rest).map (fun ids => id :: ids)
      | none => none

/-- The component payload `processPlan` submits when group and tag
resolution hit the caches `g` and `t`: group name resolved and cleared,
whitelists rewritten, tag IDs filled in. -/
def resolvedPayload (g : GroupCache) (t : TagCache) (c : MComponent) :
    MComponent :=
  { c with
    groupUUID := if c.groupName = "" then c.groupUUID
      else g (normKey c.groupName)
    groupName := ""
    schema := rewriteSchema (fun s => (g (normKey s)).map uuidStr) c.schema
    tagIDs := (resolveTagIDs t c.tagsList).getD [] }

/-- The whitelist entries of a schema field value. -/
def wlEntriesOf : FieldVal → List WLEntry
  | .withWhitelist wl _ => wl
  | .plain _ => []

/-- A schema, viewed as the key/value list it is. -/
def schemaList (s : Schema) : List (String × FieldVal) := s

/-- Every non-blank group name mentioned in a whitelist of `c`'s schema
resolves in the group cache seeded from `space`. -/
def WlResolved (space : Space) (c : MComponent) : Prop :=
  ∀ kv ∈ schemaList c.schema, ∀ s,
    WLEntry.str s ∈ wlEntriesOf kv.2 → s ≠ "" →
    (seedGroupCache space.groups (normKey s)).isSome = true

/-- A remote preset `ep` of component `cid` already reflects desired
preset `p`: it is what the preset map resolves at `p`'s key, and
re-submitting `p` against it changes nothing. -/
def PresetSynced (s1 : Space) (cid : Nat) (p : MPreset) : Prop :=
  ∃ ep, presetKeyMap s1.presets cid (strToLower p.name) = some ep ∧
    ep ∈ s1.presets ∧
    applyPresetUpdate ep { p with componentID := cid, id := ep.id } = ep

/-- Destination `s1` is synced with desired component `c` (with desired
presets `cps`), `r` being its stored counterpart: the component cache
resolves `c`'s name to `r`, every ensure hits, the resolved update
payload is absorbed by `r`, every desired preset is synced, and the
default preset resolves to `r`'s stored `preset_id`. -/
structure CompSynced (s1 : Space) (c : MComponent) (cps : List MPreset)
    (r : MComponent) : Prop where
  cacheHit : seedCompCache s1.comps (normKey c.name) = some r
  memComp : r ∈ s1.comps
  uniqId : ∀ x ∈ s1.comps, x.id = r.id → x = r
  groupOk : c.groupName ≠ "" → normKey c.groupName ≠ "" →
    (seedGroupCache s1.groups (normKey c.groupName)).isSome = true
  tagsOk : (resolveTagIDs (seedTagCache s1.tags) c.tagsList).isSome = true
  updNoOp : applyComponentUpdate r
    { resolvedPayload (seedGroupCache s1.groups) (seedTagCache s1.tags) c with
      id := r.id, presetID := 0 } = r
  presetsOk : ∀ p ∈ cps, PresetSynced s1 r.id p
  fixupOk : defaultPresetName c cps ≠ "" →
    ∃ tp, presetKeyMap s1.presets r.id (defaultPresetName c cps) = some tp ∧
      tp.id = r.presetID

/-- Destination well-formedness consumed by the idempotence analysis:
identifiers are positive, unique, and dominated by the fresh counter;
component names are distinct under normalization; preset names are
distinct per component under lower-casing. -/
structure WFS (s : Space) : Prop where
  compIds : ∀ x ∈ s.comps, 1 ≤ x.id ∧ x.id < s.fresh
  compIdsNodup : (s.comps.map fun x => x.id).Nodup
  compKeysNodup : (s.comps.map fun x => normKey x.name).Nodup
  presetIds : ∀ p ∈ s.presets,
    1 ≤ p.id ∧ p.id < s.fresh ∧ p.componentID < s.fresh
  presetIdsNodup : (s.presets.map fun p => p.id).Nodup
  presetKeysNodup :
    (s.presets.map fun p => (p.componentID, strToLower p.name)).Nodup
  tagIds : ∀ t ∈ s.tags, 1 ≤ t.id ∧ t.id < s.fresh
  freshPos : 1 ≤ s.fresh

/-! ## Deduplicated ensure under concurrency

Interleaving model of `ensureComponentGroup` / `ensureInternalTags` for
one contended (normalized) name that is not yet cached, with the
single-flight group modelled from its contract (spec §9: one in-progress
flight per key; the first arrival runs the function, the others await its
result).  Each constructor of `EnsurePC` is one atomic region of the Go
code: the outer cache lookup, joining the flight, the re-check inside the
flight function, the create call, the cache `Set`, and the publication
that releases the waiters.  Identifiers are naturals. -/

/-- The flight for the contended key: `idle` before any caller arrives,
then running with the leader's caller index until the result is
published. -/
inductive Flight where
  | idle
  | running (leader : Nat) (published : Option Nat)
  deriving Repr, DecidableEq

/-- Shared state: the cache entry for the name, the flight, how many
create requests reached the API Gateway, and the remote's fresh-ID
counter. -/
structure EnsureShared where
  cache : Option Nat
  flight : Flight
  createCount : Nat
  nextId : Nat
  deriving Repr, DecidableEq

/-- Program counter of one caller of the ensure. -/
inductive EnsurePC where
  | start
  | leaderRecheck
  | leaderDoCreate
  | leaderSet (v : Nat)
  | leaderPub (v : Nat)
  | waiting
  | done (v : Nat)
  deriving Repr, DecidableEq

/-- `true` for the program counters a caller can only hold while it owns
the flight. -/
def isLeaderPC : EnsurePC → Bool
  | .leaderRecheck | .leaderDoCreate | .leaderSet _ | .leaderPub _ => true
  | _ => false

/-- One atomic step of caller `i`. Blocked waiters and finished callers
are unchanged. -/
def stepCaller (g : EnsureShared) (i : Nat) (c : EnsurePC) :
    EnsureShared × EnsurePC :=
  match c with
  | .start =>
    match g.cache with
    | some v => (g, .done v)
    | none =>
      match g.flight with
      | .idle => ({ g with flight := .running i none }, .leaderRecheck)
      | .running _ _ => (g, .waiting)
  | .leaderRecheck =>
    match g.cache with
    | some v => (g, .leaderPub v)
    | none => (g, .leaderDoCreate)
  | .leaderDoCreate =>
    ({ g with createCount := g.createCount + 1, nextId := g.nextId + 1 },
     .leaderSet g.nextId)
  | .leaderSet v => ({ g with cache := some v }, .leaderPub v)
  | .leaderPub v =>
    match g.flight with
    | .running l _ => ({ g with flight := .running l (some v) }, .done v)
    | .idle => (g, .done v)
  | .waiting =>
    match g.flight with
    | .running _ (some v) => (g, .done v)
    | _ => (g, .waiting)
  | .done v => (g, .done v)

/-- The whole system: shared state plus every caller's program counter. -/
structure EnsureSys where
  shared : EnsureShared
  callers : List EnsurePC

/-- Scheduler step: run one atomic action of caller `i` (no-op for an
index out of range). -/
def stepSys (s : EnsureSys) (i : Nat) : EnsureSys :=
  match s.callers[i]? with
  | none => s
  | some c =>
    let (g, c') := stepCaller s.shared i c
    { shared := g, callers := s.callers.set i c' }

/-- Run an arbitrary schedule of caller indices. -/
def runSched (s : EnsureSys) : List Nat → EnsureSys
  | [] => s
  | i :: rest => runSched (stepSys s i) rest

/-- `n` concurrent callers about to ensure a name that is not yet
cached. -/
def initSys (n : Nat) : EnsureSys :=
  { shared := { cache := none, flight := .idle, createCount := 0, nextId := 1 },
    callers := List.replicate n .start }

/-! ## JSON extras round trip (the storyblok model types) -/

/-- JSON values (numbers restricted to integers, which is all the known
integer fields accept without error anyway). -/
inductive Json where
  | null
  | bool (b : Bool)
  | num (n : Int)
  | str (s : String)
  | arr (xs : List Json)
  | obj (fields : List (String × Json))

/-- Lookup of a key in a decoded JSON object (first occurrence). -/
def jsonGet (fields : List (String × Json)) (k : String) : Option Json :=
  (fields.find? fun p => p.1 == k).map Prod.snd

/-- `base[k] = v` on a Go map modelled as an association list: replace
the entry holding the key, or append a new one. -/
def setKey : List (String × Json) → String → Json → List (String × Json)
  | [], k, v => [(k, v)]
  | p :: rest, k, v =>
    if p.1 = k then (k, v) :: rest
    else p :: setKey rest k v

/-- `for k, v := range extras { base[k] = v }`. -/
def mergeExtras (base extras : List (String × Json)) : List (String × Json) :=
  extras.foldl (fun b p => setKey b p.1 p.2) base

/-- Decode an `int`-typed struct field: absent and `null` leave the zero
value; a number is taken; anything else is a type error. -/
def decIntField (fields : List (String × Json)) (k : String) : Option Int :=
  match jsonGet fields k with
  | none => some 0
  | some .null => some 0
  | some (.num n) => some n
  | some _ => none

/-- Decode a `string`-typed struct field. -/
def decStringField (fields : List (String × Json)) (k : String) : Option String :=
  match jsonGet fields k with
  | none => some ""
  | some .null => some ""
  | some (.str s) => some s
  | some _ => none

/-- Decode a `map[string]any`-typed struct field (`none` is Go's nil
map). -/
def decObjField (fields : List (String × Json)) (k : String) :
    Option (Option (List (String × Json))) :=
  match jsonGet fields k with
  | none => some none
  | some .null => some none
  | some (.obj fs) => some (some fs)
  | some _ => none

/-- `strconv.Atoi`: optional sign, then decimal digits. -/
def goAtoi (s : String) : Option Int :=
  let digits : List Char → Option Nat := fun cs =>
    if cs.isEmpty then none
    else
      cs.foldl
        (fun acc c =>
          match acc with
          | none => none
          | some n => if c.isDigit then some (n * 10 + (c.toNat - 48)) else none)
        (some 0)
  match s.data with
  | '+' :: rest => (digits rest).map Int.ofNat
  | '-' :: rest => (digits rest).map fun n => -(n : Int)
  | cs => (digits cs).map Int.ofNat

/-- Array body of `IntSlice.UnmarshalJSON`: numbers pass, blank strings
and nulls are skipped, numeric strings are parsed, everything else is an
error. -/
def decIntSliceList : List Json → Option (List Int)
  | [] => some []
  | .num n :: rest => (decIntSliceList rest).map (n :: ·)
  | .str v :: rest =>
    if strTrim v = "" then decIntSliceList rest
    else
      match goAtoi v with
      | some n => (decIntSliceList rest).map (n :: ·)
      | none => none
  | .null :: rest => decIntSliceList rest
  | _ => none

/-- `IntSlice.UnmarshalJSON` as a struct field: `null` and absence give
nil; an array is decoded; a blank string gives nil; anything else is an
error. -/
def decIntSliceField (fields : List (String × Json)) (k : String) :
    Option (Option (List Int)) :=
  match jsonGet fields k with
  | none => some none
  | some .null => some none
  | some (.arr xs) => (decIntSliceList xs).map some
  | some (.str v) => if strTrim v = "" then some none else none
  | some _ => none

/-- Decoded `storyblok.InternalTag` (unknown fields of a tag object are
dropped: the type has no custom unmarshaller). -/
structure JInternalTag where
  id : Int
  name : String
  objectType : String

/-- Decode one `InternalTag` array element. -/
def decTag : Json → Option JInternalTag
  | .obj fs => do
    let id ← decIntField fs "id"
    let name ← decStringField fs "name"
    let ot ← decStringField fs "object_type"
    some { id := id, name := name, objectType := ot }
  | .null => some { id := 0, name := "", objectType := "" }
  | _ => none

/-- Decode the `internal_tags_list` field. -/
def decTagListField (fields : List (String × Json)) (k : String) :
    Option (Option (List JInternalTag)) :=
  match jsonGet fields k with
  | none => some none
  | some .null => some none
  | some (.arr xs) => (xs.mapM decTag).map some
  | some _ => none

/-- Decoded `storyblok.ComponentPreset`: the known fields plus the
`Extras` bag. -/
structure JPreset where
  id : Int
  name : String
  componentID : Int
  presetVal : Option (List (String × Json))
  image : Option Json
  extras : List (String × Json)

/-- The JSON keys of `ComponentPreset`'s known fields. -/
def jpresetKnown : List String := ["id", "name", "component_id", "preset", "image"]

/-- `ComponentPreset.UnmarshalJSON`. -/
def decPreset : Json → Option JPreset
  | .obj fs => do
    let id ← decIntField fs "id"
    let name ← decStringField fs "name"
    let cid ← decIntField fs "component_id"
    let pv ← decObjField fs "preset"
    let image :=
      match jsonGet fs "image" with
      | none => none
      | some .null => none
      | some v => some v
    some { id := id, name := name, componentID := cid, presetVal := pv,
           image := image,
           extras := fs.filter fun p => !(jpresetKnown.contains p.1) }
  | .null =>
    some { id := 0, name := "", componentID := 0, presetVal := none,
           image := none, extras := [] }
  | _ => none

/-- Decode the `all_presets` field. -/
def decPresetListField (fields : List (String × Json)) (k : String) :
    Option (Option (List JPreset)) :=
  match jsonGet fields k with
  | none => some none
  | some .null => some none
  | some (.arr xs) => (xs.mapM decPreset).map some
  | some _ => none

/-- Decoded `storyblok.Component`: the known fields plus the `Extras`
bag. -/
structure JComponent where
  id : Int
  name : String
  displayName : String
  schema : Option (List (String × Json))
  groupUUID : String
  groupName : String
  presetID : Int
  tagsList : Option (List JInternalTag)
  tagIDs : Option (List Int)
  allPresets : Option (List JPreset)
  extras : List (String × Json)

/-- The JSON keys of `Component`'s known fields (the `exclude` set of
`Component.UnmarshalJSON`). -/
def jcomponentKnown : List String :=
  ["id", "name", "display_name", "schema", "component_group_uuid",
   "component_group_name", "preset_id", "internal_tags_list",
   "internal_tag_ids", "all_presets"]

/-- `Component.UnmarshalJSON`. -/
def decComponent : Json → Option JComponent
  | .obj fs => do
    let id ← decIntField fs "id"
    let name ← decStringField fs "name"
    let dn ← decStringField fs "display_name"
    let schema ← decObjField fs "schema"
    let gu ← decStringField fs "component_group_uuid"
    let gn ← decStringField fs "component_group_name"
    let pid ← decIntField fs "preset_id"
    let tl ← decTagListField fs "internal_tags_list"
    let ti ← decIntSliceField fs "internal_tag_ids"
    let ap ← decPresetListField fs "all_presets"
    some { id := id, name := name, displayName := dn, schema := schema,
           groupUUID := gu, groupName := gn, presetID := pid,
           tagsList := tl, tagIDs := ti, allPresets := ap,
           extras := fs.filter fun p => !(jcomponentKnown.contains p.1) }
  | .null =>
    some { id := 0, name := "", displayName := "", schema := none,
           groupUUID := "", groupName := "", presetID := 0, tagsList := none,
           tagIDs := none, allPresets := none, extras := [] }
  | _ => none

/-- Marshal an `InternalTag` (field order of the struct; `omitempty` on
`id` and `object_type`). -/
def encTag (t : JInternalTag) : Json :=
  .obj ((if t.id ≠ 0 then [("id", Json.num t.id)] else []) ++
    [("name", Json.str t.name)] ++
    (if t.objectType ≠ "" then [("object_type", Json.str t.objectType)] else []))

/-- The struct-marshal of a `ComponentPreset` (before the extras merge). -/
def encPresetBase (p : JPreset) : List (String × Json) :=
  (if p.id ≠ 0 then [("id", Json.num p.id)] else []) ++
  [("name", Json.str p.name)] ++
  (if p.componentID ≠ 0 then [("component_id", Json.num p.componentID)] else []) ++
  [("preset", match p.presetVal with
    | none => Json.null
    | some fs => Json.obj fs)] ++
  (match p.image with
   | none => []
   | some v => [("image", v)])

/-- `ComponentPreset.MarshalJSON`: the struct marshal, with the extras
merged back in when there are any. -/
def encPresetObj (p : JPreset) : List (String × Json) :=
  if p.extras.isEmpty then encPresetBase p
  else mergeExtras (encPresetBase p) p.extras

/-- The struct-marshal of a `Component` (before the extras merge). -/
def encComponentBase (c : JComponent) : List (String × Json) :=
  (if c.id ≠ 0 then [("id", Json.num c.id)] else []) ++
  [("name", Json.str c.name)] ++
  (if c.displayName ≠ "" then [("display_name", Json.str c.displayName)] else []) ++
  [("schema", match c.schema with
    | none => Json.null
    | some fs => Json.obj fs)] ++
  (if c.groupUUID ≠ "" then [("component_group_uuid", Json.str c.groupUUID)] else []) ++
  (if c.groupName ≠ "" then [("component_group_name", Json.str c.groupName)] else []) ++
  (if c.presetID ≠ 0 then [("preset_id", Json.num c.presetID)] else []) ++
  (match c.tagsList with
   | none => []
   | some [] => []
   | some ts => [("internal_tags_list", Json.arr (ts.map encTag))]) ++
  (match c.tagIDs with
   | none => []
   | some [] => []
   | some ids => [("internal_tag_ids", Json.arr (ids.map Json.num))]) ++
  (match c.allPresets with
   | none => []
   | some [] => []
   | some ps => [("all_presets", Json.arr (ps.map fun p => Json.obj (encPresetObj p)))])

/-- `Component.MarshalJSON`. -/
def encComponentObj (c : JComponent) : List (String × Json) :=
  if c.extras.isEmpty then encComponentBase c
  else mergeExtras (encComponentBase c) c.extras

/-- Per-attempt rate-adaptation of `Client.do`: a 2xx nudges the bucket up
by `+0.02`, a 429 nudges it down by `-0.2`, always with bounds `[1, 7]`;
transport failures and other statuses leave the rate alone. -/
def gatewayNudge (b : TokenBucket) : AttemptResult → TokenBucket
  | .transportError => b
  | .status c =>
    if isSuccessCode c then nudge b (2 / 100) 1 7
    else if c == 429 then nudge b (-(2 / 10)) 1 7
    else b

/-- The bucket after a sequence of observed attempt outcomes. -/
def gatewayNudges (b : TokenBucket) (rs : List AttemptResult) : TokenBucket :=
  rs.foldl gatewayNudge b

/-! ## Shared lemmas about the retry loop -/

theorem doLoop_attempts_le (resp : Nat → AttemptResult) :
    ∀ fuel attempt backoff waits r429 r5xx lastErr,
      (doLoop resp fuel attempt backoff waits r429 r5xx lastErr).attempts ≤
        attempt + fuel := by
  intro fuel
  induction fuel with
  | zero => intro attempt backoff waits r429 r5xx lastErr; simp [doLoop]
  | succ n ih =>
    intro attempt backoff waits r429 r5xx lastErr
    cases h : resp attempt with
    | transportError =>
      have := ih (attempt + 1) (backoff * 2) (waits ++ [backoff]) r429 r5xx
        .transportFailed
      simp only [doLoop, h]
      omega
    | status c =>
      by_cases hs : isSuccessCode c
      · simp only [doLoop, h, hs, if_true]; omega
      · by_cases ht : isTerminal4xxCode c
        · simp only [doLoop, h, hs, ht]; simp
        · by_cases hr : (c == 429 || 500 ≤ c : Bool)
          · have := ih (attempt + 1) (backoff * 2) (waits ++ [backoff])
              (if c == 429 then r429 + 1 else r429)
              (if c != 429 && 500 ≤ c then r5xx + 1 else r5xx) (.apiError c)
            simp only [doLoop, h, hs, ht, hr]
            simp only [Bool.false_eq_true, if_false, if_true]
            omega
          · simp only [doLoop, h, hs, ht, hr]
            simp only [Bool.false_eq_true, if_false]
            omega

theorem doLoop_attempts_ge (resp : Nat → AttemptResult) :
    ∀ fuel attempt backoff waits r429 r5xx lastErr,
      attempt ≤ (doLoop resp fuel attempt backoff waits r429 r5xx lastErr).attempts := by
  intro fuel
  induction fuel with
  | zero => intro attempt backoff waits r429 r5xx lastErr; simp [doLoop]
  | succ n ih =>
    intro attempt backoff waits r429 r5xx lastErr
    cases h : resp attempt with
    | transportError =>
      have := ih (attempt + 1) (backoff * 2) (waits ++ [backoff]) r429 r5xx
        .transportFailed
      simp only [doLoop, h]
      omega
    | status c =>
      by_cases hs : isSuccessCode c
      · simp only [doLoop, h, hs, if_true]; omega
      · by_cases ht : isTerminal4xxCode c
        · simp only [doLoop, h, hs, ht]; simp
        · by_cases hr : (c == 429 || 500 ≤ c : Bool)
          · have := ih (attempt + 1) (backoff * 2) (waits ++ [backoff])
              (if c == 429 then r429 + 1 else r429)
              (if c != 429 && 500 ≤ c then r5xx + 1 else r5xx) (.apiError c)
            simp only [doLoop, h, hs, ht, hr]
            simp only [Bool.false_eq_true, if_false, if_true]
            omega
          · simp only [doLoop, h, hs, ht, hr]
            simp only [Bool.false_eq_true, if_false]
            omega

theorem isSuccessCode_false_of_retriable {c : Nat}
    (h : isRetriable (.status c)) : isSuccessCode c = false := by
  simp only [isRetriable, Bool.or_eq_true, beq_iff_eq, decide_eq_true_eq] at h
  rcases h with h | h <;> simp [isSuccessCode] <;> omega

theorem isTerminal4xxCode_false_of_retriable {c : Nat}
    (h : isRetriable (.status c)) : isTerminal4xxCode c = false := by
  simp only [isRetriable, Bool.or_eq_true, beq_iff_eq, decide_eq_true_eq] at h
  rcases h with h | h <;> simp [isTerminal4xxCode] <;> omega

theorem doLoop_all_retriable (resp : Nat → AttemptResult) :
    ∀ fuel attempt backoff waits r429 r5xx lastErr,
      (∀ i, attempt ≤ i → i < attempt + fuel → isRetriable (resp i)) →
      (doLoop resp fuel attempt backoff waits r429 r5xx lastErr).waits =
        waits ++ (List.range fuel).map (fun i => backoff * 2 ^ i) ∧
      (doLoop resp fuel attempt backoff waits r429 r5xx lastErr).attempts =
        attempt + fuel := by
  intro fuel
  induction fuel with
  | zero => intro attempt backoff waits r429 r5xx lastErr _; simp [doLoop]
  | succ n ih =>
    intro attempt backoff waits r429 r5xx lastErr hall
    have hcur : isRetriable (resp attempt) := hall attempt le_rfl (by omega)
    have hrange : (List.range (n + 1)).map (fun i => backoff * 2 ^ i) =
        backoff :: (List.range n).map (fun i => backoff * 2 * 2 ^ i) := by
      rw [List.range_succ_eq_map, List.map_cons, List.map_map]
      simp only [pow_zero, Nat.mul_one]
      congr 1
      apply List.map_congr_left
      intro i _
      simp only [Function.comp_def, pow_succ]
      ring
    cases h : resp attempt with
    | transportError =>
      have := ih (attempt + 1) (backoff * 2) (waits ++ [backoff]) r429 r5xx
        .transportFailed (fun i h1 h2 => hall i (by omega) (by omega))
      simp only [doLoop, h]
      refine ⟨?_, by omega⟩
      rw [this.1, hrange]
      simp
    | status c =>
      rw [h] at hcur
      have hs := isSuccessCode_false_of_retriable hcur
      have ht := isTerminal4xxCode_false_of_retriable hcur
      have hr : (c == 429 || 500 ≤ c : Bool) = true := by
        simpa [isRetriable] using hcur
      have := ih (attempt + 1) (backoff * 2) (waits ++ [backoff])
        (if c == 429 then r429 + 1 else r429)
        (if c != 429 && 500 ≤ c then r5xx + 1 else r5xx)
        (.apiError c) (fun i h1 h2 => hall i (by omega) (by omega))
      simp only [doLoop, h, hs, ht, hr, Bool.false_eq_true, if_false, if_true]
      refine ⟨?_, by omega⟩
      rw [this.1, hrange]
      simp

theorem doLoop_terminal (resp : Nat → AttemptResult) :
    ∀ k fuel attempt backoff waits r429 r5xx lastErr c,
      k < fuel →
      (∀ i, attempt ≤ i → i < attempt + k → isRetriable (resp i)) →
      resp (attempt + k) = .status c →
      isTerminal4xxCode c = true →
      (doLoop resp fuel attempt backoff waits r429 r5xx lastErr).result = .apiError c ∧
      (doLoop resp fuel attempt backoff waits r429 r5xx lastErr).attempts = attempt + k + 1 ∧
      (doLoop resp fuel attempt backoff waits r429 r5xx lastErr).waits =
        waits ++ (List.range k).map (fun i => backoff * 2 ^ i) := by
  intro k
  induction k with
  | zero =>
    intro fuel attempt backoff waits r429 r5xx lastErr c hk hall hresp hterm
    obtain ⟨n, rfl⟩ : ∃ n, fuel = n + 1 := ⟨fuel - 1, by omega⟩
    have hs : isSuccessCode c = false := by
      simp only [isTerminal4xxCode, Bool.and_eq_true, decide_eq_true_eq,
        bne_iff_ne] at hterm
      simp [isSuccessCode]; omega
    rw [show attempt + 0 = attempt by omega] at hresp
    simp only [doLoop, hresp, hs, hterm, Bool.false_eq_true, if_false, if_true]
    simp
  | succ m ih =>
    intro fuel attempt backoff waits r429 r5xx lastErr c hk hall hresp hterm
    obtain ⟨n, rfl⟩ : ∃ n, fuel = n + 1 := ⟨fuel - 1, by omega⟩
    have hcur : isRetriable (resp attempt) := hall attempt le_rfl (by omega)
    have hrange : (List.range (m + 1)).map (fun i => backoff * 2 ^ i) =
        backoff :: (List.range m).map (fun i => backoff * 2 * 2 ^ i) := by
      rw [List.range_succ_eq_map, List.map_cons, List.map_map]
      simp only [pow_zero, Nat.mul_one]
      congr 1
      apply List.map_congr_left
      intro i _
      simp only [Function.comp_def, pow_succ]
      ring
    cases h : resp attempt with
    | transportError =>
      have := ih n (attempt + 1) (backoff * 2) (waits ++ [backoff]) r429 r5xx
        .transportFailed c (by omega) (fun i h1 h2 => hall i (by omega) (by omega))
        (by rw [show attempt + 1 + m = attempt + (m + 1) by omega]; exact hresp) hterm
      simp only [doLoop, h]
      refine ⟨this.1, by omega, ?_⟩
      rw [this.2.2, hrange]
      simp
    | status c' =>
      rw [h] at hcur
      have hs := isSuccessCode_false_of_retriable hcur
      have ht := isTerminal4xxCode_false_of_retriable hcur
      have hr : (c' == 429 || 500 ≤ c' : Bool) = true := by
        simpa [isRetriable] using hcur
      have := ih n (attempt + 1) (backoff * 2) (waits ++ [backoff])
        (if c' == 429 then r429 + 1 else r429)
        (if c' != 429 && 500 ≤ c' then r5xx + 1 else r5xx)
        (.apiError c') c (by omega) (fun i h1 h2 => hall i (by omega) (by omega))
        (by rw [show attempt + 1 + m = attempt + (m + 1) by omega]; exact hresp) hterm
      simp only [doLoop, h, hs, ht, hr, Bool.false_eq_true, if_false, if_true]
      refine ⟨this.1, by omega, ?_⟩
      rw [this.2.2, hrange]
      simp

theorem doLoop_rate429 (resp : Nat → AttemptResult) :
    ∀ fuel attempt backoff waits r429 r5xx lastErr,
      (doLoop resp fuel attempt backoff waits r429 r5xx lastErr).rate429 =
        r429 + (List.range' attempt
          ((doLoop resp fuel attempt backoff waits r429 r5xx lastErr).attempts
            - attempt)).countP (fun i => resp i == .status 429) := by
  intro fuel
  induction fuel with
  | zero => intro attempt backoff waits r429 r5xx lastErr; simp [doLoop]
  | succ n ih =>
    intro attempt backoff waits r429 r5xx lastErr
    cases h : resp attempt with
    | transportError =>
      have hge := doLoop_attempts_ge resp n (attempt + 1) (backoff * 2)
        (waits ++ [backoff]) r429 r5xx .transportFailed
      have := ih (attempt + 1) (backoff * 2) (waits ++ [backoff]) r429 r5xx
        .transportFailed
      simp only [doLoop, h]
      set D := doLoop resp n (attempt + 1) (backoff * 2) (waits ++ [backoff])
        r429 r5xx .transportFailed with hD
      have hlen : D.attempts - attempt = (D.attempts - (attempt + 1)) + 1 := by omega
      rw [hlen, List.range'_succ, List.countP_cons]
      have hfalse : (resp attempt == AttemptResult.status 429) = false := by
        simp [h]
      rw [hfalse]
      simpa using this
    | status c =>
      by_cases hs : isSuccessCode c
      · have hc : c ≠ 429 := by
          simp only [isSuccessCode, Bool.and_eq_true, decide_eq_true_eq] at hs
          omega
        simp only [doLoop, h, hs, if_true]
        simp [List.countP_cons, h, hc]
      · by_cases ht : isTerminal4xxCode c
        · have hc : c ≠ 429 := by
            simp only [isTerminal4xxCode, Bool.and_eq_true, decide_eq_true_eq,
              bne_iff_ne] at ht
            exact ht.2
          simp only [doLoop, h, hs, ht, Bool.false_eq_true, if_false, if_true]
          simp [List.countP_cons, h, hc]
        · by_cases hr : (c == 429 || 500 ≤ c : Bool)
          · have hge := doLoop_attempts_ge resp n (attempt + 1) (backoff * 2)
              (waits ++ [backoff]) (if c == 429 then r429 + 1 else r429)
              (if c != 429 && 500 ≤ c then r5xx + 1 else r5xx) (.apiError c)
            have := ih (attempt + 1) (backoff * 2) (waits ++ [backoff])
              (if c == 429 then r429 + 1 else r429)
              (if c != 429 && 500 ≤ c then r5xx + 1 else r5xx) (.apiError c)
            simp only [doLoop, h, hs, ht, hr, Bool.false_eq_true, if_false, if_true]
            set D := doLoop resp n (attempt + 1) (backoff * 2) (waits ++ [backoff])
              (if c == 429 then r429 + 1 else r429)
              (if c != 429 && 500 ≤ c then r5xx + 1 else r5xx) (.apiError c) with hD
            have hlen : D.attempts - attempt = (D.attempts - (attempt + 1)) + 1 := by
              omega
            rw [hlen, List.range'_succ, List.countP_cons, this]
            by_cases hc : c = 429
            · subst hc; simp [h]; omega
            · have : (resp attempt == AttemptResult.status 429) = false := by
                simp [h, hc]
              simp [this, hc]
          · have hc : c ≠ 429 := by
              intro hcc
              subst hcc
              simp at hr
            simp only [doLoop, h, hs, ht, hr, Bool.false_eq_true, if_false]
            simp [List.countP_cons, h, hc]

/-! ## Claim C1 — retry policy and backoff schedule -/

/-- **C1, counterexample.** Five consecutive 429 responses produce five
backoff waits (250, 500, 1000, 2000 and 4000 ms), not the four waits the
claim states: the loop also sleeps after the fifth, final failed
attempt. -/
theorem retry_backoff_claim_counterexample :
    (clientDo fun _ => .status 429).waits = [250, 500, 1000, 2000, 4000] ∧
    ¬(clientDo fun _ => .status 429).waits = [250, 500, 1000, 2000] := by
  decide

/-- **C1, amended.** For every logical API operation at most 5 attempts
are made. A run of retriable failures (transport error, 429 or 5xx) is
followed by backoff waits of 250, 500, 1000, 2000 — and, after the fifth
failed attempt, a final 4000 ms wait (5 waits across 5 attempts: the wait
is also taken after the final failed attempt, before the last error is
returned). Any 4xx response other than 429 is terminal: after `k`
retriable failures, a terminal 4xx on attempt `k + 1` is returned
immediately, with exactly the `k` earlier waits and no further attempts
or waits. -/
theorem retry_backoff_amended (resp : Nat → AttemptResult) :
    (clientDo resp).attempts ≤ 5 ∧
    ((∀ i ∈ List.range 5, isRetriable (resp i) = true) →
      (clientDo resp).waits = [250, 500, 1000, 2000, 4000] ∧
      (clientDo resp).attempts = 5) ∧
    (∀ k c, k < 5 → (∀ i ∈ List.range k, isRetriable (resp i) = true) →
      resp k = .status c → isTerminal4xxCode c = true →
      (clientDo resp).result = .apiError c ∧
      (clientDo resp).attempts = k + 1 ∧
      (clientDo resp).waits = (List.range k).map fun i => 250 * 2 ^ i) := by
  refine ⟨?_, ?_, ?_⟩
  · simpa using doLoop_attempts_le resp 5 0 250 [] 0 0 .ok
  · intro hall
    have := doLoop_all_retriable resp 5 0 250 [] 0 0 .ok
      (fun i h1 h2 => hall i (by simpa using h2))
    refine ⟨?_, by simpa using this.2⟩
    rw [show clientDo resp = doLoop resp 5 0 250 [] 0 0 .ok from rfl, this.1]
    decide
  · intro k c hk hall hresp hterm
    have := doLoop_terminal resp k 5 0 250 [] 0 0 .ok c hk
      (fun i h1 h2 => hall i (by simpa using h2)) (by simpa using hresp) hterm
    exact ⟨this.1, by simpa using this.2.1, this.2.2⟩

/-- **C1, amended, witness** at two concrete response sequences: five
503s, and two transport failures followed by a 404. -/
theorem retry_backoff_amended_witness :
    ((clientDo fun _ => .status 503).waits = [250, 500, 1000, 2000, 4000] ∧
      (clientDo fun _ => .status 503).attempts = 5) ∧
    ((clientDo fun i => if i < 2 then .transportError else .status 404).result =
        .apiError 404 ∧
      (clientDo fun i => if i < 2 then .transportError else .status 404).attempts = 3 ∧
      (clientDo fun i => if i < 2 then .transportError else .status 404).waits =
        (List.range 2).map fun i => 250 * 2 ^ i) :=
  ⟨(retry_backoff_amended fun _ => .status 503).2.1 (by decide),
   (retry_backoff_amended fun i => if i < 2 then .transportError else .status 404).2.2
     2 404 (by decide) (by decide) (by decide) (by decide)⟩

/-! ## Claim C4 — token bucket burst and first wait -/

theorem acquireRun_int (rps B : ℚ) :
    ∀ (k : Nat) (t : ℚ), (k : ℚ) ≤ t →
      acquireRun { rps := rps, burst := B, tokens := t } k =
        some { rps := rps, burst := B, tokens := t - k } := by
  intro k
  induction k with
  | zero => intro t _; simp [acquireRun]
  | succ m ih =>
    intro t ht
    have h1 : (1 : ℚ) ≤ t := by
      have : ((m : ℚ) + 1) ≤ t := by push_cast at ht ⊢; linarith
      have hm : (0 : ℚ) ≤ (m : ℚ) := by positivity
      linarith
    have hstep : waitStep { rps := rps, burst := B, tokens := t } 0 =
        .acquired { rps := rps, burst := B, tokens := t - 1 } := by
      simp [waitStep, refillLocked, h1]
    rw [acquireRun, hstep]
    show acquireRun { rps := rps, burst := B, tokens := t - 1 } m = _
    rw [ih (t - 1) (by push_cast at ht ⊢; linarith)]
    have heq : t - 1 - (m : ℚ) = t - ((m : ℚ) + 1) := by ring
    push_cast
    rw [heq]

/-- **C4.** From a fresh bucket with integer burst `n` and positive rate,
exactly `n` acquisitions succeed with no sleeping; the next acquisition
reaches the sleep branch with a computed wait of at least
`(1 - fractional tokens) / rps` seconds (the drained bucket holds exactly
0 tokens, so the fraction is 0) and never below the 5 ms minimum. -/
theorem tokenBucket_burst_then_wait (n : Nat) (rps : ℚ) (hrps : 0 < rps) :
    acquireRun (newBucket rps n) n =
      some { rps := rps, burst := (n : ℚ), tokens := 0 } ∧
    ∀ b w, waitStep { rps := rps, burst := (n : ℚ), tokens := 0 } 0 = .sleep b w →
      (1 - 0) / rps ≤ w ∧ 5 / 1000 ≤ w := by
  constructor
  · have := acquireRun_int rps (n : ℚ) n (n : ℚ) le_rfl
    rw [newBucket, this]
    norm_num
  · intro b w hw
    have hnot : ¬(1 : ℚ) ≤ (0 : ℚ) := by norm_num
    have hrps' : ¬rps ≤ 0 := not_le.mpr hrps
    have hws : waitStep { rps := rps, burst := (n : ℚ), tokens := 0 } 0 =
        .sleep { rps := rps, burst := (n : ℚ), tokens := 0 }
          (if 1 / rps < 5 / 1000 then 5 / 1000 else 1 / rps) := by
      rw [waitStep, refillLocked]
      simp only [zero_mul, le_refl, if_true, hnot, if_false, hrps']
      norm_num
    rw [hws] at hw
    obtain ⟨-, rfl⟩ : b = _ ∧ (if 1 / rps < 5 / 1000 then 5 / 1000 else 1 / rps) = w := by
      have h1 := (WaitStepResult.sleep.inj hw).1
      have h2 := (WaitStepResult.sleep.inj hw).2
      exact ⟨h1.symm, h2⟩
    by_cases hlt : 1 / rps < 5 / 1000
    · rw [if_pos hlt]
      refine ⟨?_, le_refl _⟩
      norm_num at hlt ⊢
      linarith
    · rw [if_neg hlt]
      exact ⟨by norm_num, le_of_not_lt hlt⟩

/-- **C4, witness** at the constructor defaults `rps = 7`, `burst = 7`. -/
theorem tokenBucket_burst_then_wait_witness :
    acquireRun (newBucket 7 7) 7 =
      some { rps := 7, burst := (7 : ℚ), tokens := 0 } ∧
    ∀ b w, waitStep { rps := 7, burst := (7 : ℚ), tokens := 0 } 0 = .sleep b w →
      (1 - 0) / 7 ≤ w ∧ 5 / 1000 ≤ w := by
  have := tokenBucket_burst_then_wait 7 7 (by norm_num)
  simpa using this

/-! ## Claim C5 — nudge clamping and the 429 counter -/

theorem nudge_rps_bounds (b : TokenBucket) (delta lo hi : ℚ) (h : lo ≤ hi) :
    lo ≤ (nudge b delta lo hi).rps ∧ (nudge b delta lo hi).rps ≤ hi := by
  unfold nudge
  dsimp only
  split_ifs with h1 h2 h3 <;> constructor <;> linarith

theorem gatewayNudge_mem (b : TokenBucket) (r : AttemptResult)
    (h1 : 1 ≤ b.rps) (h7 : b.rps ≤ 7) :
    1 ≤ (gatewayNudge b r).rps ∧ (gatewayNudge b r).rps ≤ 7 := by
  cases r with
  | transportError => exact ⟨h1, h7⟩
  | status c =>
    unfold gatewayNudge
    by_cases hs : isSuccessCode c
    · simpa [hs] using nudge_rps_bounds b (2 / 100) 1 7 (by norm_num)
    · by_cases hc : (c == 429 : Bool)
      · simpa [hs, hc] using nudge_rps_bounds b (-(2 / 10)) 1 7 (by norm_num)
      · simpa [hs, hc] using ⟨h1, h7⟩

/-- **C5.** `nudge` sets `rps` to `rps + delta` clamped into `[lo, hi]`
(when `lo ≤ hi`); since the Gateway only nudges by `+0.02` on 2xx and
`-0.2` on 429 with bounds `[1, 7]`, a bucket whose rate starts in
`[1, 7]` stays in `[1, 7]` after any sequence of observed responses; and
one `Client.do` call bumps the rate-limit retry counter exactly once per
attempt that observed a 429. -/
theorem nudge_clamped_and_429_counted :
    (∀ b delta lo hi, lo ≤ hi →
      (nudge b delta lo hi).rps = min (max (b.rps + delta) lo) hi) ∧
    (∀ b rs, 1 ≤ b.rps → b.rps ≤ 7 →
      1 ≤ (gatewayNudges b rs).rps ∧ (gatewayNudges b rs).rps ≤ 7) ∧
    (∀ resp, (clientDo resp).rate429 =
      (List.range (clientDo resp).attempts).countP
        fun i => resp i == .status 429) := by
  refine ⟨?_, ?_, ?_⟩
  · intro b delta lo hi h
    unfold nudge
    dsimp only
    split_ifs with h1 h2 h3
    · linarith
    · rw [max_eq_right (le_of_lt h1), min_eq_left h]
    · rw [max_eq_left (le_of_not_lt h1), min_eq_right (le_of_lt h3)]
    · rw [max_eq_left (le_of_not_lt h1), min_eq_left (le_of_not_lt h3)]
  · intro b rs
    induction rs generalizing b with
    | nil => intro h1 h7; exact ⟨h1, h7⟩
    | cons r rest ih =>
      intro h1 h7
      have := gatewayNudge_mem b r h1 h7
      exact ih (gatewayNudge b r) this.1 this.2
  · intro resp
    have := doLoop_rate429 resp 5 0 250 [] 0 0 .ok
    rw [show clientDo resp = doLoop resp 5 0 250 [] 0 0 .ok from rfl]
    rw [this]
    rw [List.range_eq_range']
    simp

/-- **C5, witness**: the spec scenario — three 429s then a 200 — at the
default bucket. -/
theorem nudge_clamped_and_429_counted_witness :
    (nudge (newBucket 7 7) (-(2 / 10)) 1 7).rps =
      min (max ((newBucket 7 7).rps + -(2 / 10)) 1) 7 ∧
    (1 ≤ (gatewayNudges (newBucket 7 7)
        [.status 429, .status 429, .status 429, .status 200]).rps ∧
      (gatewayNudges (newBucket 7 7)
        [.status 429, .status 429, .status 429, .status 200]).rps ≤ 7) ∧
    (clientDo fun i => if i < 3 then .status 429 else .status 200).rate429 =
      (List.range (clientDo fun i =>
        if i < 3 then .status 429 else .status 200).attempts).countP
        (fun i => (if i < 3 then AttemptResult.status 429
            else AttemptResult.status 200) == AttemptResult.status 429) :=
  ⟨nudge_clamped_and_429_counted.1 (newBucket 7 7) (-(2 / 10)) 1 7 (by norm_num),
   nudge_clamped_and_429_counted.2.1 (newBucket 7 7)
     [.status 429, .status 429, .status 429, .status 200]
     (by norm_num [newBucket]) (by norm_num [newBucket]),
   nudge_clamped_and_429_counted.2.2 fun i =>
     if i < 3 then .status 429 else .status 200⟩

/-! ## Claim C10 — matcher selection, order, and dedup -/

/-- **C10, counterexample.** With `all = true` but an invalid match mode,
`Filter` returns an error, not a copy of the input list: mode validation
runs before the `all` short-circuit. -/
theorem filter_all_claim_counterexample :
    filterGo (fun _ _ => false) [0] (fun _ => "x") ["a"] "bogus" true =
      .error "invalid match mode" ∧
    ¬filterGo (fun _ _ => false) [0] (fun _ => "x") ["a"] "bogus" true =
      .ok ([0], []) := by
  decide

theorem filterStep_fold_inv {α : Type} (glob : String → String → Bool)
    (nameFn : α → String) (norm : List String) (mode : String) :
    ∀ (items : List α) (acc : FilterAcc α) (pre : List α),
      acc.seen = acc.selected.map nameFn →
      acc.seen.Nodup →
      acc.selected.Sublist pre →
      (items.foldl (filterStep glob nameFn norm mode) acc).seen =
        ((items.foldl (filterStep glob nameFn norm mode) acc).selected.map nameFn) ∧
      (items.foldl (filterStep glob nameFn norm mode) acc).seen.Nodup ∧
      (items.foldl (filterStep glob nameFn norm mode) acc).selected.Sublist
        (pre ++ items) := by
  intro items
  induction items with
  | nil =>
    intro acc pre h1 h2 h3
    simpa using ⟨h1, h2, h3⟩
  | cons i rest ih =>
    intro acc pre h1 h2 h3
    rw [List.foldl_cons]
    have hsplit : pre ++ i :: rest = (pre ++ [i]) ++ rest := by simp
    rw [hsplit]
    by_cases hcase : ((norm.map fun s =>
        s != "" && matchesMode glob (strToLower (nameFn i)) s mode).any id
      && !(acc.seen.contains (nameFn i)) : Bool)
    · have hstep : filterStep glob nameFn norm mode acc i =
          { selected := acc.selected ++ [i], seen := acc.seen ++ [nameFn i],
            hit := ((acc.hit.zip (norm.map fun s =>
              s != "" && matchesMode glob (strToLower (nameFn i)) s mode)).map
                (fun p => p.1 || p.2)) } := by
        unfold filterStep
        rw [if_pos hcase]
      rw [hstep]
      have hnotmem : nameFn i ∉ acc.seen := by
        have := (Bool.and_eq_true _ _).mp hcase
        simpa using this.2
      refine ih _ (pre ++ [i]) ?_ ?_ ?_
      · simp [h1]
      · simp only [List.nodup_append]
        exact ⟨h2, List.nodup_singleton _, by simpa using hnotmem⟩
      · exact h3.append (List.Sublist.refl [i])
    · have hstep : filterStep glob nameFn norm mode acc i =
          { acc with hit := ((acc.hit.zip (norm.map fun s =>
              s != "" && matchesMode glob (strToLower (nameFn i)) s mode)).map
                (fun p => p.1 || p.2)) } := by
        unfold filterStep
        rw [if_neg (by simpa using hcase)]
      rw [hstep]
      exact ih _ (pre ++ [i]) h1 h2 (h3.trans (by simp))

/-- **C10, amended.** When the match mode is valid, `Filter` with
`all = true` returns the full input list in input order with no missing
selectors, for every selector list; with `all = false`, every returned
selection is a sublist of the input (input order retained) whose names
are pairwise distinct, so each item appears at most once even when
several selectors match it. An invalid mode is rejected before the `all`
short-circuit (see the counterexample). -/
theorem filter_selection_amended {α : Type} (glob : String → String → Bool)
    (items : List α) (nameFn : α → String) (selectors : List String)
    (mode : String) :
    (validMode (strToLower mode) = true →
      filterGo glob items nameFn selectors mode true = .ok (items, [])) ∧
    (∀ sel missing,
      filterGo glob items nameFn selectors mode false = .ok (sel, missing) →
      sel.Sublist items ∧ (sel.map nameFn).Nodup) := by
  constructor
  · intro hv
    unfold filterGo
    simp [hv]
  · intro sel missing hok
    unfold filterGo at hok
    by_cases hv : validMode (strToLower mode)
    · simp only [hv, Bool.not_true, Bool.false_eq_true, if_false] at hok
      by_cases hempty : selectors.isEmpty
      · simp [hempty] at hok
      · simp only [hempty, Bool.false_eq_true, if_false,
          Except.ok.injEq, Prod.mk.injEq] at hok
        have hinv := filterStep_fold_inv glob nameFn
          (selectors.map fun s => strToLower (strTrim s)) (strToLower mode)
          items ⟨[], [], (selectors.map fun s => strToLower (strTrim s)).map
            fun _ => false⟩ [] (by simp) (by simp) (by simp)
        rcases hok with ⟨hsel, -⟩
        rw [← hsel]
        refine ⟨by simpa using hinv.2.2, ?_⟩
        have := hinv.2.1
        rwa [hinv.1] at this
    · simp only [eq_false_of_ne_true hv, Bool.not_false, if_true] at hok
      simp at hok

/-- **C10, amended, witness**: a three-item list with a duplicate name,
one matching and one unmatched selector. -/
theorem filter_selection_amended_witness :
    filterGo (fun _ _ => false) ["b", "a", "b"] id ["b", "x"] "exact" true =
      .ok (["b", "a", "b"], []) ∧
    (["b"].Sublist ["b", "a", "b"] ∧ (["b"].map id).Nodup) :=
  ⟨(filter_selection_amended (fun _ _ => false) ["b", "a", "b"] id ["b", "x"]
      "exact").1 (by decide),
   (filter_selection_amended (fun _ _ => false) ["b", "a", "b"] id ["b", "x"]
      "exact").2 ["b"] ["x"] (by decide)⟩

/-! ## Claim C7 — whitelist rewriting -/

/-- **C7, counterexample.** An empty-string entry is a name that fails to
resolve, yet it is removed from the whitelist rather than passed through
unchanged. -/
theorem whitelist_claim_counterexample :
    mapSchemaGroupWhitelist (fun _ => none)
      [("f", .withWhitelist [.str ""] 0)] =
      .ok [("f", .withWhitelist [] 0)] ∧
    ¬mapSchemaGroupWhitelist (fun _ => none)
      [("f", .withWhitelist [.str ""] 0)] =
      .ok [("f", .withWhitelist [.str ""] 0)] := by
  decide

theorem mapWhitelist_foldl (lookup : String → Option String) :
    ∀ (wl : List WLEntry) (acc : List WLEntry),
      wl.foldl
        (fun mapped item =>
          match item with
          | .nonstr _ => mapped
          | .str s =>
            if s = "" then mapped
            else
              match lookup s with
              | some uuid => mapped ++ [.str uuid]
              | none => mapped ++ [.str s])
        acc =
      acc ++ wl.filterMap fun e =>
        match e with
        | .nonstr _ => none
        | .str s =>
          if s = "" then none
          else
            match lookup s with
            | some uuid => some (.str uuid)
            | none => some (.str s) := by
  intro wl
  induction wl with
  | nil => intro acc; simp
  | cons e rest ih =>
    intro acc
    rw [List.foldl_cons, List.filterMap_cons]
    cases e with
    | nonstr t => simpa using ih acc
    | str s =>
      by_cases hs : s = ""
      · simp only [hs, if_true, if_pos rfl]
        simpa using ih acc
      · cases hl : lookup s with
        | some uuid =>
          simp only [if_neg hs, hl]
          rw [ih (acc ++ [WLEntry.str uuid])]
          simp
        | none =>
          simp only [if_neg hs, hl]
          rw [ih (acc ++ [WLEntry.str s])]
          simp

/-- **C7, amended.** The rewrite never returns an error, and on every
whitelist each entry whose name resolves through the group cache is
replaced by the resolved UUID while a non-empty name that fails to
resolve is passed through unchanged; empty-string and non-string entries
are removed from the list (they do not pass through — see the
counterexample). -/
theorem whitelist_rewrite_amended (lookup : String → Option String)
    (schema : Schema) :
    (∃ out, mapSchemaGroupWhitelist lookup schema = .ok out) ∧
    (∀ wl, mapWhitelist lookup wl = wl.filterMap fun e =>
      match e with
      | .nonstr _ => none
      | .str s =>
        if s = "" then none
        else
          match lookup s with
          | some uuid => some (.str uuid)
          | none => some (.str s)) := by
  constructor
  · exact ⟨rewriteSchema lookup schema, rfl⟩
  · intro wl
    unfold mapWhitelist
    simpa using mapWhitelist_foldl lookup wl []

/-! ## Claim C2 — deduplicated ensure -/

/-- Inductive invariant of the ensure machine. -/
structure EnsureInv (s : EnsureSys) : Prop where
  countLe : s.shared.createCount ≤ 1
  cacheCount : ∀ v, s.shared.cache = some v → s.shared.createCount = 1
  idleAll : s.shared.flight = .idle →
    s.shared.cache = none ∧ s.shared.createCount = 0 ∧
    ∀ c ∈ s.callers, c = .start
  leaderFlight : ∀ (j : Nat) (c : EnsurePC), s.callers[j]? = some c → isLeaderPC c = true →
    ∃ pub, s.shared.flight = .running j pub
  recheckSt : ∀ (j : Nat), s.callers[j]? = some EnsurePC.leaderRecheck →
    s.shared.flight = .running j none ∧ s.shared.cache = none ∧
    s.shared.createCount = 0
  doCreateSt : ∀ (j : Nat), s.callers[j]? = some EnsurePC.leaderDoCreate →
    s.shared.flight = .running j none ∧ s.shared.cache = none ∧
    s.shared.createCount = 0
  setSt : ∀ (j v : Nat), s.callers[j]? = some (EnsurePC.leaderSet v) →
    s.shared.flight = .running j none ∧ s.shared.cache = none ∧
    s.shared.createCount = 1
  pubSt : ∀ (j v : Nat), s.callers[j]? = some (EnsurePC.leaderPub v) →
    s.shared.flight = .running j none ∧ s.shared.cache = some v
  publishedSt : ∀ l v, s.shared.flight = .running l (some v) →
    s.shared.cache = some v ∧ s.shared.createCount = 1
  doneSt : ∀ (j v : Nat), s.callers[j]? = some (EnsurePC.done v) →
    s.shared.cache = some v

theorem ensureInv_init (n : Nat) : EnsureInv (initSys n) := by
  have hmem : ∀ (j : Nat) (c : EnsurePC),
      (List.replicate n EnsurePC.start)[j]? = some c → c = .start := by
    intro j c h
    have := List.getElem?_mem h
    exact List.eq_of_mem_replicate this
  refine ⟨?_, ?_, ?_, ?_, ?_, ?_, ?_, ?_, ?_, ?_⟩
  · simp [initSys]
  · intro v h; simp [initSys] at h
  · intro _
    refine ⟨rfl, rfl, ?_⟩
    intro c hc
    exact List.eq_of_mem_replicate hc
  · intro j c h hl
    have := hmem j c h
    subst this
    simp [isLeaderPC] at hl
  · intro j h; have := hmem j _ h; simp at this
  · intro j h; have := hmem j _ h; simp at this
  · intro j v h; have := hmem j _ h; simp at this
  · intro j v h; have := hmem j _ h; simp at this
  · intro l v h; simp [initSys] at h
  · intro j v h; have := hmem j _ h; simp at this

theorem ensureInv_set_frame (s : EnsureSys) (i : Nat) (c' : EnsurePC)
    (hinv : EnsureInv s) (hlen : i < s.callers.length)
    (hnl : isLeaderPC c' = false)
    (hdone : ∀ v, c' = .done v → s.shared.cache = some v)
    (hnidle : s.shared.flight ≠ .idle) :
    EnsureInv { shared := s.shared, callers := s.callers.set i c' } := by
  have hgetI : (s.callers.set i c')[i]? = some c' :=
    List.getElem?_set_eq_of_lt _ hlen
  have hgetN : ∀ (j : Nat), j ≠ i → (s.callers.set i c')[j]? = s.callers[j]? :=
    fun j hne => List.getElem?_set_ne (Ne.symm hne)
  refine ⟨hinv.countLe, hinv.cacheCount, ?_, ?_, ?_, ?_, ?_, ?_,
    hinv.publishedSt, ?_⟩
  · intro hidle; exact absurd hidle hnidle
  · intro j c hj hl
    by_cases hji : j = i
    · subst hji
      rw [hgetI] at hj
      obtain rfl : c' = c := by injection hj
      rw [hnl] at hl
      exact absurd hl (by simp)
    · exact hinv.leaderFlight j c (by rwa [hgetN j hji] at hj) hl
  · intro j hj
    by_cases hji : j = i
    · subst hji
      rw [hgetI] at hj
      obtain rfl : c' = .leaderRecheck := by injection hj
      simp [isLeaderPC] at hnl
    · exact hinv.recheckSt j (by rwa [hgetN j hji] at hj)
  · intro j hj
    by_cases hji : j = i
    · subst hji
      rw [hgetI] at hj
      obtain rfl : c' = .leaderDoCreate := by injection hj
      simp [isLeaderPC] at hnl
    · exact hinv.doCreateSt j (by rwa [hgetN j hji] at hj)
  · intro j v hj
    by_cases hji : j = i
    · subst hji
      rw [hgetI] at hj
      obtain rfl : c' = .leaderSet v := by injection hj
      simp [isLeaderPC] at hnl
    · exact hinv.setSt j v (by rwa [hgetN j hji] at hj)
  · intro j v hj
    by_cases hji : j = i
    · subst hji
      rw [hgetI] at hj
      obtain rfl : c' = .leaderPub v := by injection hj
      simp [isLeaderPC] at hnl
    · exact hinv.pubSt j v (by rwa [hgetN j hji] at hj)
  · intro j v hj
    by_cases hji : j = i
    · subst hji
      rw [hgetI] at hj
      obtain rfl : c' = .done v := by injection hj
      exact hdone v rfl
    · exact hinv.doneSt j v (by rwa [hgetN j hji] at hj)

theorem ensureInv_step (s : EnsureSys) (i : Nat) (hinv : EnsureInv s) :
    EnsureInv (stepSys s i) := by
  cases hget : s.callers[i]? with
  | none => simpa [stepSys, hget] using hinv
  | some c =>
    have hlen : i < s.callers.length := by
      rcases List.getElem?_eq_some.mp hget with ⟨h, -⟩
      exact h
    have hmemI : c ∈ s.callers := List.getElem?_mem hget
    cases c with
    | start =>
      cases hcache : s.shared.cache with
      | some v =>
        have hs' : stepSys s i =
            { shared := s.shared, callers := s.callers.set i (.done v) } := by
          simp [stepSys, hget, stepCaller, hcache]
        rw [hs']
        refine ensureInv_set_frame s i _ hinv hlen rfl (fun w hw => ?_) ?_
        · obtain rfl : v = w := by injection hw
          exact hcache
        · intro hidle
          have := (hinv.idleAll hidle).1
          rw [hcache] at this
          exact absurd this (by simp)
      | none =>
        cases hflight : s.shared.flight with
        | idle =>
          have hs' : stepSys s i =
              { shared := { s.shared with flight := .running i none },
                callers := s.callers.set i .leaderRecheck } := by
            simp [stepSys, hget, stepCaller, hcache, hflight]
          rw [hs']
          have hall := hinv.idleAll hflight
          have hgetI : (s.callers.set i EnsurePC.leaderRecheck)[i]? =
              some .leaderRecheck := List.getElem?_set_eq_of_lt _ hlen
          have hgetN : ∀ (j : Nat), j ≠ i →
              (s.callers.set i EnsurePC.leaderRecheck)[j]? =
                s.callers[j]? :=
            fun j hne => List.getElem?_set_ne (Ne.symm hne)
          have hstart : ∀ (j : Nat) (c : EnsurePC), j ≠ i →
              (s.callers.set i EnsurePC.leaderRecheck)[j]? = some c →
              c = .start := by
            intro j c hji hj
            rw [hgetN j hji] at hj
            exact hall.2.2 c (List.getElem?_mem hj)
          refine ⟨?_, ?_, ?_, ?_, ?_, ?_, ?_, ?_, ?_, ?_⟩
          · simpa using hinv.countLe
          · intro v hv
            rw [show ({ s.shared with flight := .running i none } :
              EnsureShared).cache = s.shared.cache from rfl, hcache] at hv
            exact absurd hv (by simp)
          · intro hidle
            exact absurd hidle (by simp)
          · intro j c hj hl
            by_cases hji : j = i
            · subst hji
              exact ⟨none, rfl⟩
            · have := hstart j c hji hj
              subst this
              simp [isLeaderPC] at hl
          · intro j hj
            by_cases hji : j = i
            · subst hji
              exact ⟨rfl, hcache, hall.2.1⟩
            · have := hstart j _ hji hj
              exact absurd this (by simp)
          · intro j hj
            by_cases hji : j = i
            · subst hji
              rw [hgetI] at hj
              exact absurd hj (by simp)
            · have := hstart j _ hji hj
              exact absurd this (by simp)
          · intro j v hj
            by_cases hji : j = i
            · subst hji
              rw [hgetI] at hj
              exact absurd hj (by simp)
            · have := hstart j _ hji hj
              exact absurd this (by simp)
          · intro j v hj
            by_cases hji : j = i
            · subst hji
              rw [hgetI] at hj
              exact absurd hj (by simp)
            · have := hstart j _ hji hj
              exact absurd this (by simp)
          · intro l v hlv
            have : (Flight.running i none) = .running l (some v) := hlv
            exact absurd this (by simp)
          · intro j v hj
            by_cases hji : j = i
            · subst hji
              rw [hgetI] at hj
              exact absurd hj (by simp)
            · have := hstart j _ hji hj
              exact absurd this (by simp)
        | running l pub =>
          have hs' : stepSys s i =
              { shared := s.shared, callers := s.callers.set i .waiting } := by
            simp [stepSys, hget, stepCaller, hcache, hflight]
          rw [hs']
          refine ensureInv_set_frame s i _ hinv hlen rfl
            (fun w hw => by simp at hw) ?_
          rw [hflight]
          simp
    | leaderRecheck =>
      have hst := hinv.recheckSt i hget
      cases hcache : s.shared.cache with
      | some u =>
        rw [hst.2.1] at hcache
        exact absurd hcache (by simp)
      | none =>
        have hs' : stepSys s i =
            { shared := s.shared, callers := s.callers.set i .leaderDoCreate } := by
          simp [stepSys, hget, stepCaller, hcache]
        rw [hs']
        have hgetI : (s.callers.set i EnsurePC.leaderDoCreate)[i]? =
            some .leaderDoCreate := List.getElem?_set_eq_of_lt _ hlen
        have hgetN : ∀ (j : Nat), j ≠ i →
            (s.callers.set i EnsurePC.leaderDoCreate)[j]? = s.callers[j]? :=
          fun j hne => List.getElem?_set_ne (Ne.symm hne)
        have huniq : ∀ j, j ≠ i → s.shared.flight ≠ .running j none := by
          intro j hji hcontra
          rw [hst.1] at hcontra
          have : i = j := by injection hcontra
          exact hji this.symm
        refine ⟨hinv.countLe, hinv.cacheCount, ?_, ?_, ?_, ?_, ?_, ?_,
          hinv.publishedSt, ?_⟩
        · intro hidle
          rw [hst.1] at hidle
          exact absurd hidle (by simp)
        · intro j c hj hl
          by_cases hji : j = i
          · subst hji
            exact ⟨none, hst.1⟩
          · exact hinv.leaderFlight j c (by rwa [hgetN j hji] at hj) hl
        · intro j hj
          by_cases hji : j = i
          · subst hji
            rw [hgetI] at hj
            exact absurd hj (by simp)
          · rw [hgetN j hji] at hj
            exact absurd (hinv.recheckSt j hj).1 (huniq j hji)
        · intro j hj
          by_cases hji : j = i
          · subst hji
            exact hst
          · rw [hgetN j hji] at hj
            exact absurd (hinv.doCreateSt j hj).1 (huniq j hji)
        · intro j v hj
          by_cases hji : j = i
          · subst hji
            rw [hgetI] at hj
            exact absurd hj (by simp)
          · rw [hgetN j hji] at hj
            exact absurd (hinv.setSt j v hj).1 (huniq j hji)
        · intro j v hj
          by_cases hji : j = i
          · subst hji
            rw [hgetI] at hj
            exact absurd hj (by simp)
          · rw [hgetN j hji] at hj
            exact absurd (hinv.pubSt j v hj).1 (huniq j hji)
        · intro j v hj
          by_cases hji : j = i
          · subst hji
            rw [hgetI] at hj
            exact absurd hj (by simp)
          · rw [hgetN j hji] at hj
            have := hinv.doneSt j v hj
            rw [hst.2.1] at this
            exact absurd this (by simp)
    | leaderDoCreate =>
      have hst := hinv.doCreateSt i hget
      have hs' : stepSys s i =
          { shared := { s.shared with
              createCount := s.shared.createCount + 1
              nextId := s.shared.nextId + 1 },
            callers := s.callers.set i (.leaderSet s.shared.nextId) } := by
        simp [stepSys, hget, stepCaller]
      rw [hs']
      have hgetI : (s.callers.set i (EnsurePC.leaderSet s.shared.nextId))[i]? =
          some (.leaderSet s.shared.nextId) := List.getElem?_set_eq_of_lt _ hlen
      have hgetN : ∀ (j : Nat), j ≠ i →
          (s.callers.set i (EnsurePC.leaderSet s.shared.nextId))[j]? =
            s.callers[j]? :=
        fun j hne => List.getElem?_set_ne (Ne.symm hne)
      have huniq : ∀ j, j ≠ i → s.shared.flight ≠ .running j none := by
        intro j hji hcontra
        rw [hst.1] at hcontra
        have : i = j := by injection hcontra
        exact hji this.symm
      refine ⟨?_, ?_, ?_, ?_, ?_, ?_, ?_, ?_, ?_, ?_⟩
      · simp [hst.2.2]
      · intro v hv
        rw [show ({ s.shared with
            createCount := s.shared.createCount + 1
            nextId := s.shared.nextId + 1 } : EnsureShared).cache =
          s.shared.cache from rfl, hst.2.1] at hv
        exact absurd hv (by simp)
      · intro hidle
        rw [show ({ s.shared with
            createCount := s.shared.createCount + 1
            nextId := s.shared.nextId + 1 } : EnsureShared).flight =
          s.shared.flight from rfl, hst.1] at hidle
        exact absurd hidle (by simp)
      · intro j c hj hl
        by_cases hji : j = i
        · subst hji
          exact ⟨none, hst.1⟩
        · exact hinv.leaderFlight j c (by rwa [hgetN j hji] at hj) hl
      · intro j hj
        by_cases hji : j = i
        · subst hji
          rw [hgetI] at hj
          exact absurd hj (by simp)
        · rw [hgetN j hji] at hj
          exact absurd (hinv.recheckSt j hj).1 (huniq j hji)
      · intro j hj
        by_cases hji : j = i
        · subst hji
          rw [hgetI] at hj
          exact absurd hj (by simp)
        · rw [hgetN j hji] at hj
          exact absurd (hinv.doCreateSt j hj).1 (huniq j hji)
      · intro j v hj
        by_cases hji : j = i
        · subst hji
          rw [hgetI] at hj
          obtain rfl : s.shared.nextId = v := by
            injection hj with hj'
            injection hj'
          exact ⟨hst.1, hst.2.1, by simp [hst.2.2]⟩
        · rw [hgetN j hji] at hj
          exact absurd (hinv.setSt j v hj).1 (huniq j hji)
      · intro j v hj
        by_cases hji : j = i
        · subst hji
          rw [hgetI] at hj
          exact absurd hj (by simp)
        · rw [hgetN j hji] at hj
          exact absurd (hinv.pubSt j v hj).1 (huniq j hji)
      · intro l v hlv
        have : s.shared.flight = .running l (some v) := hlv
        rw [hst.1] at this
        exact absurd this (by simp)
      · intro j v hj
        by_cases hji : j = i
        · subst hji
          rw [hgetI] at hj
          exact absurd hj (by simp)
        · rw [hgetN j hji] at hj
          have := hinv.doneSt j v hj
          rw [hst.2.1] at this
          exact absurd this (by simp)
    | leaderSet v =>
      have hst := hinv.setSt i v hget
      have hs' : stepSys s i =
          { shared := { s.shared with cache := some v },
            callers := s.callers.set i (.leaderPub v) } := by
        simp [stepSys, hget, stepCaller]
      rw [hs']
      have hgetI : (s.callers.set i (EnsurePC.leaderPub v))[i]? =
          some (.leaderPub v) := List.getElem?_set_eq_of_lt _ hlen
      have hgetN : ∀ (j : Nat), j ≠ i →
          (s.callers.set i (EnsurePC.leaderPub v))[j]? = s.callers[j]? :=
        fun j hne => List.getElem?_set_ne (Ne.symm hne)
      have huniq : ∀ j, j ≠ i → s.shared.flight ≠ .running j none := by
        intro j hji hcontra
        rw [hst.1] at hcontra
        have : i = j := by injection hcontra
        exact hji this.symm
      refine ⟨?_, ?_, ?_, ?_, ?_, ?_, ?_, ?_, ?_, ?_⟩
      · simpa using hinv.countLe
      · intro w _
        simpa using hst.2.2
      · intro hidle
        rw [show ({ s.shared with cache := some v } : EnsureShared).flight =
          s.shared.flight from rfl, hst.1] at hidle
        exact absurd hidle (by simp)
      · intro j c hj hl
        by_cases hji : j = i
        · subst hji
          exact ⟨none, hst.1⟩
        · exact hinv.leaderFlight j c (by rwa [hgetN j hji] at hj) hl
      · intro j hj
        by_cases hji : j = i
        · subst hji
          rw [hgetI] at hj
          exact absurd hj (by simp)
        · rw [hgetN j hji] at hj
          exact absurd (hinv.recheckSt j hj).1 (huniq j hji)
      · intro j hj
        by_cases hji : j = i
        · subst hji
          rw [hgetI] at hj
          exact absurd hj (by simp)
        · rw [hgetN j hji] at hj
          exact absurd (hinv.doCreateSt j hj).1 (huniq j hji)
      · intro j w hj
        by_cases hji : j = i
        · subst hji
          rw [hgetI] at hj
          exact absurd hj (by simp)
        · rw [hgetN j hji] at hj
          exact absurd (hinv.setSt j w hj).1 (huniq j hji)
      · intro j w hj
        by_cases hji : j = i
        · subst hji
          rw [hgetI] at hj
          obtain rfl : v = w := by
            injection hj with hj'
            injection hj'
          exact ⟨hst.1, rfl⟩
        · rw [hgetN j hji] at hj
          exact absurd (hinv.pubSt j w hj).1 (huniq j hji)
      · intro l w hlw
        have : s.shared.flight = .running l (some w) := hlw
        rw [hst.1] at this
        exact absurd this (by simp)
      · intro j w hj
        by_cases hji : j = i
        · subst hji
          rw [hgetI] at hj
          exact absurd hj (by simp)
        · rw [hgetN j hji] at hj
          have := hinv.doneSt j w hj
          rw [hst.2.1] at this
          exact absurd this (by simp)
    | leaderPub v =>
      have hst := hinv.pubSt i v hget
      have hs' : stepSys s i =
          { shared := { s.shared with flight := .running i (some v) },
            callers := s.callers.set i (.done v) } := by
        simp [stepSys, hget, stepCaller, hst.1]
      rw [hs']
      have hgetI : (s.callers.set i (EnsurePC.done v))[i]? =
          some (.done v) := List.getElem?_set_eq_of_lt _ hlen
      have hgetN : ∀ (j : Nat), j ≠ i →
          (s.callers.set i (EnsurePC.done v))[j]? = s.callers[j]? :=
        fun j hne => List.getElem?_set_ne (Ne.symm hne)
      have huniq : ∀ j, j ≠ i → s.shared.flight ≠ .running j none := by
        intro j hji hcontra
        rw [hst.1] at hcontra
        have : i = j := by injection hcontra
        exact hji this.symm
      refine ⟨?_, ?_, ?_, ?_, ?_, ?_, ?_, ?_, ?_, ?_⟩
      · simpa using hinv.countLe
      · intro w hw
        exact hinv.cacheCount w hw
      · intro hidle
        exact absurd hidle (by simp)
      · intro j c hj hl
        by_cases hji : j = i
        · subst hji
          rw [hgetI] at hj
          obtain rfl : EnsurePC.done v = c := by injection hj
          simp [isLeaderPC] at hl
        · obtain ⟨pub, hpub⟩ :=
            hinv.leaderFlight j c (by rwa [hgetN j hji] at hj) hl
          rw [hst.1] at hpub
          have : i = j := by injection hpub
          exact absurd this.symm hji
      · intro j hj
        by_cases hji : j = i
        · subst hji
          rw [hgetI] at hj
          exact absurd hj (by simp)
        · rw [hgetN j hji] at hj
          exact absurd (hinv.recheckSt j hj).1 (huniq j hji)
      · intro j hj
        by_cases hji : j = i
        · subst hji
          rw [hgetI] at hj
          exact absurd hj (by simp)
        · rw [hgetN j hji] at hj
          exact absurd (hinv.doCreateSt j hj).1 (huniq j hji)
      · intro j w hj
        by_cases hji : j = i
        · subst hji
          rw [hgetI] at hj
          exact absurd hj (by simp)
        · rw [hgetN j hji] at hj
          exact absurd (hinv.setSt j w hj).1 (huniq j hji)
      · intro j w hj
        by_cases hji : j = i
        · subst hji
          rw [hgetI] at hj
          exact absurd hj (by simp)
        · rw [hgetN j hji] at hj
          exact absurd (hinv.pubSt j w hj).1 (huniq j hji)
      · intro l w hlw
        have heq : (Flight.running i (some v)) = .running l (some w) := hlw
        have hl : i = l := by injection heq
        have hv : v = w := by
          injection heq with h1 h2
          injection h2
        subst hl
        subst hv
        exact ⟨hst.2, hinv.cacheCount v hst.2⟩
      · intro j w hj
        by_cases hji : j = i
        · subst hji
          rw [hgetI] at hj
          obtain rfl : v = w := by
            injection hj with hj'
            injection hj'
          exact hst.2
        · rw [hgetN j hji] at hj
          exact hinv.doneSt j w hj
    | waiting =>
      cases hflight : s.shared.flight with
      | idle =>
        have := (hinv.idleAll hflight).2.2 _ hmemI
        exact absurd this (by simp)
      | running l pub =>
        cases pub with
        | none =>
          have hs' : stepSys s i =
              { shared := s.shared, callers := s.callers.set i .waiting } := by
            simp [stepSys, hget, stepCaller, hflight]
          rw [hs']
          refine ensureInv_set_frame s i _ hinv hlen rfl
            (fun w hw => by simp at hw) ?_
          rw [hflight]
          simp
        | some v =>
          have hs' : stepSys s i =
              { shared := s.shared, callers := s.callers.set i (.done v) } := by
            simp [stepSys, hget, stepCaller, hflight]
          rw [hs']
          refine ensureInv_set_frame s i _ hinv hlen rfl (fun w hw => ?_) ?_
          · obtain rfl : v = w := by injection hw
            exact (hinv.publishedSt l v hflight).1
          · rw [hflight]
            simp
    | done v =>
      have hs' : stepSys s i =
          { shared := s.shared, callers := s.callers.set i (.done v) } := by
        simp [stepSys, hget, stepCaller]
      rw [hs']
      refine ensureInv_set_frame s i _ hinv hlen rfl (fun w hw => ?_) ?_
      · obtain rfl : v = w := by injection hw
        exact hinv.doneSt i v hget
      · intro hidle
        have := (hinv.idleAll hidle).2.2 _ hmemI
        exact absurd this (by simp)

theorem ensureInv_runSched (s : EnsureSys) (hinv : EnsureInv s) :
    ∀ sched : List Nat, EnsureInv (runSched s sched) := by
  intro sched
  induction sched generalizing s with
  | nil => simpa [runSched] using hinv
  | cons i rest ih =>
    rw [runSched]
    exact ih _ (ensureInv_step s i hinv)

/-- **C2.** For every number of concurrent callers ensuring one name that
is not yet cached and every interleaving of their atomic steps: at most
one create request is issued; every caller that has finished received a
value `v` such that the cache holds `v` and exactly one create was issued
(so the cache was updated no later than the moment any caller — leader or
waiter — was released, since schedules range over every prefix); and all
finished callers agree on the same resolved identifier. -/
theorem ensure_dedup_once (n : Nat) (sched : List Nat) :
    (runSched (initSys n) sched).shared.createCount ≤ 1 ∧
    (∀ (j v : Nat),
      (runSched (initSys n) sched).callers[j]? = some (EnsurePC.done v) →
      (runSched (initSys n) sched).shared.cache = some v ∧
      (runSched (initSys n) sched).shared.createCount = 1) ∧
    (∀ (j k v w : Nat),
      (runSched (initSys n) sched).callers[j]? = some (EnsurePC.done v) →
      (runSched (initSys n) sched).callers[k]? = some (EnsurePC.done w) →
      v = w) := by
  have hinv := ensureInv_runSched (initSys n) (ensureInv_init n) sched
  refine ⟨hinv.countLe, ?_, ?_⟩
  · intro j v hj
    have hc := hinv.doneSt j v hj
    exact ⟨hc, hinv.cacheCount v hc⟩
  · intro j k v w hj hk
    have h1 := hinv.doneSt j v hj
    have h2 := hinv.doneSt k w hk
    rw [h1] at h2
    exact Option.some.inj h2

/-- **C2, witness**: two callers, the first becoming leader and creating,
the second arriving afterwards and hitting the cache. -/
theorem ensure_dedup_once_witness :
    ((runSched (initSys 2) [0, 0, 0, 0, 0, 1]).shared.cache = some 1 ∧
      (runSched (initSys 2) [0, 0, 0, 0, 0, 1]).shared.createCount = 1) ∧
    (1 : Nat) = 1 :=
  ⟨(ensure_dedup_once 2 [0, 0, 0, 0, 0, 1]).2.1 0 1 (by decide),
   (ensure_dedup_once 2 [0, 0, 0, 0, 0, 1]).2.2 0 1 1 1 (by decide) (by decide)⟩

/-! ## Claim C9 — JSON extras round trip -/

theorem jsonGet_append (a b : List (String × Json)) (k : String) :
    jsonGet (a ++ b) k =
      match jsonGet a k with
      | some v => some v
      | none => jsonGet b k := by
  induction a with
  | nil => simp [jsonGet]
  | cons p rest ih =>
    by_cases hk : (p.1 == k : Bool)
    · simp [jsonGet, List.find?_cons, hk]
    · simp only [jsonGet, List.cons_append, List.find?_cons, hk] at ih ⊢
      exact ih

theorem jsonGet_singleton_ne (k₀ k : String) (v : Json) (h : k ≠ k₀) :
    jsonGet [(k₀, v)] k = none := by
  have : (k₀ == k : Bool) = false := by
    simp only [beq_eq_false_iff_ne, ne_eq]
    exact fun hc => h hc.symm
  simp [jsonGet, List.find?_cons, this]

theorem setKey_get_self (fields : List (String × Json)) (k : String) (v : Json) :
    jsonGet (setKey fields k v) k = some v := by
  induction fields with
  | nil => simp [setKey, jsonGet, List.find?_cons]
  | cons p rest ih =>
    by_cases hk : p.1 = k
    · simp [setKey, hk, jsonGet, List.find?_cons]
    · have hbk : (p.1 == k : Bool) = false := by simpa using hk
      simp only [setKey, hk, if_false]
      simp only [jsonGet, List.find?_cons, hbk] at ih ⊢
      simpa using ih

theorem setKey_get_ne (fields : List (String × Json)) (k k' : String) (v : Json)
    (h : k' ≠ k) :
    jsonGet (setKey fields k v) k' = jsonGet fields k' := by
  have hbk : (k == k' : Bool) = false := by
    simp only [beq_eq_false_iff_ne, ne_eq]
    exact fun hc => h hc.symm
  induction fields with
  | nil => simp [setKey, jsonGet, List.find?_cons, hbk]
  | cons p rest ih =>
    by_cases hk : p.1 = k
    · have hpk' : (p.1 == k' : Bool) = false := by rw [hk]; exact hbk
      simp [setKey, hk, jsonGet, List.find?_cons, hbk, hpk']
    · simp only [setKey, hk, if_false]
      by_cases hpk' : (p.1 == k' : Bool)
      · simp [jsonGet, List.find?_cons, hpk']
      · simp only [jsonGet, List.find?_cons, hpk', Bool.false_eq_true, if_false] at ih ⊢
        exact ih

theorem mergeExtras_get (extras : List (String × Json)) :
    ∀ (base : List (String × Json)) (k : String),
      (extras.map Prod.fst).Nodup →
      jsonGet (mergeExtras base extras) k =
        match jsonGet extras k with
        | some v => some v
        | none => jsonGet base k := by
  induction extras with
  | nil => intro base k _; simp [mergeExtras, jsonGet]
  | cons p rest ih =>
    intro base k hnodup
    have hnodup' : (rest.map Prod.fst).Nodup := by
      simpa using hnodup.of_cons
    have hs : mergeExtras base (p :: rest) = mergeExtras (setKey base p.1 p.2) rest := by
      simp [mergeExtras]
    rw [hs, ih (setKey base p.1 p.2) k hnodup']
    by_cases hk : k = p.1
    · have hnodup2 : (p.1 :: rest.map Prod.fst).Nodup := by simpa using hnodup
      have hnotmem : p.1 ∉ rest.map Prod.fst := (List.nodup_cons.mp hnodup2).1
      have hknot : jsonGet rest k = none := by
        unfold jsonGet
        have hfind : rest.find? (fun q => q.1 == k) = none := by
          apply List.find?_eq_none.mpr
          intro q hq
          have hmem : q.1 ∈ rest.map Prod.fst := List.mem_map_of_mem _ hq
          have hkne : q.1 ≠ k := by
            intro hcontra
            rw [hk] at hcontra
            rw [hcontra] at hmem
            exact hnotmem hmem
          simpa using hkne
        rw [hfind]
        rfl
      have hhit : (p.1 == k : Bool) = true := by simp [hk]
      rw [hknot, hk, setKey_get_self]
      have hhit2 : (p.1 == p.1 : Bool) = true := by simp
      simp [jsonGet, List.find?_cons, hhit2]
    · have hhead : jsonGet (p :: rest) k = jsonGet rest k := by
        have : (p.1 == k : Bool) = false := by
          simp only [beq_eq_false_iff_ne, ne_eq]
          exact fun hc => hk hc.symm
        simp [jsonGet, List.find?_cons, this]
      rw [hhead, setKey_get_ne base p.1 k p.2 hk]

theorem jsonGet_filter_unknown (known : List String) (k : String)
    (hk : known.contains k = false) :
    ∀ fs : List (String × Json),
      jsonGet (fs.filter fun p => !(known.contains p.1)) k = jsonGet fs k := by
  intro fs
  induction fs with
  | nil => simp
  | cons p rest ih =>
    by_cases hpk : (p.1 == k : Bool)
    · have hp1 : p.1 = k := by simpa using hpk
      have : (known.contains p.1 : Bool) = false := by rw [hp1]; exact hk
      simp only [List.filter_cons, this, Bool.not_false, if_true]
      simp [jsonGet, List.find?_cons, hpk]
    · by_cases hkeep : (known.contains p.1 : Bool)
      · simp only [List.filter_cons, hkeep, Bool.not_true, Bool.false_eq_true, if_false]
        rw [ih]
        simp [jsonGet, List.find?_cons, hpk]
      · simp only [List.filter_cons, hkeep, Bool.not_false, if_true]
        simp only [jsonGet, List.find?_cons, hpk, Bool.false_eq_true, if_false] at ih ⊢
        exact ih

theorem jsonGet_eq_none_of_keys (l : List (String × Json)) (k : String)
    (h : ∀ p ∈ l, p.1 ≠ k) : jsonGet l k = none := by
  unfold jsonGet
  have : l.find? (fun p => p.1 == k) = none := by
    apply List.find?_eq_none.mpr
    intro p hp
    simpa using h p hp
  rw [this]
  rfl

theorem encComponentBase_keys (c : JComponent) :
    ∀ p ∈ encComponentBase c, p.1 ∈ jcomponentKnown := by
  intro p hp
  unfold encComponentBase at hp
  simp only [List.append_assoc, List.mem_append] at hp
  rcases hp with h | h | h | h | h | h | h | h | h | h <;>
    first
      | (split at h <;> simp_all [jcomponentKnown])
      | simp_all [jcomponentKnown]

theorem encComponentBase_unknown (c : JComponent) (k : String)
    (hk : jcomponentKnown.contains k = false) :
    jsonGet (encComponentBase c) k = none := by
  apply jsonGet_eq_none_of_keys
  intro p hp hcontra
  have hmem := encComponentBase_keys c p hp
  rw [hcontra] at hmem
  have hct : jcomponentKnown.contains k = true := List.elem_eq_true_of_mem hmem
  rw [hct] at hk
  exact absurd hk (by simp)

theorem encPresetBase_keys (p : JPreset) :
    ∀ q ∈ encPresetBase p, q.1 ∈ jpresetKnown := by
  intro q hq
  unfold encPresetBase at hq
  simp only [List.append_assoc, List.mem_append] at hq
  rcases hq with h | h | h | h | h <;>
    first
      | (split at h <;> simp_all [jpresetKnown])
      | simp_all [jpresetKnown]

theorem encPresetBase_unknown (p : JPreset) (k : String)
    (hk : jpresetKnown.contains k = false) :
    jsonGet (encPresetBase p) k = none := by
  apply jsonGet_eq_none_of_keys
  intro q hq hcontra
  have hmem := encPresetBase_keys p q hq
  rw [hcontra] at hmem
  have hct : jpresetKnown.contains k = true := List.elem_eq_true_of_mem hmem
  rw [hct] at hk
  exact absurd hk (by simp)

theorem decComponent_extras (fs : List (String × Json)) (comp : JComponent)
    (h : decComponent (.obj fs) = some comp) :
    comp.extras = fs.filter fun p => !(jcomponentKnown.contains p.1) := by
  simp only [decComponent, Option.bind_eq_bind, Option.bind_eq_some] at h
  rcases h with ⟨a1, -, a2, -, a3, -, a4, -, a5, -, a6, -, a7, -, a8, -, a9, -,
    a10, -, hfin⟩
  obtain rfl := Option.some.inj hfin
  rfl

theorem decPreset_extras (fs : List (String × Json)) (p : JPreset)
    (h : decPreset (.obj fs) = some p) :
    p.extras = fs.filter fun q => !(jpresetKnown.contains q.1) := by
  simp only [decPreset, Option.bind_eq_bind, Option.bind_eq_some] at h
  rcases h with ⟨a1, -, a2, -, a3, -, a4, -, hfin⟩
  obtain rfl := Option.some.inj hfin
  rfl

theorem nodup_filter_keys (fs : List (String × Json))
    (q : String × Json → Bool) (h : (fs.map Prod.fst).Nodup) :
    ((fs.filter q).map Prod.fst).Nodup := by
  have hsub : ((fs.filter q).map Prod.fst).Sublist (fs.map Prod.fst) :=
    (List.filter_sublist fs).map _
  exact h.sublist hsub

/-- **C9.** For every JSON object with distinct keys that decodes into a
`Component` or `ComponentPreset`: every top-level field that is not a
known struct field is captured verbatim in `Extras`, and marshalling
re-applies it, so the unmarshal-then-marshal round trip preserves every
unrecognized attribute unchanged alongside the known fields. -/
theorem extras_roundtrip :
    (∀ (fs : List (String × Json)) (comp : JComponent) (k : String),
      (fs.map Prod.fst).Nodup →
      decComponent (.obj fs) = some comp →
      jcomponentKnown.contains k = false →
      jsonGet comp.extras k = jsonGet fs k ∧
      jsonGet (encComponentObj comp) k = jsonGet fs k) ∧
    (∀ (fs : List (String × Json)) (p : JPreset) (k : String),
      (fs.map Prod.fst).Nodup →
      decPreset (.obj fs) = some p →
      jpresetKnown.contains k = false →
      jsonGet p.extras k = jsonGet fs k ∧
      jsonGet (encPresetObj p) k = jsonGet fs k) := by
  constructor
  · intro fs comp k hnodup hdec hk
    have hex := decComponent_extras fs comp hdec
    have hfilter := jsonGet_filter_unknown jcomponentKnown k hk fs
    have h1 : jsonGet comp.extras k = jsonGet fs k := by rw [hex]; exact hfilter
    refine ⟨h1, ?_⟩
    unfold encComponentObj
    by_cases hemp : comp.extras.isEmpty
    · rw [if_pos hemp]
      rw [encComponentBase_unknown comp k hk]
      have hnil : comp.extras = [] := List.isEmpty_iff.mp hemp
      rw [hnil] at h1
      simp only [jsonGet, List.find?_nil, Option.map_none'] at h1
      exact h1
    · rw [if_neg hemp]
      have hnd : (comp.extras.map Prod.fst).Nodup := by
        rw [hex]
        exact nodup_filter_keys fs _ hnodup
      rw [mergeExtras_get comp.extras (encComponentBase comp) k hnd]
      rcases hx : jsonGet comp.extras k with - | v
      · rw [encComponentBase_unknown comp k hk]
        rw [hx] at h1
        exact h1
      · rw [hx] at h1
        exact h1
  · intro fs p k hnodup hdec hk
    have hex := decPreset_extras fs p hdec
    have hfilter := jsonGet_filter_unknown jpresetKnown k hk fs
    have h1 : jsonGet p.extras k = jsonGet fs k := by rw [hex]; exact hfilter
    refine ⟨h1, ?_⟩
    unfold encPresetObj
    by_cases hemp : p.extras.isEmpty
    · rw [if_pos hemp]
      rw [encPresetBase_unknown p k hk]
      have hnil : p.extras = [] := List.isEmpty_iff.mp hemp
      rw [hnil] at h1
      simp only [jsonGet, List.find?_nil, Option.map_none'] at h1
      exact h1
    · rw [if_neg hemp]
      have hnd : (p.extras.map Prod.fst).Nodup := by
        rw [hex]
        exact nodup_filter_keys fs _ hnodup
      rw [mergeExtras_get p.extras (encPresetBase p) k hnd]
      rcases hx : jsonGet p.extras k with - | v
      · rw [encPresetBase_unknown p k hk]
        rw [hx] at h1
        exact h1
      · rw [hx] at h1
        exact h1

/-- **C9, witness**: a component object carrying `custom` and a preset
object carrying `extra2`, both unknown attributes. -/
theorem extras_roundtrip_witness :
    (jsonGet (JComponent.mk 0 "hero" "" none "" "" 0 none none none
        [("custom", Json.num 5)]).extras "custom" =
      jsonGet [("name", Json.str "hero"), ("custom", Json.num 5)] "custom" ∧
     jsonGet (encComponentObj (JComponent.mk 0 "hero" "" none "" "" 0 none none
        none [("custom", Json.num 5)])) "custom" =
      jsonGet [("name", Json.str "hero"), ("custom", Json.num 5)] "custom") ∧
    (jsonGet (JPreset.mk 0 "p" 0 (some []) none
        [("extra2", Json.bool true)]).extras "extra2" =
      jsonGet [("name", Json.str "p"), ("preset", Json.obj []),
        ("extra2", Json.bool true)] "extra2" ∧
     jsonGet (encPresetObj (JPreset.mk 0 "p" 0 (some []) none
        [("extra2", Json.bool true)])) "extra2" =
      jsonGet [("name", Json.str "p"), ("preset", Json.obj []),
        ("extra2", Json.bool true)] "extra2") :=
  ⟨extras_roundtrip.1 [("name", Json.str "hero"), ("custom", Json.num 5)]
      (JComponent.mk 0 "hero" "" none "" "" 0 none none none
        [("custom", Json.num 5)]) "custom"
      (by decide) (by rfl) (by decide),
   extras_roundtrip.2 [("name", Json.str "p"), ("preset", Json.obj []),
      ("extra2", Json.bool true)]
      (JPreset.mk 0 "p" 0 (some []) none [("extra2", Json.bool true)]) "extra2"
      (by decide) (by rfl) (by decide)⟩

/-! ## Claim C6 — default-preset protocol -/

theorem syncPresets_ops (cid : Nat) :
    ∀ (ps : List MPreset) (st : SyncState) (m : String → Option MPreset),
      ∃ pops : List ApiOp,
        (∀ op ∈ pops,
          (∃ p, op = ApiOp.createPreset p) ∨ (∃ p, op = ApiOp.updatePreset p)) ∧
        (syncPresets st cid m ps).1.ops = st.ops ++ pops := by
  intro ps
  induction ps with
  | nil =>
    intro st m
    exact ⟨[], by simp, by simp [syncPresets]⟩
  | cons p rest ih =>
    intro st m
    cases hm : m (strToLower p.name) with
    | some ep =>
      obtain ⟨pops, hall, heq⟩ := ih
        { st with
          space := (serverUpdatePreset st.space
            { p with componentID := cid, id := ep.id }).1
          ops := st.ops ++ [ApiOp.updatePreset
            { p with componentID := cid, id := ep.id }] }
        (fun k => if k = strToLower p.name then
          some (serverUpdatePreset st.space
            { p with componentID := cid, id := ep.id }).2 else m k)
      refine ⟨ApiOp.updatePreset { p with componentID := cid, id := ep.id } :: pops,
        ?_, ?_⟩
      · intro op hop
        rcases List.mem_cons.mp hop with rfl | hop
        · exact Or.inr ⟨_, rfl⟩
        · exact hall op hop
      · simp only [syncPresets, hm]
        rw [heq]
        simp
    | none =>
      obtain ⟨pops, hall, heq⟩ := ih
        { st with
          space := (serverCreatePreset st.space
            { p with componentID := cid, id := 0 }).1
          ops := st.ops ++ [ApiOp.createPreset
            { p with componentID := cid, id := 0 }] }
        (fun k => if k = strToLower p.name then
          some (serverCreatePreset st.space
            { p with componentID := cid, id := 0 }).2 else m k)
      refine ⟨ApiOp.createPreset { p with componentID := cid, id := 0 } :: pops,
        ?_, ?_⟩
      · intro op hop
        rcases List.mem_cons.mp hop with rfl | hop
        · exact Or.inl ⟨_, rfl⟩
        · exact hall op hop
      · simp only [syncPresets, hm]
        rw [heq]
        simp

theorem createPresetsFor_ops (cid : Nat) :
    ∀ (ps : List MPreset) (st : SyncState),
      ∃ pops : List ApiOp,
        (∀ op ∈ pops, ∃ p, op = ApiOp.createPreset p) ∧
        (createPresetsFor st cid ps).1.ops = st.ops ++ pops := by
  intro ps
  induction ps with
  | nil =>
    intro st
    exact ⟨[], by simp, by simp [createPresetsFor]⟩
  | cons p rest ih =>
    intro st
    obtain ⟨pops, hall, heq⟩ := ih
      { st with
        space := (serverCreatePreset st.space
          { p with componentID := cid, id := 0 }).1
        ops := st.ops ++ [ApiOp.createPreset
          { p with componentID := cid, id := 0 }] }
    refine ⟨ApiOp.createPreset { p with componentID := cid, id := 0 } :: pops,
      ?_, ?_⟩
    · intro op hop
      rcases List.mem_cons.mp hop with rfl | hop
      · exact ⟨_, rfl⟩
      · exact hall op hop
    · simp only [createPresetsFor]
      rw [heq]
      simp

/-- **C6.** The first create/update of a component is issued with
`preset_id` zeroed; between it and any further component update only
preset writes are issued; when the component declared a default preset by
name, one additional component update setting the resolved remote preset
ID follows — skipped, on the update path, exactly when the resolved ID
equals the component's pre-update remote `preset_id` (which by the
`omitempty` server model is still its current remote `preset_id` after the
zeroed update: a zero `preset_id` in the payload leaves the stored value
unchanged, the third conjunct). On the create path the update fires
whenever the default preset name resolves among the just-created
presets. -/
theorem sync_presetID_protocol :
    (∀ (st : SyncState) (existing updated : MComponent)
      (presets targetPresets : List MPreset),
      ∃ pops : List ApiOp,
        (∀ op ∈ pops,
          (∃ p, op = ApiOp.createPreset p) ∨ (∃ p, op = ApiOp.updatePreset p)) ∧
        (updateComponentGo st existing updated presets targetPresets).1.ops =
          st.ops ++
          [ApiOp.updateComp existing.id
            { updated with id := existing.id, presetID := 0 }] ++
          pops ++
          (if defaultPresetName updated presets = "" then []
           else
             match (syncPresets
                 { st with
                   space := (serverUpdateComponent st.space existing.id
                     { updated with id := existing.id, presetID := 0 }).1
                   ops := st.ops ++ [ApiOp.updateComp existing.id
                     { updated with id := existing.id, presetID := 0 }] }
                 existing.id (presetKeyMap targetPresets existing.id)
                 presets).2 (defaultPresetName updated presets) with
             | some target =>
               if target.id = existing.presetID then []
               else [ApiOp.updateComp existing.id
                 { updated with id := existing.id, presetID := target.id }]
             | none => [])) ∧
    (∀ (st : SyncState) (component : MComponent) (presets : List MPreset),
      ∃ pops : List ApiOp,
        (∀ op ∈ pops, ∃ p, op = ApiOp.createPreset p) ∧
        (createComponentGo st component presets).1.ops =
          st.ops ++ [ApiOp.createComp { component with presetID := 0 }] ++
          pops ++
          (if presets = [] then []
           else if defaultPresetName component presets = "" then []
           else
             match findPresetByName
                 (createPresetsFor
                   { st with
                     space := (serverCreateComponent st.space
                       { component with presetID := 0 }).1
                     ops := st.ops ++ [ApiOp.createComp
                       { component with presetID := 0 }] }
                   (serverCreateComponent st.space
                     { component with presetID := 0 }).2.id presets).2
                 (defaultPresetName component presets) with
             | some target =>
               [ApiOp.updateComp (serverCreateComponent st.space
                   { component with presetID := 0 }).2.id
                 { (serverCreateComponent st.space
                     { component with presetID := 0 }).2 with
                   presetID := target.id }]
             | none => [])) ∧
    (∀ old new : MComponent, new.presetID = 0 →
      (applyComponentUpdate old new).presetID = old.presetID) := by
  refine ⟨?_, ?_, ?_⟩
  · intro st existing updated presets targetPresets
    obtain ⟨pops, hall, heq⟩ := syncPresets_ops existing.id presets
      { st with
        space := (serverUpdateComponent st.space existing.id
          { updated with id := existing.id, presetID := 0 }).1
        ops := st.ops ++ [ApiOp.updateComp existing.id
          { updated with id := existing.id, presetID := 0 }] }
      (presetKeyMap targetPresets existing.id)
    refine ⟨pops, hall, ?_⟩
    unfold updateComponentGo
    by_cases hd : defaultPresetName updated presets = ""
    · simp only [hd, ne_eq, not_true_eq_false, if_false, if_true]
      rw [heq]
      simp
    · simp only [hd, ne_eq, not_false_eq_true, if_true, if_false]
      cases hm : (syncPresets
          { st with
            space := (serverUpdateComponent st.space existing.id
              { updated with id := existing.id, presetID := 0 }).1
            ops := st.ops ++ [ApiOp.updateComp existing.id
              { updated with id := existing.id, presetID := 0 }] }
          existing.id (presetKeyMap targetPresets existing.id)
          presets).2 (defaultPresetName updated presets) with
      | some target =>
        by_cases ht : target.id = existing.presetID
        · simp only [hm, ht, ne_eq, not_true_eq_false, if_false, if_true]
          rw [heq]
          simp
        · simp only [hm, ht, ne_eq, not_false_eq_true, if_true, if_false]
          rw [heq]
      | none =>
        simp only [hm]
        rw [heq]
        simp
  · intro st component presets
    by_cases hp : presets = []
    · refine ⟨[], by simp, ?_⟩
      subst hp
      simp [createComponentGo, defaultPresetName]
    · obtain ⟨pops, hall, heq⟩ := createPresetsFor_ops
        (serverCreateComponent st.space { component with presetID := 0 }).2.id
        presets
        { st with
          space := (serverCreateComponent st.space
            { component with presetID := 0 }).1
          ops := st.ops ++ [ApiOp.createComp { component with presetID := 0 }] }
      refine ⟨pops, hall, ?_⟩
      unfold createComponentGo
      by_cases hd : defaultPresetName component presets = ""
      · simp only [hp, hd, ne_eq, not_true_eq_false, if_false, if_true]
        rw [heq]
        simp
      · simp only [hp, hd, ne_eq, not_false_eq_true, if_true, if_false]
        cases hm : findPresetByName
            (createPresetsFor
              { st with
                space := (serverCreateComponent st.space
                  { component with presetID := 0 }).1
                ops := st.ops ++ [ApiOp.createComp
                  { component with presetID := 0 }] }
              (serverCreateComponent st.space
                { component with presetID := 0 }).2.id presets).2
            (defaultPresetName component presets) with
        | some target =>
          simp only [hm]
          rw [heq]
        | none =>
          simp only [hm]
          rw [heq]
          simp
  · intro old new h
    simp [applyComponentUpdate, h]

/-- **C6, witness**: a zero `preset_id` in an update payload leaves the
stored `preset_id` untouched. -/
theorem sync_presetID_protocol_witness :
    (applyComponentUpdate
      (MComponent.mk 1 "hero" "d" [] none "" 5 [] [])
      (MComponent.mk 1 "hero" "" [] none "" 0 [] [])).presetID = 5 :=
  sync_presetID_protocol.2.2
    (MComponent.mk 1 "hero" "d" [] none "" 5 [] [])
    (MComponent.mk 1 "hero" "" [] none "" 0 [] []) (by rfl)

/-! ## Claim C3 — idempotence of the push sync -/

/-! ### List and cache evaluation lemmas -/

theorem find?_eq_of_unique {α : Type} (p : α → Bool) :
    ∀ (l : List α) (x : α), x ∈ l → p x = true →
      (∀ y ∈ l, p y = true → y = x) → l.find? p = some x := by
  intro l
  induction l with
  | nil => intro x hx; cases hx
  | cons a t ih =>
    intro x hx hp huniq
    cases hpa : p a with
    | true =>
      rw [List.find?_cons_of_pos _ hpa]
      exact congrArg some (huniq a (List.mem_cons_self a t) hpa)
    | false =>
      rw [List.find?_cons_of_neg _ (by simp [hpa])]
      rcases List.mem_cons.mp hx with h | h
      · rw [← h] at hpa; rw [hpa] at hp; cases hp
      · exact ih x h hp fun y hy hpy => huniq y (List.mem_cons_of_mem a hy) hpy

theorem find?_map_congr {α : Type} (p : α → Bool) (f : α → α) :
    ∀ (l : List α), (∀ x ∈ l, p (f x) = p x) →
      (∀ x ∈ l, p x = true → f x = x) →
      (l.map f).find? p = l.find? p := by
  intro l
  induction l with
  | nil => intro _ _; rfl
  | cons a t ih =>
    intro hpc hfix
    rw [List.map_cons]
    cases hpa : p a with
    | true =>
      rw [List.find?_cons_of_pos _ (by
            rw [hpc a (List.mem_cons_self a t), hpa]),
          List.find?_cons_of_pos _ hpa,
          hfix a (List.mem_cons_self a t) hpa]
    | false =>
      rw [List.find?_cons_of_neg _ (by
            simp [hpc a (List.mem_cons_self a t), hpa]),
          List.find?_cons_of_neg _ (by simp [hpa])]
      exact ih (fun x hx => hpc x (List.mem_cons_of_mem a hx))
        (fun x hx => hfix x (List.mem_cons_of_mem a hx))

theorem groupCacheSet_eval (c : GroupCache) (name : String) (u : Nat)
    (k : String) (h : name ≠ "") :
    groupCacheSet c name u k = if k = normKey name then some u else c k := by
  simp [groupCacheSet, h]

theorem tagCacheSet_eval (c : TagCache) (name : String) (id : Nat)
    (k : String) (h1 : name ≠ "") (h2 : id ≠ 0) (h3 : strTrim name ≠ "") :
    tagCacheSet c name id k = if k = strTrim name then some id else c k := by
  simp [tagCacheSet, h1, h2, h3]

theorem compCacheSet_eval (c : CompCache) (name : String) (comp : MComponent)
    (k : String) (h : normKey name ≠ "") :
    compCacheSet c name comp k =
      if k = normKey name then some comp else c k := by
  simp [compCacheSet, h]

theorem seedGroupCache_append (gs : List RGroup) (g : RGroup) :
    seedGroupCache (gs ++ [g]) =
      if g.name = "" then seedGroupCache gs
      else groupCacheSet (seedGroupCache gs) g.name g.uuid := by
  by_cases h : g.name = "" <;>
    simp [seedGroupCache, List.foldl_append, h]

theorem seedTagCache_append (ts : List RTag) (t : RTag) :
    seedTagCache (ts ++ [t]) =
      if t.name ≠ "" ∧ t.id ≠ 0 then tagCacheSet (seedTagCache ts) t.name t.id
      else seedTagCache ts := by
  by_cases h1 : t.name = "" <;> by_cases h2 : t.id = 0 <;>
    simp [seedTagCache, List.foldl_append, h1, h2]

theorem seedCompCache_append (cs : List MComponent) (x : MComponent) :
    seedCompCache (cs ++ [x]) = compCacheSet (seedCompCache cs) x.name x := by
  simp [seedCompCache, List.foldl_append]

theorem seedCompCache_eval (k : String) (hk : k ≠ "") :
    ∀ (cs : List MComponent),
      seedCompCache cs k = cs.reverse.find? fun r => normKey r.name == k := by
  intro cs
  induction cs using List.reverseRecOn with
  | nil => simp [seedCompCache]
  | append_singleton t x ih =>
    rw [seedCompCache_append, List.reverse_append]
    simp only [List.reverse_cons, List.reverse_nil, List.nil_append,
      List.singleton_append, List.find?_cons]
    cases hx : normKey x.name == k with
    | true =>
      have hkey : normKey x.name = k := by
        simpa using hx
      rw [compCacheSet_eval _ _ _ _ (hkey ▸ hk)]
      simp [hkey]
    | false =>
      have hkey : ¬ normKey x.name = k := by
        simpa using hx
      by_cases hz : normKey x.name = ""
      · simp [compCacheSet, hz, ih]
      · rw [compCacheSet_eval _ _ _ _ hz]
        have hne : ¬ k = normKey x.name := fun h => hkey h.symm
        simp [hne, ih]

theorem seedGroupCache_eval (k : String) :
    ∀ (gs : List RGroup),
      seedGroupCache gs k =
        (gs.reverse.find? fun g => g.name != "" && (normKey g.name == k)).map
          fun g => g.uuid := by
  intro gs
  induction gs using List.reverseRecOn with
  | nil => simp [seedGroupCache]
  | append_singleton t g ih =>
    rw [seedGroupCache_append, List.reverse_append]
    simp only [List.reverse_cons, List.reverse_nil, List.nil_append,
      List.singleton_append, List.find?_cons]
    by_cases hn : g.name = ""
    · simp [hn, ih]
    · rw [if_neg hn, groupCacheSet_eval _ _ _ _ hn]
      have hnb : (g.name != "") = true := by simpa using hn
      cases hx : normKey g.name == k with
      | true =>
        have hkey : normKey g.name = k := by simpa using hx
        simp [hnb, hkey]
      | false =>
        have hkey : ¬ normKey g.name = k := by simpa using hx
        have hne : ¬ k = normKey g.name := fun h => hkey h.symm
        simp [hnb, hx, hne, ih]

theorem seedTagCache_eval (k : String) (hk : k ≠ "") :
    ∀ (ts : List RTag),
      seedTagCache ts k =
        (ts.reverse.find? fun t =>
          t.name != "" && t.id != 0 && (strTrim t.name == k)).map
          fun t => t.id := by
  intro ts
  induction ts using List.reverseRecOn with
  | nil => simp [seedTagCache]
  | append_singleton l t ih =>
    rw [seedTagCache_append, List.reverse_append]
    simp only [List.reverse_cons, List.reverse_nil, List.nil_append,
      List.singleton_append, List.find?_cons]
    by_cases hn : t.name = ""
    · simp [hn, ih]
    · by_cases hz : t.id = 0
      · simp [hn, hz, ih]
      · rw [if_pos ⟨hn, hz⟩]
        have hnb : (t.name != "") = true := by simpa using hn
        have hzb : (t.id != 0) = true := by simpa using hz
        by_cases htr : strTrim t.name = ""
        · have hek : ("" == k) = false := by
            simp
            exact fun h => hk h.symm
          simp [tagCacheSet, hn, hz, htr, hnb, hzb, hek, ih]
        · rw [tagCacheSet_eval _ _ _ _ hn hz htr]
          cases hx : strTrim t.name == k with
          | true =>
            have hkey : strTrim t.name = k := by simpa using hx
            simp [hnb, hzb, hkey]
          | false =>
            have hkey : ¬ strTrim t.name = k := by simpa using hx
            have hne : ¬ k = strTrim t.name := fun h => hkey h.symm
            simp [hnb, hzb, hx, hne, ih]

theorem presetKeyMap_eval (l : List MPreset) (cid : Nat) (k : String) :
    presetKeyMap l cid k =
      l.reverse.find? fun q =>
        q.componentID == cid && (strToLower q.name == k) := by
  induction l using List.reverseRecOn with
  | nil => simp [presetKeyMap]
  | append_singleton t q ih =>
    have hstep : presetKeyMap (t ++ [q]) cid =
        if q.componentID = cid then
          fun k => if k = strToLower q.name then some q
            else presetKeyMap t cid k
        else presetKeyMap t cid := by
      simp [presetKeyMap, List.foldl_append]
    rw [hstep, List.reverse_append]
    simp only [List.reverse_cons, List.reverse_nil, List.nil_append,
      List.singleton_append, List.find?_cons]
    by_cases hc : q.componentID = cid
    · cases hx : strToLower q.name == k with
      | true =>
        have hkey : strToLower q.name = k := by simpa using hx
        simp [hc, hkey]
      | false =>
        have hkey : ¬ strToLower q.name = k := by simpa using hx
        have hne : ¬ k = strToLower q.name := fun h => hkey h.symm
        simp [hc, hx, hne, ih]
    · have : (q.componentID == cid) = false := by simpa using hc
      simp [hc, this, ih]

theorem presetKeyMap_some (l : List MPreset) (cid : Nat) (k : String)
    (ep : MPreset) (h : presetKeyMap l cid k = some ep) :
    ep ∈ l ∧ ep.componentID = cid ∧ strToLower ep.name = k := by
  rw [presetKeyMap_eval] at h
  have hmem := List.mem_of_find?_eq_some h
  have hp := List.find?_some h
  simp only [Bool.and_eq_true, beq_iff_eq] at hp
  exact ⟨List.mem_reverse.mp hmem, hp.1, hp.2⟩

theorem presetKeyMap_none (l : List MPreset) (cid : Nat) (k : String)
    (h : presetKeyMap l cid k = none) :
    ∀ q ∈ l, ¬(q.componentID = cid ∧ strToLower q.name = k) := by
  rw [presetKeyMap_eval] at h
  intro q hq hcon
  have := List.find?_eq_none.mp h q (List.mem_reverse.mpr hq)
  simp [hcon.1, hcon.2] at this

theorem presetKeyMap_append (l : List MPreset) (q : MPreset) (cid : Nat)
    (k : String) :
    presetKeyMap (l ++ [q]) cid k =
      if q.componentID = cid ∧ strToLower q.name = k then some q
      else presetKeyMap l cid k := by
  rw [presetKeyMap_eval, presetKeyMap_eval, List.reverse_append]
  simp only [List.reverse_cons, List.reverse_nil, List.nil_append,
    List.singleton_append, List.find?_cons]
  by_cases h1 : q.componentID = cid
  · by_cases h2 : strToLower q.name = k
    · simp [h1, h2]
    · have hb : (strToLower q.name == k) = false := by simpa using h2
      simp [h1, h2, hb]
  · have hb : (q.componentID == cid) = false := by simpa using h1
    simp [h1, hb]

theorem char_toLower_idem (c : Char) :
    Char.toLower (Char.toLower c) = Char.toLower c := by
  unfold Char.toLower
  by_cases h : c.toNat ≥ 65 ∧ c.toNat ≤ 90
  · rw [if_pos h]
    have hv : (c.toNat + 32).isValidChar := by
      left
      omega
    have ht : (Char.ofNat (c.toNat + 32)).toNat = c.toNat + 32 := by
      rw [Char.ofNat, dif_pos hv]
      rfl
    rw [if_neg]
    rw [ht]
    omega
  · rw [if_neg h, if_neg h]

theorem strToLower_idem (s : String) :
    strToLower (strToLower s) = strToLower s := by
  unfold strToLower
  simp [List.map_map, Function.comp_def, char_toLower_idem]

theorem dropWhile_idem {α : Type} (p : α → Bool) :
    ∀ l : List α, (l.dropWhile p).dropWhile p = l.dropWhile p := by
  intro l
  induction l with
  | nil => rfl
  | cons a t ih =>
    rw [List.dropWhile_cons]
    by_cases h : p a
    · rw [if_pos h]; exact ih
    · rw [if_neg h, List.dropWhile_cons, if_neg h]

theorem dropWhile_head?_false {α : Type} (p : α → Bool) :
    ∀ (l : List α) (a : α), (l.dropWhile p).head? = some a → p a = false := by
  intro l
  induction l with
  | nil => intro a h; cases h
  | cons b t ih =>
    intro a h
    rw [List.dropWhile_cons] at h
    by_cases hb : p b
    · rw [if_pos hb] at h; exact ih a h
    · rw [if_neg hb] at h
      obtain rfl : b = a := by simpa using h
      exact eq_false_of_ne_true hb

theorem dropWhile_eq_self {α : Type} (p : α → Bool) (l : List α)
    (h : ∀ a, l.head? = some a → p a = false) : l.dropWhile p = l := by
  cases l with
  | nil => rfl
  | cons a t =>
    rw [List.dropWhile_cons, if_neg]
    simp [h a rfl]

theorem getLast?_dropWhile {α : Type} (p : α → Bool) :
    ∀ l : List α, l.dropWhile p ≠ [] →
      (l.dropWhile p).getLast? = l.getLast? := by
  intro l
  induction l with
  | nil => intro h; exact absurd rfl h
  | cons a t ih =>
    intro hne
    rw [List.dropWhile_cons] at hne ⊢
    by_cases h : p a
    · rw [if_pos h] at hne ⊢
      rw [ih hne]
      have ht : t ≠ [] := by
        intro he
        rw [he] at hne
        exact hne rfl
      cases t with
      | nil => exact absurd rfl ht
      | cons b t2 => rw [List.getLast?_cons_cons]
    · rw [if_neg h]

theorem strTrim_idem (s : String) : strTrim (strTrim s) = strTrim s := by
  unfold strTrim
  apply congrArg String.mk
  generalize s.data = l
  set ws := Char.isWhitespace with hws
  set A := l.dropWhile ws with hA
  set B := A.reverse.dropWhile ws with hB
  show ((((String.mk B.reverse).data.dropWhile ws).reverse.dropWhile
      ws).reverse) = B.reverse
  have hdata : (String.mk B.reverse).data = B.reverse := rfl
  rw [hdata]
  have claim1 : B.reverse.dropWhile ws = B.reverse := by
    apply dropWhile_eq_self
    intro a ha
    rw [List.head?_reverse] at ha
    by_cases hBne : B = []
    · rw [hBne] at ha; cases ha
    · rw [hB, getLast?_dropWhile ws A.reverse (hB ▸ hBne),
        List.getLast?_reverse] at ha
      exact dropWhile_head?_false ws l a (hA ▸ ha)
  rw [claim1, List.reverse_reverse, hB, dropWhile_idem]

theorem mapWhitelist_congr (lookup lookup2 : String → Option String) :
    ∀ (wl : List WLEntry) (acc : List WLEntry),
      (∀ s, WLEntry.str s ∈ wl → s ≠ "" → lookup2 s = lookup s) →
      wl.foldl
        (fun mapped item =>
          match item with
          | .nonstr _ => mapped
          | .str s =>
            if s = "" then mapped
            else
              match lookup2 s with
              | some uuid => mapped ++ [.str uuid]
              | none => mapped ++ [.str s]) acc =
      wl.foldl
        (fun mapped item =>
          match item with
          | .nonstr _ => mapped
          | .str s =>
            if s = "" then mapped
            else
              match lookup s with
              | some uuid => mapped ++ [.str uuid]
              | none => mapped ++ [.str s]) acc := by
  intro wl
  induction wl with
  | nil => intro acc _; rfl
  | cons item rest ih =>
    intro acc hyp
    have hrest : ∀ s, WLEntry.str s ∈ rest → s ≠ "" → lookup2 s = lookup s :=
      fun s hs => hyp s (List.mem_cons_of_mem _ hs)
    cases item with
    | nonstr tag => simp only [List.foldl_cons]; exact ih acc hrest
    | str s =>
      by_cases hs : s = ""
      · simp only [List.foldl_cons, hs, if_pos rfl]
        exact ih acc hrest
      · have heq : lookup2 s = lookup s :=
          hyp s (List.mem_cons_self _ _) hs
        simp only [List.foldl_cons, if_neg hs, heq]
        exact ih _ hrest

theorem mapWhitelist_congr_main (lookup lookup2 : String → Option String)
    (wl : List WLEntry)
    (hyp : ∀ s, WLEntry.str s ∈ wl → s ≠ "" → lookup2 s = lookup s) :
    mapWhitelist lookup2 wl = mapWhitelist lookup wl :=
  mapWhitelist_congr lookup lookup2 wl [] hyp

theorem rewriteSchema_congr (lookup lookup2 : String → Option String)
    (sch : Schema)
    (hyp : ∀ kv ∈ schemaList sch, ∀ s, WLEntry.str s ∈ wlEntriesOf kv.2 →
      s ≠ "" → lookup2 s = lookup s) :
    rewriteSchema lookup2 sch = rewriteSchema lookup sch := by
  unfold rewriteSchema
  apply List.map_congr_left
  intro kv hkv
  have hkv2 : kv ∈ schemaList sch := hkv
  cases kv with
  | mk k fv =>
    cases fv with
    | withWhitelist wl rest =>
      have : mapWhitelist lookup2 wl = mapWhitelist lookup wl :=
        mapWhitelist_congr_main lookup lookup2 wl
          (fun s hs => hyp (k, .withWhitelist wl rest) hkv2 s (by
            simpa [wlEntriesOf] using hs))
      simp [this]
    | plain t => rfl

theorem resolveTagIDs_congr (t t2 : TagCache) :
    ∀ (names : List String),
      (∀ n ∈ names, strTrim n ≠ "" → t2 (strTrim n) = t (strTrim n)) →
      resolveTagIDs t2 names = resolveTagIDs t names := by
  intro names
  induction names with
  | nil => intro _; rfl
  | cons n rest ih =>
    intro hyp
    have hrest : ∀ m ∈ rest, strTrim m ≠ "" → t2 (strTrim m) = t (strTrim m) :=
      fun m hm => hyp m (List.mem_cons_of_mem _ hm)
    by_cases hn : strTrim n = ""
    · simp only [resolveTagIDs, hn, if_pos rfl]
      exact ih hrest
    · have heq : t2 (strTrim n) = t (strTrim n) :=
        hyp n (List.mem_cons_self _ _) hn
      simp only [resolveTagIDs, if_neg hn, heq]
      rw [ih hrest]

theorem resolvedPayload_congr (g g2 : GroupCache) (t t2 : TagCache)
    (c : MComponent)
    (hg : c.groupName ≠ "" → g2 (normKey c.groupName) = g (normKey c.groupName))
    (hwl : ∀ kv ∈ schemaList c.schema, ∀ s,
      WLEntry.str s ∈ wlEntriesOf kv.2 → s ≠ "" →
      g2 (normKey s) = g (normKey s))
    (ht : ∀ n ∈ c.tagsList, strTrim n ≠ "" →
      t2 (strTrim n) = t (strTrim n)) :
    resolvedPayload g2 t2 c = resolvedPayload g t c := by
  unfold resolvedPayload
  have hsch : rewriteSchema (fun s => (g2 (normKey s)).map uuidStr) c.schema =
      rewriteSchema (fun s => (g (normKey s)).map uuidStr) c.schema :=
    rewriteSchema_congr _ _ _ (fun kv hkv s hs hne => by
      rw [hwl kv hkv s hs hne])
  have htag : resolveTagIDs t2 c.tagsList = resolveTagIDs t c.tagsList :=
    resolveTagIDs_congr t t2 c.tagsList ht
  rw [hsch, htag]
  by_cases hgn : c.groupName = ""
  · simp [hgn]
  · simp [hgn, hg hgn]

theorem applyComponentUpdate_absorb (x u : MComponent) :
    applyComponentUpdate (applyComponentUpdate x u) u =
      applyComponentUpdate x u := by
  unfold applyComponentUpdate
  by_cases h1 : u.displayName = "" <;>
    by_cases h2 : u.groupName = "" <;>
    by_cases h3 : u.presetID = 0 <;>
    by_cases h4 : u.tagsList = [] <;>
    by_cases h5 : u.tagIDs = [] <;>
    cases h6 : u.groupUUID <;>
    simp [h1, h2, h3, h4, h5, h6]

theorem applyComponentUpdate_shift (w v : MComponent) (t : Nat)
    (hv : v.presetID = 0) :
    applyComponentUpdate { w with presetID := t } v =
      { applyComponentUpdate w v with presetID := t } := by
  unfold applyComponentUpdate
  by_cases h1 : v.displayName = "" <;>
    by_cases h2 : v.groupName = "" <;>
    by_cases h4 : v.tagsList = [] <;>
    by_cases h5 : v.tagIDs = [] <;>
    cases h6 : v.groupUUID <;>
    simp [h1, h2, hv, h4, h5, h6]

theorem applyComponentUpdate_create (u : MComponent) (f i t : Nat)
    (hgn : u.groupName = "") :
    applyComponentUpdate { u with id := f, presetID := t }
      { u with id := i, presetID := 0 } =
      { u with id := f, presetID := t } := by
  unfold applyComponentUpdate
  by_cases h1 : u.displayName = "" <;>
    by_cases h4 : u.tagsList = [] <;>
    by_cases h5 : u.tagIDs = [] <;>
    cases h6 : u.groupUUID <;>
    simp [h1, hgn, h4, h5, h6]

theorem applyPresetUpdate_absorb (x u : MPreset) :
    applyPresetUpdate (applyPresetUpdate x u) u = applyPresetUpdate x u := by
  unfold applyPresetUpdate
  by_cases h1 : u.componentID = 0 <;>
    cases h2 : u.image <;>
    simp [h1, h2]

theorem applyPresetUpdate_create (v : MPreset) (f g : Nat) :
    applyPresetUpdate { v with id := f } { v with id := g } =
      { v with id := f } := by
  unfold applyPresetUpdate
  by_cases h1 : v.componentID = 0 <;>
    cases h2 : v.image <;>
    simp [h1, h2]

theorem map_eq_self_of_fix {α : Type} (l : List α) (f : α → α)
    (h : ∀ x ∈ l, f x = x) : l.map f = l := by
  have : l.map f = l.map id := List.map_congr_left h
  rw [this, List.map_id]

theorem serverUpdateComponent_noop (s : Space) (r u : MComponent)
    (hmem : r ∈ s.comps)
    (huniq : ∀ x ∈ s.comps, x.id = r.id → x = r)
    (happ : applyComponentUpdate r u = r) :
    serverUpdateComponent s r.id u = (s, r) := by
  unfold serverUpdateComponent
  have hfind : (s.comps.find? fun x => x.id == r.id) = some r := by
    apply find?_eq_of_unique _ _ r hmem (by simp)
    intro y hy hp
    exact huniq y hy (by simpa using hp)
  have hmap : (s.comps.map fun x =>
      if x.id = r.id then applyComponentUpdate x u else x) = s.comps := by
    apply map_eq_self_of_fix
    intro x hx
    by_cases hid : x.id = r.id
    · rw [if_pos hid, huniq x hx hid, happ]
    · rw [if_neg hid]
  rw [hfind, hmap]
  simp only [happ]

theorem serverUpdatePreset_noop (s : Space) (ep p : MPreset)
    (hmem : ep ∈ s.presets)
    (huniq : ∀ q ∈ s.presets, q.id = ep.id → q = ep)
    (hid : p.id = ep.id)
    (happ : applyPresetUpdate ep p = ep) :
    serverUpdatePreset s p = (s, ep) := by
  unfold serverUpdatePreset
  rw [hid]
  have hfind : (s.presets.find? fun q => q.id == ep.id) = some ep := by
    apply find?_eq_of_unique _ _ ep hmem (by simp)
    intro y hy hp
    exact huniq y hy (by simpa using hp)
  have hmap : (s.presets.map fun q =>
      if q.id = ep.id then applyPresetUpdate q p else q) = s.presets := by
    apply map_eq_self_of_fix
    intro q hq
    by_cases hq2 : q.id = ep.id
    · rw [if_pos hq2, huniq q hq hq2, happ]
    · rw [if_neg hq2]
  rw [hfind, hmap]
  simp only [happ]

theorem comp_uniq_of_nodup (l : List MComponent)
    (hnd : (l.map fun x => x.id).Nodup) (r : MComponent) (hr : r ∈ l) :
    ∀ x ∈ l, x.id = r.id → x = r := by
  intro x hx heq
  exact List.inj_on_of_nodup_map hnd hx hr heq

theorem preset_uniq_of_nodup (l : List MPreset)
    (hnd : (l.map fun p => p.id).Nodup) (ep : MPreset) (hp : ep ∈ l) :
    ∀ q ∈ l, q.id = ep.id → q = ep := by
  intro q hq heq
  exact List.inj_on_of_nodup_map hnd hq hp heq

theorem find?_map_pointwise {α : Type} (p : α → Bool) (f : α → α) :
    ∀ l : List α, (∀ x ∈ l, p (f x) = p x) →
      (l.map f).find? p = (l.find? p).map f := by
  intro l
  induction l with
  | nil => intro _; rfl
  | cons a t ih =>
    intro hpc
    rw [List.map_cons]
    cases hpa : p a with
    | true =>
      rw [List.find?_cons_of_pos _ (by rw [hpc a (List.mem_cons_self a t), hpa]),
        List.find?_cons_of_pos _ hpa]
      rfl
    | false =>
      rw [List.find?_cons_of_neg _ (by
            simp [hpc a (List.mem_cons_self a t), hpa]),
        List.find?_cons_of_neg _ (by simp [hpa])]
      exact ih fun x hx => hpc x (List.mem_cons_of_mem a hx)

theorem syncPresets_m_frame (cid : Nat) :
    ∀ (cps : List MPreset) (st : SyncState) (m : String → Option MPreset)
      (k : String),
      k ∉ cps.map (fun p => strToLower p.name) →
      (syncPresets st cid m cps).2 k = m k := by
  intro cps
  induction cps with
  | nil => intro st m k _; rfl
  | cons p rest ih =>
    intro st m k hk
    rw [List.map_cons, List.mem_cons] at hk
    push_neg at hk
    cases hm : m (strToLower p.name) with
    | some ep =>
      rcases hsp : serverUpdatePreset st.space
          { p with componentID := cid, id := ep.id } with ⟨sp2, up⟩
      have heq : syncPresets st cid m (p :: rest) =
          syncPresets
            { st with
              space := sp2
              ops := st.ops ++
                [ApiOp.updatePreset { p with componentID := cid, id := ep.id }] }
            cid
            (fun k2 => if k2 = strToLower p.name then some up else m k2)
            rest := by
        simp [syncPresets, hm, hsp]
      rw [heq, ih _ _ k hk.2]
      rw [if_neg hk.1]
    | none =>
      rcases hsp : serverCreatePreset st.space
          { p with componentID := cid, id := 0 } with ⟨sp2, cp⟩
      have heq : syncPresets st cid m (p :: rest) =
          syncPresets
            { st with
              space := sp2
              ops := st.ops ++
                [ApiOp.createPreset { p with componentID := cid, id := 0 }] }
            cid
            (fun k2 => if k2 = strToLower p.name then some cp else m k2)
            rest := by
        simp [syncPresets, hm, hsp]
      rw [heq, ih _ _ k hk.2]
      rw [if_neg hk.1]

theorem presetKeyMap_map (l : List MPreset) (f : MPreset → MPreset)
    (cid : Nat) (k : String)
    (hiff : ∀ x ∈ l, ((f x).componentID = cid ∧ strToLower (f x).name = k) ↔
      (x.componentID = cid ∧ strToLower x.name = k))
    (hfix : ∀ x ∈ l, x.componentID = cid ∧ strToLower x.name = k → f x = x) :
    presetKeyMap (l.map f) cid k = presetKeyMap l cid k := by
  rw [presetKeyMap_eval, presetKeyMap_eval, ← List.map_reverse]
  apply find?_map_congr
  · intro x hx
    have hx2 := List.mem_reverse.mp hx
    by_cases h : x.componentID = cid ∧ strToLower x.name = k
    · simp [h.1, h.2, ((hiff x hx2).mpr h).1, ((hiff x hx2).mpr h).2]
    · have h2 : ¬((f x).componentID = cid ∧ strToLower (f x).name = k) :=
        fun hc => h ((hiff x hx2).mp hc)
      cases hb : (x.componentID == cid && (strToLower x.name == k)) with
      | true => simp only [Bool.and_eq_true, beq_iff_eq] at hb; exact absurd hb h
      | false =>
        cases hb2 : ((f x).componentID == cid && (strToLower (f x).name == k)) with
        | true => simp only [Bool.and_eq_true, beq_iff_eq] at hb2; exact absurd hb2 h2
        | false => rfl
  · intro x hx hb
    simp only [Bool.and_eq_true, beq_iff_eq] at hb
    exact hfix x (List.mem_reverse.mp hx) hb

theorem syncPresets_spec (cid : Nat) :
    ∀ (cps : List MPreset) (st : SyncState) (m : String → Option MPreset),
      (∀ k, m k = presetKeyMap st.space.presets cid k) →
      (∀ q ∈ st.space.presets,
        1 ≤ q.id ∧ q.id < st.space.fresh ∧ q.componentID < st.space.fresh) →
      ((st.space.presets.map fun q => q.id).Nodup) →
      ((st.space.presets.map fun q =>
        (q.componentID, strToLower q.name)).Nodup) →
      ((cps.map fun p => strToLower p.name).Nodup) →
      cid < st.space.fresh →
      1 ≤ st.space.fresh →
      (syncPresets st cid m cps).1.space.comps = st.space.comps ∧
      (syncPresets st cid m cps).1.space.groups = st.space.groups ∧
      (syncPresets st cid m cps).1.space.tags = st.space.tags ∧
      (syncPresets st cid m cps).1.groups = st.groups ∧
      (syncPresets st cid m cps).1.tags = st.tags ∧
      (syncPresets st cid m cps).1.comps = st.comps ∧
      st.space.fresh ≤ (syncPresets st cid m cps).1.space.fresh ∧
      (∀ k, (syncPresets st cid m cps).2 k =
        presetKeyMap (syncPresets st cid m cps).1.space.presets cid k) ∧
      (∀ p ∈ cps, ∃ ep, (syncPresets st cid m cps).2 (strToLower p.name) =
        some ep ∧ ep ∈ (syncPresets st cid m cps).1.space.presets ∧
        applyPresetUpdate ep { p with componentID := cid, id := ep.id } = ep) ∧
      (∀ cid2, cid2 ≠ cid → ∀ k,
        presetKeyMap (syncPresets st cid m cps).1.space.presets cid2 k =
        presetKeyMap st.space.presets cid2 k) ∧
      (∀ q ∈ st.space.presets, (q.componentID ≠ cid ∨
          strToLower q.name ∉ cps.map fun x => strToLower x.name) →
        q ∈ (syncPresets st cid m cps).1.space.presets) ∧
      (∀ q ∈ (syncPresets st cid m cps).1.space.presets,
        1 ≤ q.id ∧ q.id < (syncPresets st cid m cps).1.space.fresh ∧
        q.componentID < (syncPresets st cid m cps).1.space.fresh) ∧
      (((syncPresets st cid m cps).1.space.presets.map fun q => q.id).Nodup) ∧
      (((syncPresets st cid m cps).1.space.presets.map fun q =>
        (q.componentID, strToLower q.name)).Nodup) := by
  intro cps
  induction cps with
  | nil =>
    intro st m hm hwfP hnd hpk hcps hcid hfresh
    exact ⟨rfl, rfl, rfl, rfl, rfl, rfl, le_refl _, hm,
      fun p hp => absurd hp (List.not_mem_nil p),
      fun _ _ _ => rfl, fun q hq _ => hq, hwfP, hnd, hpk⟩
  | cons p rest ih =>
    intro st m hm hwfP hnd hpk hcps hcid hfresh
    obtain ⟨⟨sc, sg, spr, stg, sf⟩, cg, ct, cc, ops⟩ := st
    simp only at hm hwfP hnd hpk hcid hfresh ⊢
    rw [List.map_cons, List.nodup_cons] at hcps
    obtain ⟨hcps_head, hcps_rest⟩ := hcps
    cases hmk : m (strToLower p.name) with
    | some ep =>
      obtain ⟨hepmem, hepcid, hepkey⟩ :=
        presetKeyMap_some spr cid (strToLower p.name) ep
          (by rw [← hm]; exact hmk)
      have hepuniq : ∀ q ∈ spr, q.id = ep.id → q = ep :=
        preset_uniq_of_nodup spr hnd ep hepmem
      have hsrv : serverUpdatePreset (Space.mk sc sg spr stg sf)
          { p with componentID := cid, id := ep.id } =
          (Space.mk sc sg
            (spr.map fun q => if q.id = ep.id then
              applyPresetUpdate q { p with componentID := cid, id := ep.id }
              else q) stg sf,
           applyPresetUpdate ep { p with componentID := cid, id := ep.id }) := by
        unfold serverUpdatePreset
        have hfind : (spr.find? fun q =>
            q.id == ({ p with componentID := cid, id := ep.id } : MPreset).id) =
            some ep := by
          apply find?_eq_of_unique _ _ ep hepmem (by simp)
          intro y hy hp2
          exact hepuniq y hy (by simpa using hp2)
        rw [hfind]
      have hupid : (applyPresetUpdate ep
          { p with componentID := cid, id := ep.id }).id = ep.id := by
        simp [applyPresetUpdate]
      have hupcid : (applyPresetUpdate ep
          { p with componentID := cid, id := ep.id }).componentID = cid := by
        by_cases h0 : cid = 0 <;> simp [applyPresetUpdate, h0, hepcid]
      have hupkey : strToLower (applyPresetUpdate ep
          { p with componentID := cid, id := ep.id }).name =
          strToLower p.name := by
        simp [applyPresetUpdate]
      have hids2 : ((spr.map fun q => if q.id = ep.id then
          applyPresetUpdate q { p with componentID := cid, id := ep.id }
          else q).map fun q => q.id) = spr.map fun q => q.id := by
        rw [List.map_map]
        apply List.map_congr_left
        intro q hq
        by_cases hqid : q.id = ep.id
        · simp only [Function.comp_apply, if_pos hqid]
          rw [hepuniq q hq hqid]
          simp [applyPresetUpdate]
        · simp [Function.comp_apply, hqid]
      have hpairs2 : ((spr.map fun q => if q.id = ep.id then
          applyPresetUpdate q { p with componentID := cid, id := ep.id }
          else q).map fun q => (q.componentID, strToLower q.name)) =
          spr.map fun q => (q.componentID, strToLower q.name) := by
        rw [List.map_map]
        apply List.map_congr_left
        intro q hq
        by_cases hqid : q.id = ep.id
        · simp only [Function.comp_apply, if_pos hqid]
          rw [hepuniq q hq hqid]
          rw [Prod.mk.injEq]
          exact ⟨hupcid.trans hepcid.symm, hupkey.trans hepkey.symm⟩
        · simp [Function.comp_apply, hqid]
      have hbounds2 : ∀ q ∈ (spr.map fun q => if q.id = ep.id then
          applyPresetUpdate q { p with componentID := cid, id := ep.id }
          else q), 1 ≤ q.id ∧ q.id < sf ∧ q.componentID < sf := by
        intro q2 hq2
        rcases List.mem_map.mp hq2 with ⟨q, hq, hfq⟩
        by_cases hqid : q.id = ep.id
        · rw [if_pos hqid, hepuniq q hq hqid] at hfq
          rw [← hfq]
          refine ⟨?_, ?_, ?_⟩
          · rw [hupid]; exact (hwfP ep hepmem).1
          · rw [hupid]; exact (hwfP ep hepmem).2.1
          · rw [hupcid]; exact hcid
        · rw [if_neg hqid] at hfq
          rw [← hfq]
          exact hwfP q hq
      have hm1 : ∀ k, (if k = strToLower p.name then
          some (applyPresetUpdate ep { p with componentID := cid, id := ep.id })
          else m k) =
          presetKeyMap (spr.map fun q => if q.id = ep.id then
            applyPresetUpdate q { p with componentID := cid, id := ep.id }
            else q) cid k := by
        intro k
        by_cases hk : k = strToLower p.name
        · rw [if_pos hk, presetKeyMap_eval, ← List.map_reverse]
          rw [find?_map_pointwise _ _ spr.reverse (by
            intro x hx
            by_cases hxid : x.id = ep.id
            · rw [if_pos hxid, hepuniq x (List.mem_reverse.mp hx) hxid]
              simp [hupcid, hupkey, hepcid, hepkey, hk]
            · rw [if_neg hxid])]
          have hfound : (spr.reverse.find? fun q =>
              q.componentID == cid && (strToLower q.name == k)) = some ep := by
            rw [← presetKeyMap_eval, ← hm, hk]
            exact hmk
          rw [hfound]
          simp
        · rw [if_neg hk, hm]
          rw [presetKeyMap_map]
          · intro x hx
            by_cases hxid : x.id = ep.id
            · rw [if_pos hxid, hepuniq x hx hxid]
              constructor
              · intro hcon
                rw [hupkey] at hcon
                exact absurd hcon.2.symm hk
              · intro hcon
                rw [hepkey] at hcon
                exact absurd hcon.2.symm hk
            · rw [if_neg hxid]
          · intro x hx hcon
            by_cases hxid : x.id = ep.id
            · exfalso
              rw [hepuniq x hx hxid] at hcon
              rw [hepkey] at hcon
              exact hk hcon.2.symm
            · rw [if_neg hxid]
      rcases he : syncPresets
          (SyncState.mk
            (Space.mk sc sg
              (spr.map fun q => if q.id = ep.id then
                applyPresetUpdate q { p with componentID := cid, id := ep.id }
                else q) stg sf)
            cg ct cc
            (ops ++ [ApiOp.updatePreset
              { p with componentID := cid, id := ep.id }]))
          cid
          (fun k => if k = strToLower p.name then
            some (applyPresetUpdate ep
              { p with componentID := cid, id := ep.id })
            else m k)
          rest with ⟨st2, m2⟩
      obtain ⟨c1, c2, c3, c4, c5, c6, c7, c8, c9, c10, c11, c12, c13, c14⟩ :=
        ih (SyncState.mk
            (Space.mk sc sg
              (spr.map fun q => if q.id = ep.id then
                applyPresetUpdate q { p with componentID := cid, id := ep.id }
                else q) stg sf)
            cg ct cc
            (ops ++ [ApiOp.updatePreset
              { p with componentID := cid, id := ep.id }]))
          (fun k => if k = strToLower p.name then
            some (applyPresetUpdate ep
              { p with componentID := cid, id := ep.id })
            else m k)
          hm1 hbounds2 (by rw [hids2]; exact hnd) (by rw [hpairs2]; exact hpk)
          hcps_rest hcid hfresh
      rw [he] at c1 c2 c3 c4 c5 c6 c7 c8 c9 c10 c11 c12 c13 c14
      simp only at c1 c2 c3 c4 c5 c6 c7 c8 c9 c10 c11 c12 c13 c14
      have hstep : syncPresets
          (SyncState.mk (Space.mk sc sg spr stg sf) cg ct cc ops) cid m
          (p :: rest) = (st2, m2) := by
        simp only [syncPresets, hmk, hsrv, he]
      rw [hstep]
      simp only
      have hupframe : m2 (strToLower p.name) =
          some (applyPresetUpdate ep
            { p with componentID := cid, id := ep.id }) := by
        have := syncPresets_m_frame cid rest
          (SyncState.mk
            (Space.mk sc sg
              (spr.map fun q => if q.id = ep.id then
                applyPresetUpdate q { p with componentID := cid, id := ep.id }
                else q) stg sf)
            cg ct cc
            (ops ++ [ApiOp.updatePreset
              { p with componentID := cid, id := ep.id }]))
          (fun k => if k = strToLower p.name then
            some (applyPresetUpdate ep
              { p with componentID := cid, id := ep.id })
            else m k)
          (strToLower p.name) hcps_head
        rw [he] at this
        simp only at this
        rw [this]
        simp
      refine ⟨c1, c2, c3, c4, c5, c6, c7, c8, ?_, ?_, ?_, c12, c13, c14⟩
      · intro p2 hp2
        rcases List.mem_cons.mp hp2 with hp2 | hp2
        · subst hp2
          refine ⟨applyPresetUpdate ep
            { p2 with componentID := cid, id := ep.id }, hupframe, ?_, ?_⟩
          · apply c11
            · rw [List.mem_map]
              exact ⟨ep, hepmem, by rw [if_pos rfl]⟩
            · right
              rw [hupkey]
              exact hcps_head
          · have hpay : ({ p2 with
                componentID := cid
                id := (applyPresetUpdate ep
                  { p2 with componentID := cid, id := ep.id }).id } :
                MPreset) =
                { p2 with componentID := cid, id := ep.id } := by
              rw [hupid]
            rw [hpay]
            exact applyPresetUpdate_absorb ep _
        · rcases c9 p2 hp2 with ⟨ep2, h1, h2, h3⟩
          exact ⟨ep2, h1, h2, h3⟩
      · intro cid2 hcid2 k
        rw [c10 cid2 hcid2 k]
        rw [presetKeyMap_map]
        · intro x hx
          by_cases hxid : x.id = ep.id
          · rw [if_pos hxid, hepuniq x hx hxid]
            rw [Prod.mk.injEq] at *
            constructor
            · intro hcon
              rw [hupcid] at hcon
              exact absurd hcon.1.symm hcid2
            · intro hcon
              rw [hepcid] at hcon
              exact absurd hcon.1.symm hcid2
          · rw [if_neg hxid]
        · intro x hx hcon
          by_cases hxid : x.id = ep.id
          · exfalso
            rw [hepuniq x hx hxid, hepcid] at hcon
            exact hcid2 hcon.1.symm
          · rw [if_neg hxid]
      · intro q hq hcond
        have hqid : q.id ≠ ep.id := by
          intro hqep
          rw [hepuniq q hq hqep] at hcond
          rcases hcond with hcond | hcond
          · exact hcond hepcid
          · rw [hepkey] at hcond
            exact hcond (List.mem_cons_self _ _)
        apply c11
        · rw [List.mem_map]
          exact ⟨q, hq, by rw [if_neg hqid]⟩
        · rcases hcond with hcond | hcond
          · exact Or.inl hcond
          · right
            intro hmem
            exact hcond (List.mem_cons_of_mem _ hmem)
    | none =>
      have hnone : presetKeyMap spr cid (strToLower p.name) = none := by
        rw [← hm]; exact hmk
      have hnomatch := presetKeyMap_none spr cid (strToLower p.name) hnone
      have hsrv : serverCreatePreset (Space.mk sc sg spr stg sf)
          { p with componentID := cid, id := 0 } =
          (Space.mk sc sg
            (spr ++ [{ p with componentID := cid, id := sf }]) stg (sf + 1),
           { p with componentID := cid, id := sf }) := by
        unfold serverCreatePreset
        rfl
      have hm1 : ∀ k, (if k = strToLower p.name then
          some ({ p with componentID := cid, id := sf } : MPreset)
          else m k) =
          presetKeyMap (spr ++ [{ p with componentID := cid, id := sf }])
            cid k := by
        intro k
        rw [presetKeyMap_append]
        by_cases hk : k = strToLower p.name
        · rw [if_pos hk, if_pos (by exact ⟨rfl, hk.symm⟩)]
        · rw [if_neg hk, if_neg (by
            intro hcon
            exact hk hcon.2.symm), hm]
      have hbounds2 : ∀ q ∈ spr ++ [({ p with componentID := cid, id := sf } :
          MPreset)], 1 ≤ q.id ∧ q.id < sf + 1 ∧ q.componentID < sf + 1 := by
        intro q hq
        rcases List.mem_append.mp hq with hq | hq
        · obtain ⟨b1, b2, b3⟩ := hwfP q hq
          exact ⟨b1, by omega, by omega⟩
        · rcases List.mem_singleton.mp hq with rfl
          refine ⟨?_, ?_, ?_⟩
          · show 1 ≤ sf; omega
          · show sf < sf + 1; omega
          · show cid < sf + 1; omega
      have hids2 : ((spr ++ [({ p with componentID := cid, id := sf } :
          MPreset)]).map fun q => q.id).Nodup := by
        rw [List.map_append, List.map_singleton]
        rw [List.nodup_append]
        refine ⟨hnd, List.nodup_singleton _, ?_⟩
        intro a ha hb
        rcases List.mem_map.mp ha with ⟨q, hq, hfq⟩
        rcases List.mem_singleton.mp hb with rfl
        have := (hwfP q hq).2.1
        show False
        rw [hfq] at this
        simp at this
      have hpairs2 : ((spr ++ [({ p with componentID := cid, id := sf } :
          MPreset)]).map fun q => (q.componentID, strToLower q.name)).Nodup := by
        rw [List.map_append, List.map_singleton]
        rw [List.nodup_append]
        refine ⟨hpk, List.nodup_singleton _, ?_⟩
        intro a ha hb
        rcases List.mem_map.mp ha with ⟨q, hq, hfq⟩
        rcases List.mem_singleton.mp hb with rfl
        apply hnomatch q hq
        rw [Prod.mk.injEq] at hfq
        exact ⟨by simpa using hfq.1, by simpa using hfq.2⟩
      rcases he : syncPresets
          (SyncState.mk
            (Space.mk sc sg
              (spr ++ [{ p with componentID := cid, id := sf }]) stg (sf + 1))
            cg ct cc
            (ops ++ [ApiOp.createPreset { p with componentID := cid, id := 0 }]))
          cid
          (fun k => if k = strToLower p.name then
            some ({ p with componentID := cid, id := sf } : MPreset)
            else m k)
          rest with ⟨st2, m2⟩
      obtain ⟨c1, c2, c3, c4, c5, c6, c7, c8, c9, c10, c11, c12, c13, c14⟩ :=
        ih (SyncState.mk
            (Space.mk sc sg
              (spr ++ [{ p with componentID := cid, id := sf }]) stg (sf + 1))
            cg ct cc
            (ops ++ [ApiOp.createPreset { p with componentID := cid, id := 0 }]))
          (fun k => if k = strToLower p.name then
            some ({ p with componentID := cid, id := sf } : MPreset)
            else m k)
          hm1 hbounds2 hids2 hpairs2 hcps_rest (by show cid < sf + 1; omega)
          (by show 1 ≤ sf + 1; omega)
      rw [he] at c1 c2 c3 c4 c5 c6 c7 c8 c9 c10 c11 c12 c13 c14
      simp only at c1 c2 c3 c4 c5 c6 c7 c8 c9 c10 c11 c12 c13 c14
      have hstep : syncPresets
          (SyncState.mk (Space.mk sc sg spr stg sf) cg ct cc ops) cid m
          (p :: rest) = (st2, m2) := by
        simp only [syncPresets, hmk, hsrv, he]
      rw [hstep]
      simp only
      have hupframe : m2 (strToLower p.name) =
          some ({ p with componentID := cid, id := sf } : MPreset) := by
        have := syncPresets_m_frame cid rest
          (SyncState.mk
            (Space.mk sc sg
              (spr ++ [{ p with componentID := cid, id := sf }]) stg (sf + 1))
            cg ct cc
            (ops ++ [ApiOp.createPreset { p with componentID := cid, id := 0 }]))
          (fun k => if k = strToLower p.name then
            some ({ p with componentID := cid, id := sf } : MPreset)
            else m k)
          (strToLower p.name) hcps_head
        rw [he] at this
        simp only at this
        rw [this]
        simp
      refine ⟨c1, c2, c3, c4, c5, c6, by omega, c8, ?_, ?_, ?_, c12, c13, c14⟩
      · intro p2 hp2
        rcases List.mem_cons.mp hp2 with hp2 | hp2
        · subst hp2
          refine ⟨{ p2 with componentID := cid, id := sf }, hupframe, ?_, ?_⟩
          · apply c11 _ (by
              apply List.mem_append_right
              exact List.mem_singleton_self _)
            right
            show strToLower ({ p2 with componentID := cid, id := sf } :
              MPreset).name ∉ rest.map fun x => strToLower x.name
            exact hcps_head
          · show applyPresetUpdate { p2 with componentID := cid, id := sf }
              { p2 with
                componentID := cid
                id := ({ p2 with componentID := cid, id := sf } :
                  MPreset).id } =
              { p2 with componentID := cid, id := sf }
            exact applyPresetUpdate_create
              { p2 with componentID := cid } sf _
        · rcases c9 p2 hp2 with ⟨ep2, h1, h2, h3⟩
          exact ⟨ep2, h1, h2, h3⟩
      · intro cid2 hcid2 k
        rw [c10 cid2 hcid2 k, presetKeyMap_append]
        rw [if_neg (by
          intro hcon
          exact hcid2 hcon.1.symm)]
      · intro q hq hcond
        apply c11
        · exact List.mem_append_left _ hq
        · rcases hcond with hcond | hcond
          · exact Or.inl hcond
          · right
            intro hmem
            exact hcond (List.mem_cons_of_mem _ hmem)

theorem ensureComponentGroup_noop (st : SyncState) (gn : String)
    (h : gn = "" ∨ (st.groups (normKey gn)).isSome = true ∨ normKey gn = "") :
    ensureComponentGroup st gn =
      (st, if gn = "" then none else st.groups (normKey gn)) := by
  unfold ensureComponentGroup
  rcases h with h | h | h
  · simp [h]
  · by_cases hgn : gn = ""
    · simp [hgn]
    · rcases Option.isSome_iff_exists.mp h with ⟨u, hu⟩
      simp [hgn, hu]
  · by_cases hgn : gn = ""
    · simp [hgn]
    · cases hc : st.groups (normKey gn) with
      | some u => simp [hgn, hc]
      | none => simp [hgn, hc, h]

theorem ensureComponentGroup_create (st : SyncState) (gn : String)
    (hgn : gn ≠ "") (hm : st.groups (normKey gn) = none)
    (hnk : normKey gn ≠ "") :
    (ensureComponentGroup st gn).2 = some st.space.fresh ∧
    (ensureComponentGroup st gn).1.space.comps = st.space.comps ∧
    (ensureComponentGroup st gn).1.space.groups =
      st.space.groups ++ [RGroup.mk st.space.fresh gn] ∧
    (ensureComponentGroup st gn).1.space.presets = st.space.presets ∧
    (ensureComponentGroup st gn).1.space.tags = st.space.tags ∧
    (ensureComponentGroup st gn).1.space.fresh = st.space.fresh + 1 ∧
    (ensureComponentGroup st gn).1.groups =
      groupCacheSet st.groups gn st.space.fresh ∧
    (ensureComponentGroup st gn).1.tags = st.tags ∧
    (ensureComponentGroup st gn).1.comps = st.comps := by
  unfold ensureComponentGroup serverCreateGroup
  simp [hgn, hm, hnk]

theorem ensureInternalTags_spec :
    ∀ (names : List String) (st : SyncState),
      st.tags = seedTagCache st.space.tags →
      1 ≤ st.space.fresh →
      (∀ t ∈ st.space.tags, 1 ≤ t.id ∧ t.id < st.space.fresh) →
      (ensureInternalTags st names).1.space.comps = st.space.comps ∧
      (ensureInternalTags st names).1.space.presets = st.space.presets ∧
      (ensureInternalTags st names).1.space.groups = st.space.groups ∧
      (ensureInternalTags st names).1.groups = st.groups ∧
      (ensureInternalTags st names).1.comps = st.comps ∧
      st.space.fresh ≤ (ensureInternalTags st names).1.space.fresh ∧
      (∀ t ∈ (ensureInternalTags st names).1.space.tags,
        1 ≤ t.id ∧ t.id < (ensureInternalTags st names).1.space.fresh) ∧
      (ensureInternalTags st names).1.tags =
        seedTagCache (ensureInternalTags st names).1.space.tags ∧
      (∀ k, k ≠ "" → ∀ u, st.tags k = some u →
        (ensureInternalTags st names).1.tags k = some u) ∧
      resolveTagIDs (ensureInternalTags st names).1.tags names =
        some (ensureInternalTags st names).2 := by
  intro names
  induction names with
  | nil =>
    intro st hcoh hfresh htags
    refine ⟨rfl, rfl, rfl, rfl, rfl, le_refl _, htags, hcoh, ?_, rfl⟩
    intro k _ u hu; exact hu
  | cons n rest ih =>
    intro st hcoh hfresh htags
    obtain ⟨⟨sc, sg, sp, stg, sf⟩, cg, ct, cc, ops⟩ := st
    simp only at hcoh hfresh htags ⊢
    by_cases hn : strTrim n = ""
    · have heq : ensureInternalTags
          (SyncState.mk (Space.mk sc sg sp stg sf) cg ct cc ops)
          (n :: rest) =
          ensureInternalTags
            (SyncState.mk (Space.mk sc sg sp stg sf) cg ct cc ops) rest := by
        simp [ensureInternalTags, hn]
      obtain ⟨c1, c2, c3, c4, c5, c6, c7, c8, c9, c10⟩ :=
        ih (SyncState.mk (Space.mk sc sg sp stg sf) cg ct cc ops)
          hcoh hfresh htags
      rw [heq]
      exact ⟨c1, c2, c3, c4, c5, c6, c7, c8, c9, by
        simp [resolveTagIDs, hn, c10]⟩
    · cases hc : ct (strTrim n) with
      | some id =>
        obtain ⟨c1, c2, c3, c4, c5, c6, c7, c8, c9, c10⟩ :=
          ih (SyncState.mk (Space.mk sc sg sp stg sf) cg ct cc ops)
            hcoh hfresh htags
        rcases he : ensureInternalTags
            (SyncState.mk (Space.mk sc sg sp stg sf) cg ct cc ops) rest
          with ⟨st2, ids⟩
        have heq : ensureInternalTags
            (SyncState.mk (Space.mk sc sg sp stg sf) cg ct cc ops)
            (n :: rest) = (st2, id :: ids) := by
          simp [ensureInternalTags, hn, hc, he]
        rw [heq]
        rw [he] at c1 c2 c3 c4 c5 c6 c7 c8 c9 c10
        refine ⟨c1, c2, c3, c4, c5, c6, c7, c8, c9, ?_⟩
        have hst2 : st2.tags (strTrim n) = some id := c9 _ hn id hc
        simp [resolveTagIDs, hn, hst2, c10]
      | none =>
        have hidz : sf ≠ 0 := by omega
        have hnn : strTrim (strTrim n) = strTrim n := strTrim_idem n
        obtain ⟨c1, c2, c3, c4, c5, c6, c7, c8, c9, c10⟩ :=
          ih (SyncState.mk
              (Space.mk sc sg sp
                (stg ++ [RTag.mk sf (strTrim n) "component"]) (sf + 1))
              cg (tagCacheSet ct (strTrim n) sf) cc
              (ops ++ [ApiOp.createTag (strTrim n)]))
            (by
              show tagCacheSet ct (strTrim n) sf =
                seedTagCache (stg ++ [RTag.mk sf (strTrim n) "component"])
              rw [seedTagCache_append]
              simp only [RTag.mk.injEq]
              rw [if_pos ⟨hn, hidz⟩, hcoh])
            (by
              show 1 ≤ sf + 1
              omega)
            (by
              show ∀ t ∈ stg ++ [RTag.mk sf (strTrim n) "component"],
                1 ≤ t.id ∧ t.id < sf + 1
              intro t ht
              rcases List.mem_append.mp ht with h | h
              · have h2 := htags t h
                exact ⟨h2.1, by omega⟩
              · simp only [List.mem_singleton] at h
                subst h
                constructor
                · show 1 ≤ sf
                  omega
                · show sf < sf + 1
                  omega)
        rcases he : ensureInternalTags
            (SyncState.mk
              (Space.mk sc sg sp
                (stg ++ [RTag.mk sf (strTrim n) "component"]) (sf + 1))
              cg (tagCacheSet ct (strTrim n) sf) cc
              (ops ++ [ApiOp.createTag (strTrim n)])) rest
          with ⟨st2, ids⟩
        have heq : ensureInternalTags
            (SyncState.mk (Space.mk sc sg sp stg sf) cg ct cc ops)
            (n :: rest) = (st2, sf :: ids) := by
          simp [ensureInternalTags, hn, hc, serverCreateTag, he]
        rw [heq]
        rw [he] at c1 c2 c3 c4 c5 c6 c7 c8 c9 c10
        simp only at c1 c2 c3 c4 c5 c6 c7 c8 c9 c10
        have hset : ∀ k, tagCacheSet ct (strTrim n) sf k =
            if k = strTrim n then some sf else ct k := by
          intro k
          rw [tagCacheSet_eval _ _ _ _ hn hidz (by rw [hnn]; exact hn), hnn]
        refine ⟨c1, c2, c3, c4, c5,
          by show sf ≤ st2.space.fresh; omega, c7, c8, ?_, ?_⟩
        · intro k hk u hu
          apply c9 k hk u
          rw [hset k]
          have hku : ¬ k = strTrim n := by
            intro hkk
            rw [hkk, hc] at hu
            cases hu
          rw [if_neg hku]
          exact hu
        · have hst2 : st2.tags (strTrim n) = some sf := by
            apply c9 _ hn sf
            rw [hset (strTrim n), if_pos rfl]
          simp [resolveTagIDs, hn, hst2, c10]

theorem ensureInternalTags_noop :
    ∀ (names : List String) (st : SyncState) (tids : List Nat),
      resolveTagIDs st.tags names = some tids →
      ensureInternalTags st names = (st, tids) := by
  intro names
  induction names with
  | nil =>
    intro st tids h
    simp only [resolveTagIDs, Option.some.injEq] at h
    simp [ensureInternalTags, ← h]
  | cons n rest ih =>
    intro st tids h
    by_cases hn : strTrim n = ""
    · simp only [resolveTagIDs, hn, if_pos rfl] at h
      simp [ensureInternalTags, hn, ih st tids h]
    · cases hc : st.tags (strTrim n) with
      | none =>
        simp only [resolveTagIDs, if_neg hn, hc] at h
        exact Option.noConfusion h
      | some id =>
        simp only [resolveTagIDs, if_neg hn, hc] at h
        cases hr : resolveTagIDs st.tags rest with
        | none => rw [hr] at h; cases h
        | some ids =>
          rw [hr] at h
          have h2 : id :: ids = tids := by simpa using h
          simp [ensureInternalTags, hn, hc, ih st ids hr, ← h2]

theorem syncPresets_noop (cid : Nat) :
    ∀ (cps : List MPreset) (st : SyncState) (m : String → Option MPreset),
      (∀ k, m k = presetKeyMap st.space.presets cid k) →
      ((st.space.presets.map fun q => q.id).Nodup) →
      (∀ p ∈ cps, PresetSynced st.space cid p) →
      (syncPresets st cid m cps).1.space = st.space ∧
      (syncPresets st cid m cps).1.groups = st.groups ∧
      (syncPresets st cid m cps).1.tags = st.tags ∧
      (syncPresets st cid m cps).1.comps = st.comps ∧
      (∀ k, (syncPresets st cid m cps).2 k = m k) := by
  intro cps
  induction cps with
  | nil =>
    intro st m hm hnd hall
    exact ⟨rfl, rfl, rfl, rfl, fun k => rfl⟩
  | cons p rest ih =>
    intro st m hm hnd hall
    obtain ⟨ep, hep1, hep2, hep3⟩ := hall p (List.mem_cons_self p rest)
    have hmk : m (strToLower p.name) = some ep := by
      rw [hm]; exact hep1
    have hepuniq : ∀ q ∈ st.space.presets, q.id = ep.id → q = ep :=
      preset_uniq_of_nodup st.space.presets hnd ep hep2
    have hsrv : serverUpdatePreset st.space
        { p with componentID := cid, id := ep.id } = (st.space, ep) :=
      serverUpdatePreset_noop st.space ep
        { p with componentID := cid, id := ep.id } hep2 hepuniq rfl hep3
    obtain ⟨c1, c2, c3, c4, c5⟩ := ih
      { st with
        space := st.space
        ops := st.ops ++
          [ApiOp.updatePreset { p with componentID := cid, id := ep.id }] }
      (fun k => if k = strToLower p.name then some ep else m k)
      (by
        intro k
        show (if k = strToLower p.name then some ep else m k) =
          presetKeyMap st.space.presets cid k
        by_cases hk : k = strToLower p.name
        · rw [if_pos hk, hk]
          exact hep1.symm
        · rw [if_neg hk]
          exact hm k)
      hnd
      (fun q hq => hall q (List.mem_cons_of_mem p hq))
    have heq : syncPresets st cid m (p :: rest) =
        syncPresets
          { st with
            space := st.space
            ops := st.ops ++
              [ApiOp.updatePreset { p with componentID := cid, id := ep.id }] }
          cid
          (fun k => if k = strToLower p.name then some ep else m k)
          rest := by
      simp [syncPresets, hmk, hsrv]
    rw [heq]
    refine ⟨c1, c2, c3, c4, ?_⟩
    intro k
    rw [c5 k]
    by_cases hk : k = strToLower p.name
    · rw [if_pos hk, hk, hmk]
    · rw [if_neg hk]

theorem updateComponentGo_noop (st : SyncState) (r u : MComponent)
    (cps : List MPreset)
    (hmem : r ∈ st.space.comps)
    (hcnodup : (st.space.comps.map fun x => x.id).Nodup)
    (hpnodup : (st.space.presets.map fun q => q.id).Nodup)
    (happ : applyComponentUpdate r { u with id := r.id, presetID := 0 } = r)
    (hps : ∀ p ∈ cps, PresetSynced st.space r.id p)
    (hfix : defaultPresetName u cps ≠ "" →
      ∃ tp, presetKeyMap st.space.presets r.id (defaultPresetName u cps) =
        some tp ∧ tp.id = r.presetID) :
    (updateComponentGo st r u cps st.space.presets).1.space = st.space ∧
    (updateComponentGo st r u cps st.space.presets).1.groups = st.groups ∧
    (updateComponentGo st r u cps st.space.presets).1.tags = st.tags ∧
    (updateComponentGo st r u cps st.space.presets).2 = r := by
  have huniq : ∀ x ∈ st.space.comps, x.id = r.id → x = r :=
    comp_uniq_of_nodup st.space.comps hcnodup r hmem
  have hsrv : serverUpdateComponent st.space r.id
      { u with id := r.id, presetID := 0 } = (st.space, r) :=
    serverUpdateComponent_noop st.space r _ hmem huniq happ
  obtain ⟨s1c, s2c, s3c, s4c, s5c⟩ := syncPresets_noop r.id cps
    { st with
      space := st.space
      ops := st.ops ++
        [ApiOp.updateComp r.id { u with id := r.id, presetID := 0 }] }
    (presetKeyMap st.space.presets r.id)
    (fun k => rfl) hpnodup hps
  rcases he : syncPresets
      { st with
        space := st.space
        ops := st.ops ++
          [ApiOp.updateComp r.id { u with id := r.id, presetID := 0 }] }
      r.id (presetKeyMap st.space.presets r.id) cps with ⟨st2, m2⟩
  rw [he] at s1c s2c s3c s4c s5c
  simp only at s1c s2c s3c s4c s5c
  by_cases hdn : defaultPresetName u cps = ""
  · have heq : updateComponentGo st r u cps st.space.presets = (st2, r) := by
      simp [updateComponentGo, hsrv, he, hdn]
    rw [heq]
    exact ⟨s1c, s2c, s3c, rfl⟩
  · obtain ⟨tp, htp1, htp2⟩ := hfix hdn
    have hm2 : m2 (defaultPresetName u cps) = some tp := by
      rw [s5c]
      exact htp1
    have heq : updateComponentGo st r u cps st.space.presets = (st2, r) := by
      simp only [updateComponentGo, hsrv, he]
      simp [hdn, hm2, htp2]
    rw [heq]
    exact ⟨s1c, s2c, s3c, rfl⟩

theorem processPlan_noop (st : SyncState) (plan : Plan)
    (hfound : plan.found = true)
    (hg : st.groups = seedGroupCache st.space.groups)
    (ht : st.tags = seedTagCache st.space.tags)
    (hcnodup : (st.space.comps.map fun x => x.id).Nodup)
    (hpnodup : (st.space.presets.map fun q => q.id).Nodup)
    (hsync : CompSynced st.space plan.component plan.presets plan.existing) :
    (processPlan st.space.presets st plan).1.space = st.space ∧
    (processPlan st.space.presets st plan).1.groups = st.groups ∧
    (processPlan st.space.presets st plan).1.tags = st.tags := by
  obtain ⟨pidx, pc, pex, pfound, pcps⟩ := plan
  simp only at hfound hsync ⊢
  subst hfound
  obtain ⟨hcache, hmem, huniqS, hgroupOk, htagsOk, hupd, hpresets, hfixup⟩ :=
    hsync
  rw [← hg] at hgroupOk
  rw [← ht] at htagsOk
  rw [← hg, ← ht] at hupd
  obtain ⟨tids, htids⟩ := Option.isSome_iff_exists.mp htagsOk
  have htags_noop := ensureInternalTags_noop pc.tagsList st tids htids
  by_cases hgn : pc.groupName = ""
  · have hresolved : resolvedPayload st.groups st.tags pc =
        { pc with
          schema := rewriteSchema
            (fun s => (st.groups (normKey s)).map uuidStr) pc.schema
          tagIDs := tids } := by
      simp [resolvedPayload, hgn, htids]
    rw [hresolved] at hupd
    obtain ⟨u1, u2, u3, u4⟩ := updateComponentGo_noop st pex
      { pc with
        schema := rewriteSchema
          (fun s => (st.groups (normKey s)).map uuidStr) pc.schema
        tagIDs := tids }
      pcps hmem hcnodup hpnodup hupd hpresets hfixup
    simp only [processPlan, hgn, htags_noop]
    refine ⟨?_, ?_, ?_⟩ <;> simp [htags_noop, u1, u2, u3]
  · have hens : ensureComponentGroup st pc.groupName =
        (st, st.groups (normKey pc.groupName)) := by
      have := ensureComponentGroup_noop st pc.groupName (by
        by_cases h2 : normKey pc.groupName = ""
        · exact Or.inr (Or.inr h2)
        · exact Or.inr (Or.inl (hgroupOk hgn h2)))
      rw [this, if_neg hgn]
    have hresolved : resolvedPayload st.groups st.tags pc =
        { pc with
          groupUUID := st.groups (normKey pc.groupName)
          groupName := ""
          schema := rewriteSchema
            (fun s => (st.groups (normKey s)).map uuidStr) pc.schema
          tagIDs := tids } := by
      simp [resolvedPayload, hgn, htids]
    rw [hresolved] at hupd
    obtain ⟨u1, u2, u3, u4⟩ := updateComponentGo_noop st pex
      { pc with
        groupUUID := st.groups (normKey pc.groupName)
        groupName := ""
        schema := rewriteSchema
          (fun s => (st.groups (normKey s)).map uuidStr) pc.schema
        tagIDs := tids }
      pcps hmem hcnodup hpnodup hupd hpresets hfixup
    simp only [processPlan, hgn, hens, htags_noop]
    refine ⟨?_, ?_, ?_⟩ <;> simp [hgn, hens, htags_noop, u1, u2, u3]

theorem runPlans_noop :
    ∀ (plans : List Plan) (st : SyncState),
      st.groups = seedGroupCache st.space.groups →
      st.tags = seedTagCache st.space.tags →
      ((st.space.comps.map fun x => x.id).Nodup) →
      ((st.space.presets.map fun q => q.id).Nodup) →
      (∀ plan ∈ plans, plan.found = true ∧
        CompSynced st.space plan.component plan.presets plan.existing) →
      (runPlans st.space.presets st plans).1.space = st.space := by
  intro plans
  induction plans with
  | nil => intro st _ _ _ _ _; rfl
  | cons plan rest ih =>
    intro st hg ht hcn hpn hall
    obtain ⟨hfound, hsync⟩ := hall plan (List.mem_cons_self plan rest)
    obtain ⟨p1, p2, p3⟩ := processPlan_noop st plan hfound hg ht hcn hpn hsync
    rcases he : processPlan st.space.presets st plan with ⟨st1, o⟩
    rw [he] at p1 p2 p3
    simp only at p1 p2 p3
    have ihv := ih st1 (by rw [p2, p1]; exact hg) (by rw [p3, p1]; exact ht)
      (by rw [p1]; exact hcn) (by rw [p1]; exact hpn)
      (by
        intro pl hpl
        rw [p1]
        exact hall pl (List.mem_cons_of_mem _ hpl))
    rw [p1] at ihv
    rcases he2 : runPlans st.space.presets st1 rest with ⟨stF, os⟩
    rw [he2] at ihv
    simp only at ihv
    have heq : runPlans st.space.presets st (plan :: rest) = (stF, o :: os) := by
      simp [runPlans, he, he2]
    rw [heq]
    exact ihv

theorem planStep_mem_spec (compsC : CompCache)
    (presetMap : String → List MPreset) :
    ∀ (sel : List MComponent) (acc : List Plan × Nat × Nat) (pl : Plan),
      pl ∈ (sel.foldl (planStep compsC presetMap false) acc).1 →
      pl ∈ acc.1 ∨ (pl.component ∈ sel ∧
        pl.existing = (compsC (normKey pl.component.name)).getD emptyComponent ∧
        pl.found = (compsC (normKey pl.component.name)).isSome ∧
        pl.presets = presetMap (strToLower pl.component.name)) := by
  intro sel
  induction sel with
  | nil => intro acc pl h; exact Or.inl h
  | cons c rest ih =>
    intro acc pl h
    rw [List.foldl_cons] at h
    rcases ih _ pl h with h2 | h2
    · simp only [planStep, Bool.false_eq_true, if_false] at h2
      rcases List.mem_append.mp h2 with h3 | h3
      · exact Or.inl h3
      · rcases List.mem_singleton.mp h3 with rfl
        right
        exact ⟨List.mem_cons_self c rest, rfl, rfl, rfl⟩
    · right
      exact ⟨List.mem_cons_of_mem _ h2.1, h2.2⟩

/-- **C3, counterexample**: the push sync is not idempotent as claimed.
Component `a` carries a whitelist naming group `g`; component `b`
declares `g` as its group.  During the first run `a` is processed before
`b`, so `g` does not exist yet and the whitelist entry is passed through
as the raw name; the run then creates `g` for `b`.  The second run
resolves the entry to the now-existing group's UUID and rewrites `a`'s
stored schema, so the remote state after run 2 differs from the state
after run 1. -/
theorem sync_idempotence_claim_counterexample :
    ∃ (run1 run2 : RunResult × Space),
      pushRun (fun _ _ => false) (RunOptions.mk [] "exact" true false)
        [MComponent.mk 0 "a" ""
           [("f", FieldVal.withWhitelist [WLEntry.str "g"] 0)] none "" 0 [] [],
         MComponent.mk 0 "b" "" [] none "g" 0 [] []]
        [] (Space.mk [] [] [] [] 1) = .ok run1 ∧
      pushRun (fun _ _ => false) (RunOptions.mk [] "exact" true false)
        [MComponent.mk 0 "a" ""
           [("f", FieldVal.withWhitelist [WLEntry.str "g"] 0)] none "" 0 [] [],
         MComponent.mk 0 "b" "" [] none "g" 0 [] []]
        [] run1.2 = .ok run2 ∧
      run2.2 ≠ run1.2 :=
  ⟨(RunResult.mk 0 2 0 [] ["a", "b"] [],
    Space.mk
      [MComponent.mk 1 "a" ""
         [("f", FieldVal.withWhitelist [WLEntry.str "g"] 0)] none "" 0 [] [],
       MComponent.mk 3 "b" "" [] (some 2) "" 0 [] []]
      [RGroup.mk 2 "g"] [] [] 4),
   (RunResult.mk 0 2 0 [] [] ["a", "b"],
    Space.mk
      [MComponent.mk 1 "a" ""
         [("f", FieldVal.withWhitelist [WLEntry.str "2"] 0)] none "" 0 [] [],
       MComponent.mk 3 "b" "" [] (some 2) "" 0 [] []]
      [RGroup.mk 2 "g"] [] [] 4),
   by decide, by decide, by decide⟩

/-! ## Claim C8 — partial selector matches are not fatal -/

theorem serverUpdateComponent_echo_name (s : Space) (cid : Nat) (c : MComponent) :
    (serverUpdateComponent s cid c).2.name = c.name := by
  unfold serverUpdateComponent
  dsimp only
  cases s.comps.find? fun r => r.id == cid with
  | none => rfl
  | some r => rfl

theorem updateComponentGo_name (st : SyncState) (existing updated : MComponent)
    (presets targetPresets : List MPreset) :
    (updateComponentGo st existing updated presets targetPresets).2.name =
      updated.name := by
  unfold updateComponentGo
  by_cases hd : defaultPresetName updated presets = ""
  · simp only [hd, ne_eq, not_true_eq_false, if_false, if_true]
    exact serverUpdateComponent_echo_name _ _ _
  · simp only [hd, ne_eq, not_false_eq_true, if_true, if_false]
    cases hm : (syncPresets
        { st with
          space := (serverUpdateComponent st.space existing.id
            { updated with id := existing.id, presetID := 0 }).1
          ops := st.ops ++ [ApiOp.updateComp existing.id
            { updated with id := existing.id, presetID := 0 }] }
        existing.id (presetKeyMap targetPresets existing.id)
        presets).2 (defaultPresetName updated presets) with
    | some target =>
      by_cases ht : target.id = existing.presetID
      · simp only [hm, ht, ne_eq, not_true_eq_false, if_false, if_true]
        exact serverUpdateComponent_echo_name _ _ _
      · simp only [hm, ht, ne_eq, not_false_eq_true, if_true, if_false]
        exact serverUpdateComponent_echo_name _ _ _
    | none =>
      simp only [hm]
      exact serverUpdateComponent_echo_name _ _ _

theorem createComponentGo_name (st : SyncState) (component : MComponent)
    (presets : List MPreset) :
    (createComponentGo st component presets).2.name = component.name := by
  unfold createComponentGo
  by_cases hp : presets = []
  · simp [hp, serverCreateComponent]
  · simp only [hp, Bool.false_eq_true, if_false, if_true]
    by_cases hd : defaultPresetName component presets = ""
    · simp [hd, serverCreateComponent]
    · simp only [hd, ne_eq, not_false_eq_true, if_true, if_false]
      cases hm : findPresetByName
          (createPresetsFor
            { st with
              space := (serverCreateComponent st.space
                { component with presetID := 0 }).1
              ops := st.ops ++ [ApiOp.createComp
                { component with presetID := 0 }] }
            (serverCreateComponent st.space
              { component with presetID := 0 }).2.id presets).2
          (defaultPresetName component presets) with
      | some target =>
        simp only [hm]
        rw [serverUpdateComponent_echo_name]
        simp [serverCreateComponent]
      | none =>
        simp only [hm]
        simp [serverCreateComponent]

theorem processPlan_name (targetPresets : List MPreset) (st : SyncState)
    (plan : Plan) :
    (processPlan targetPresets st plan).2.name = plan.component.name := by
  unfold processPlan
  by_cases hg : plan.component.groupName = "" <;>
    by_cases hf : plan.found <;>
      simp [hg, hf, updateComponentGo_name, createComponentGo_name]

theorem runPlans_names (targetPresets : List MPreset) :
    ∀ (plans : List Plan) (st : SyncState),
      ((runPlans targetPresets st plans).2).map (fun o => o.name) =
        plans.map fun p => p.component.name := by
  intro plans
  induction plans with
  | nil => intro st; simp [runPlans]
  | cons plan rest ih =>
    intro st
    unfold runPlans
    simp only [List.map_cons]
    rw [processPlan_name]
    congr 1
    exact ih _

theorem planStep_fold (compsC : CompCache) (presetMap : String → List MPreset) :
    ∀ (sel : List MComponent) (acc : List Plan × Nat × Nat),
      ((sel.foldl (planStep compsC presetMap false) acc).1).map
          (fun p => p.component) =
        acc.1.map (fun p => p.component) ++ sel ∧
      (sel.foldl (planStep compsC presetMap false) acc).2 = acc.2 := by
  intro sel
  induction sel with
  | nil => intro acc; simp
  | cons c rest ih =>
    intro acc
    rw [List.foldl_cons]
    obtain ⟨h1, h2⟩ := ih (planStep compsC presetMap false acc c)
    constructor
    · rw [h1]
      simp [planStep]
    · rw [h2]
      simp [planStep]

theorem aggStep_fold :
    ∀ (outcomes : List Outcome) (acc : Nat × Nat × List String × List String),
      (∀ o ∈ outcomes, o.name ≠ "") →
      (outcomes.foldl aggStep acc).1 = acc.1 + outcomes.length := by
  intro outcomes
  induction outcomes with
  | nil => intro acc _; simp
  | cons o rest ih =>
    intro acc hall
    rw [List.foldl_cons]
    have hname : o.name ≠ "" := hall o (List.mem_cons_self o rest)
    have hstep : aggStep acc o =
        (acc.1 + 1, acc.2.1 + o.presetCount,
         if o.created then acc.2.2.1 ++ [o.name] else acc.2.2.1,
         if !o.created && o.updated then acc.2.2.2 ++ [o.name] else acc.2.2.2) := by
      simp [aggStep, hname]
    rw [hstep, ih _ (fun q hq => hall q (List.mem_cons_of_mem o hq))]
    simp
    omega

theorem filterGo_ok_facts {α : Type} (glob : String → String → Bool)
    (items : List α) (nameFn : α → String) (selectors : List String)
    (mode : String) (sel : List α) (missing : List String)
    (hok : filterGo glob items nameFn selectors mode false = .ok (sel, missing)) :
    validMode (strToLower mode) = true ∧ sel.Sublist items := by
  by_cases hv : validMode (strToLower mode)
  · refine ⟨hv, ?_⟩
    unfold filterGo at hok
    simp only [hv, Bool.not_true, Bool.false_eq_true, if_false] at hok
    by_cases hempty : selectors.isEmpty
    · simp [hempty] at hok
    · simp only [hempty, Bool.false_eq_true, if_false,
        Except.ok.injEq, Prod.mk.injEq] at hok
      have hinv := filterStep_fold_inv glob nameFn
        (selectors.map fun s => strToLower (strTrim s)) (strToLower mode)
        items ⟨[], [], (selectors.map fun s => strToLower (strTrim s)).map
          fun _ => false⟩ [] (by simp) (by simp) (by simp)
      rcases hok with ⟨hsel, -⟩
      rw [← hsel]
      simpa using hinv.2.2
  · unfold filterGo at hok
    simp only [eq_false_of_ne_true hv, Bool.not_false, if_true] at hok
    simp at hok

/-- **C8.** When some selectors match no component and others do, the run
is not fatal: `Run` returns without error, the unmatched selectors are
reported in `MissingSelectors`, the exit code is set to the non-clean
value 1, and every matched component is still synced and counted in
`ComponentsSynced`. -/
theorem partial_match_nonfatal (glob : String → String → Bool)
    (names : List String) (mode : String) (components : List MComponent)
    (presetFiles : List MPreset) (space : Space)
    (sel : List MComponent) (missing : List String)
    (hnames : names ≠ [])
    (hcomps : components ≠ [])
    (hcname : ∀ c ∈ components, c.name ≠ "")
    (hfilter : filterGo glob components (fun c => c.name) names mode false =
      .ok (sel, missing))
    (hmissing : missing ≠ []) :
    ∃ (result : RunResult) (finalSpace : Space),
      pushRun glob (RunOptions.mk names mode false false)
        components presetFiles space =
        .ok (result, finalSpace) ∧
      result.missingSelectors = missing ∧
      result.exitCode = 1 ∧
      result.componentsSynced = sel.length := by
  obtain ⟨hvalid, hsub⟩ := filterGo_ok_facts glob components (fun c => c.name)
    names mode sel missing hfilter
  have hne : names.isEmpty = false := by
    cases names with
    | nil => exact absurd rfl hnames
    | cons _ _ => rfl
  have hce : components.isEmpty = false := by
    cases components with
    | nil => exact absurd rfl hcomps
    | cons _ _ => rfl
  have hme : missing.isEmpty = false := by
    cases missing with
    | nil => exact absurd rfl hmissing
    | cons _ _ => rfl
  unfold pushRun
  simp only [hvalid, hne, hce, hfilter, Bool.not_true, Bool.false_and,
    Bool.false_eq_true, if_false, hme, Bool.not_false]
  refine ⟨_, _, rfl, rfl, rfl, ?_⟩
  obtain ⟨hplans, hcnt⟩ := planStep_fold (seedCompCache space.comps)
    (buildPresetMap presetFiles) sel ([], 0, 0)
  have hnames2 := runPlans_names space.presets
    (sel.foldl (planStep (seedCompCache space.comps)
      (buildPresetMap presetFiles) false) ([], 0, 0)).1
    { space := space, groups := seedGroupCache space.groups,
      tags := seedTagCache space.tags, comps := seedCompCache space.comps,
      ops := [] }
  have hmapeq : ((runPlans space.presets
      { space := space, groups := seedGroupCache space.groups,
        tags := seedTagCache space.tags, comps := seedCompCache space.comps,
        ops := [] }
      (sel.foldl (planStep (seedCompCache space.comps)
        (buildPresetMap presetFiles) false) ([], 0, 0)).1).2).map
        (fun o => o.name) = sel.map fun c => c.name := by
    rw [hnames2]
    have : ((sel.foldl (planStep (seedCompCache space.comps)
        (buildPresetMap presetFiles) false) ([], 0, 0)).1).map
          (fun p => p.component.name) =
        (((sel.foldl (planStep (seedCompCache space.comps)
          (buildPresetMap presetFiles) false) ([], 0, 0)).1).map
            (fun p => p.component)).map (fun c => c.name) := by
      simp [List.map_map, Function.comp_def]
    rw [this, hplans]
    simp
  have hallne : ∀ o ∈ (runPlans space.presets
      { space := space, groups := seedGroupCache space.groups,
        tags := seedTagCache space.tags, comps := seedCompCache space.comps,
        ops := [] }
      (sel.foldl (planStep (seedCompCache space.comps)
        (buildPresetMap presetFiles) false) ([], 0, 0)).1).2, o.name ≠ "" := by
    intro o ho
    have : o.name ∈ sel.map fun c => c.name := by
      rw [← hmapeq]
      exact List.mem_map_of_mem _ ho
    rcases List.mem_map.mp this with ⟨c, hc, hcn⟩
    rw [← hcn]
    exact hcname c (hsub.subset hc)
  rw [aggStep_fold _ _ hallne]
  have hlen : ((runPlans space.presets
      { space := space, groups := seedGroupCache space.groups,
        tags := seedTagCache space.tags, comps := seedCompCache space.comps,
        ops := [] }
      (sel.foldl (planStep (seedCompCache space.comps)
        (buildPresetMap presetFiles) false) ([], 0, 0)).1).2).length =
      sel.length := by
    have := congrArg List.length hmapeq
    simpa using this
  rw [hlen, hcnt]
  simp

/-- **C8, witness**: the spec scenario — selectors `hero` and
`missing-one` against a destination holding only `hero`. -/
theorem partial_match_nonfatal_witness :
    ∃ (result : RunResult) (finalSpace : Space),
      pushRun (fun _ _ => false)
        (RunOptions.mk ["hero", "missing-one"] "exact" false false)
        [MComponent.mk 0 "hero" "" [] none "" 0 [] []] []
        (Space.mk [] [] [] [] 1) =
        .ok (result, finalSpace) ∧
      result.missingSelectors = ["missing-one"] ∧
      result.exitCode = 1 ∧
      result.componentsSynced =
        [MComponent.mk 0 "hero" "" [] none "" 0 [] []].length :=
  partial_match_nonfatal (fun _ _ => false) ["hero", "missing-one"] "exact"
    [MComponent.mk 0 "hero" "" [] none "" 0 [] []] []
    (Space.mk [] [] [] [] 1)
    [MComponent.mk 0 "hero" "" [] none "" 0 [] []] ["missing-one"]
    (by decide) (by decide) (by decide) (by decide) (by decide)

/-! ## Claim C3 — the amended idempotence theorem -/

theorem filterGo_ok_sublist {α : Type} (glob : String → String → Bool)
    (items : List α) (nameFn : α → String) (selectors : List String)
    (mode : String) (all : Bool) (sel : List α) (missing : List String)
    (hok : filterGo glob items nameFn selectors mode all = .ok (sel, missing)) :
    sel.Sublist items := by
  cases all with
  | false =>
    exact (filterGo_ok_facts glob items nameFn selectors mode
      sel missing hok).2
  | true =>
    unfold filterGo at hok
    by_cases hv : validMode (strToLower mode)
    · simp only [hv, Bool.not_true, Bool.false_eq_true, if_false, if_true,
        Except.ok.injEq, Prod.mk.injEq] at hok
      rw [← hok.1]
    · simp [hv] at hok

/-- **C3 (amended).** The push sync is not idempotent in general — see
the counterexample, where a whitelist entry resolves only on the second
run.  The repaired property: a further run over a destination that is
already synced with the desired component set is a remote no-op.
Whenever every desired component has a stored counterpart that the
caches seeded from the destination resolve and that absorbs the resolved
update payload, with its presets likewise absorbed and its `preset_id`
matching the resolved default preset (`CompSynced`), any successful run
returns the destination space unchanged. -/
theorem sync_idempotence_amended
    (glob : String → String → Bool) (opts : RunOptions)
    (components : List MComponent) (presetFiles : List MPreset)
    (s1 : Space) (res : RunResult) (s2 : Space)
    (hdry : opts.dryRun = false)
    (hcnodup : (s1.comps.map fun x => x.id).Nodup)
    (hpnodup : (s1.presets.map fun q => q.id).Nodup)
    (hsync : ∀ c ∈ components, ∃ r,
      CompSynced s1 c (buildPresetMap presetFiles (strToLower c.name)) r)
    (hrun : pushRun glob opts components presetFiles s1 = .ok (res, s2)) :
    s2 = s1 := by
  unfold pushRun at hrun
  by_cases hv : validMode (strToLower opts.matchMode)
  case neg =>
    rw [if_pos (by simp [hv])] at hrun
    simp at hrun
  rw [if_neg (by simp [hv])] at hrun
  by_cases hn : (!opts.all && opts.names.isEmpty) = true
  case pos =>
    rw [if_pos hn] at hrun
    simp at hrun
  rw [if_neg hn] at hrun
  by_cases hce : components.isEmpty = true
  case pos =>
    rw [if_pos hce] at hrun
    simp at hrun
  rw [if_neg hce] at hrun
  cases hf : filterGo glob components (fun c => c.name) opts.names
      opts.matchMode opts.all with
  | error e =>
    rw [hf] at hrun
    simp at hrun
  | ok pr =>
    obtain ⟨sel, missing⟩ := pr
    rw [hf] at hrun
    simp only [hdry, Except.ok.injEq, Prod.mk.injEq] at hrun
    have hsub : sel.Sublist components :=
      filterGo_ok_sublist glob components (fun c => c.name) opts.names
        opts.matchMode opts.all sel missing hf
    have hall : ∀ plan ∈ (sel.foldl
        (planStep (seedCompCache s1.comps) (buildPresetMap presetFiles) false)
        ([], 0, 0)).1,
        plan.found = true ∧
        CompSynced s1 plan.component plan.presets plan.existing := by
      intro plan hplan
      rcases planStep_mem_spec (seedCompCache s1.comps)
          (buildPresetMap presetFiles) sel ([], 0, 0) plan hplan with h | h
      · exact absurd h (List.not_mem_nil plan)
      · obtain ⟨hselmem, hex, hfound, hpl⟩ := h
        obtain ⟨r, hcs⟩ := hsync plan.component (hsub.subset hselmem)
        refine ⟨?_, ?_⟩
        · rw [hfound, hcs.cacheHit]
          rfl
        · rw [hpl]
          have hex2 : plan.existing = r := by
            rw [hex, hcs.cacheHit]
            rfl
          rw [hex2]
          exact hcs
    have hnoop := runPlans_noop
      ((sel.foldl
        (planStep (seedCompCache s1.comps) (buildPresetMap presetFiles) false)
        ([], 0, 0)).1)
      (SyncState.mk s1 (seedGroupCache s1.groups) (seedTagCache s1.tags)
        (seedCompCache s1.comps) [])
      rfl rfl hcnodup hpnodup hall
    rw [← hrun.2]
    exact hnoop

/-- **C3 (amended), witness**: a destination holding one component with
its group, internal tag, rewritten whitelist, synced preset and fixed-up
default `preset_id` is synced; the subsequent push run returns it
unchanged. -/
theorem sync_idempotence_amended_witness :
    ∃ s2 : Space,
      pushRun (fun _ _ => false) (RunOptions.mk [] "exact" true false)
        [MComponent.mk 0 "Hero" "H"
          [("body", FieldVal.withWhitelist [WLEntry.str "g1"] 5)]
          none "g1" 7 ["t1"] []]
        [MPreset.mk 7 "Default" 0 (PresetPayload.mk "Hero" 3) none]
        (Space.mk
          [MComponent.mk 3 "Hero" "H"
            [("body", FieldVal.withWhitelist [WLEntry.str "1"] 5)]
            (some 1) "" 4 ["t1"] [2]]
          [RGroup.mk 1 "g1"]
          [MPreset.mk 4 "Default" 3 (PresetPayload.mk "Hero" 3) none]
          [RTag.mk 2 "t1" "component"] 5) =
        .ok (RunResult.mk 0 1 1 [] [] ["Hero"], s2) ∧
      s2 = Space.mk
          [MComponent.mk 3 "Hero" "H"
            [("body", FieldVal.withWhitelist [WLEntry.str "1"] 5)]
            (some 1) "" 4 ["t1"] [2]]
          [RGroup.mk 1 "g1"]
          [MPreset.mk 4 "Default" 3 (PresetPayload.mk "Hero" 3) none]
          [RTag.mk 2 "t1" "component"] 5 := by
  refine ⟨Space.mk
      [MComponent.mk 3 "Hero" "H"
        [("body", FieldVal.withWhitelist [WLEntry.str "1"] 5)]
        (some 1) "" 4 ["t1"] [2]]
      [RGroup.mk 1 "g1"]
      [MPreset.mk 4 "Default" 3 (PresetPayload.mk "Hero" 3) none]
      [RTag.mk 2 "t1" "component"] 5, by decide, ?_⟩
  exact sync_idempotence_amended (fun _ _ => false)
    (RunOptions.mk [] "exact" true false)
    [MComponent.mk 0 "Hero" "H"
      [("body", FieldVal.withWhitelist [WLEntry.str "g1"] 5)]
      none "g1" 7 ["t1"] []]
    [MPreset.mk 7 "Default" 0 (PresetPayload.mk "Hero" 3) none]
    (Space.mk
      [MComponent.mk 3 "Hero" "H"
        [("body", FieldVal.withWhitelist [WLEntry.str "1"] 5)]
        (some 1) "" 4 ["t1"] [2]]
      [RGroup.mk 1 "g1"]
      [MPreset.mk 4 "Default" 3 (PresetPayload.mk "Hero" 3) none]
      [RTag.mk 2 "t1" "component"] 5)
    (RunResult.mk 0 1 1 [] [] ["Hero"])
    (Space.mk
      [MComponent.mk 3 "Hero" "H"
        [("body", FieldVal.withWhitelist [WLEntry.str "1"] 5)]
        (some 1) "" 4 ["t1"] [2]]
      [RGroup.mk 1 "g1"]
      [MPreset.mk 4 "Default" 3 (PresetPayload.mk "Hero" 3) none]
      [RTag.mk 2 "t1" "component"] 5)
    rfl (by decide) (by decide)
    (by
      intro c hc
      rw [List.mem_singleton] at hc
      subst hc
      refine ⟨MComponent.mk 3 "Hero" "H"
        [("body", FieldVal.withWhitelist [WLEntry.str "1"] 5)]
        (some 1) "" 4 ["t1"] [2], ?_, ?_, ?_, ?_, ?_, ?_, ?_, ?_⟩
      · decide
      · decide
      · decide
      · decide
      · decide
      · decide
      · intro p hp
        have hcps : buildPresetMap
            [MPreset.mk 7 "Default" 0 (PresetPayload.mk "Hero" 3) none]
            (strToLower (MComponent.mk 0 "Hero" "H"
              [("body", FieldVal.withWhitelist [WLEntry.str "g1"] 5)]
              none "g1" 7 ["t1"] []).name) =
            [MPreset.mk 7 "Default" 0 (PresetPayload.mk "Hero" 3) none] := by
          decide
        rw [hcps] at hp
        rw [List.mem_singleton] at hp
        subst hp
        exact ⟨MPreset.mk 4 "Default" 3 (PresetPayload.mk "Hero" 3) none,
          by decide, by decide, by decide⟩
      · intro hdn
        exact ⟨MPreset.mk 4 "Default" 3 (PresetPayload.mk "Hero" 3) none,
          by decide, by decide⟩)
    (by decide)

end Sbx
